import Mathlib

/-! # Shuffle sharding over an availability lattice

A shallow embedding of the Go package `shuffle` (lattice.go, shard.go,
stateful_shard.go) and the properties of its two sharders.

Modelling conventions.

* A Go `string` is a Lean `String` (valid UTF-8; on such strings the byte order
  used by `sort.Strings` is the order of the code points, and a search for the
  separator finds the same occurrences on bytes and on code points).
* A Go `map[string]T` is an association list; `mapGet` reads the first entry of a
  key and `mapSet` replaces it or appends a new one, so a list with distinct keys
  stays so.  Go iterates a map in an unspecified order; every loop over a map in
  this package computes a result that does not depend on it.
* A method with a pointer receiver that mutates the lattice takes the lattice and
  returns the new one.  A slice that shares its backing array with a cell of the
  lattice is modelled by writing the change back into the cell.
* A Go function that returns `(T, error)` returns an `Outcome T`, which also has
  a case for a run-time panic (index or slice bound out of range).
* A Go `int` has 64 bits, as on the platforms the package is built for;
  `toInt64` is the wrap-around of its arithmetic.
* The hash function, the pseudo-random source, the package-level seed and the
  growth policy of `append` are collaborators of the package: they are the
  fields of a `Runtime`.
-/

namespace Shuffle

/-! ## Go runtime pieces -/

/-- Result of a Go call that returns a value and an error, or panics. -/
inductive Outcome (α : Type) where
  | ok : α → Outcome α
  | error : String → Outcome α
  | panic : Outcome α
deriving DecidableEq, Repr

/-- The collaborators of the package. `seed` is the package-level variable
`seed` of shard.go (the time at start-up), `sum64WithSeed` is
`murmur3.Sum64WithSeed` (bytes and a 32-bit seed to a 64-bit hash), `source s`
is the stream of raw draws of `rand.NewSource(s)`, and `growCap n` is the
capacity of a slice that was grown from `[]string{}` by `n` single appends. -/
structure Runtime where
  seed : Int
  sum64WithSeed : List Nat → Nat → Nat
  source : Int → Nat → Nat
  growCap : Nat → Nat

/-- A `*rand.Rand`: a stream of raw draws and the number of draws consumed. -/
structure Rand where
  draws : Nat → Nat
  pos : Nat

/-- A draw in `[0, n)`, as of `r.Intn(n)`. -/
def Rand.intn (r : Rand) (n : Nat) : Nat × Rand :=
  (r.draws r.pos % n, { r with pos := r.pos + 1 })

/-- The body `xs[i], xs[j] = xs[j], xs[i]` of the swap functions. -/
def swap {α : Type} (xs : List α) (i j : Nat) : List α :=
  match xs[i]?, xs[j]? with
  | some a, some b => (xs.set i b).set j a
  | _, _ => xs

/-- The loop of `rand.Shuffle`: `for ; i > 0; i-- { j := r.Intn(i+1); swap(i, j) }`. -/
def shuffleFrom {α : Type} : Nat → Rand → List α → List α × Rand
  | 0, r, xs => (xs, r)
  | i + 1, r, xs => shuffleFrom i (r.intn (i + 2)).2 (swap xs (i + 1) (r.intn (i + 2)).1)

/-- The call `r.Shuffle(len(xs), swap)`: a Fisher-Yates shuffle that starts at
`i = len(xs) - 1`. -/
def Rand.Shuffle {α : Type} (r : Rand) (xs : List α) : List α × Rand :=
  shuffleFrom (xs.length - 1) r xs

/-- The order `a <= b` of Go strings. -/
def strLe (a b : String) : Prop := a.data ≤ b.data

instance strLe.decidable : DecidableRel strLe :=
  fun a b => inferInstanceAs (Decidable (a.data ≤ b.data))

instance strLe.isTotal : IsTotal String strLe :=
  ⟨fun a b => le_total a.data b.data⟩

instance strLe.isTrans : IsTrans String strLe :=
  ⟨fun _ _ _ h₁ h₂ => le_trans (α := List Char) h₁ h₂⟩

instance strLe.isAntisymm : IsAntisymm String strLe :=
  ⟨fun _ _ h₁ h₂ => String.ext (le_antisymm (α := List Char) h₁ h₂)⟩

/-- The result of `sort.Strings(s)`. -/
def sortStrings (s : List String) : List String := s.insertionSort strLe

/-- A `strings.Join` on lists of characters. -/
def joinChars (sep : List Char) : List (List Char) → List Char
  | [] => []
  | [a] => a
  | a :: b :: rest => a ++ sep ++ joinChars sep (b :: rest)

/-- A `strings.Split` on lists of characters: `acc` holds the current part in
reverse; the part ends at the leftmost occurrence of `sep`.  The first argument
bounds the number of steps; `length + 1` steps are always enough. -/
def splitChars (sep : List Char) : Nat → List Char → List Char → List (List Char)
  | 0, acc, rest => [acc.reverse ++ rest]
  | _ + 1, acc, [] => [acc.reverse]
  | n + 1, acc, c :: cs =>
    if sep.isPrefixOf (c :: cs) then
      acc.reverse :: splitChars sep n [] ((c :: cs).drop sep.length)
    else splitChars sep n (c :: acc) cs

/-- The call `strings.Join(elems, sep)`. -/
def stringsJoin (elems : List String) (sep : String) : String :=
  String.mk (joinChars sep.data (elems.map String.data))

/-- The call `strings.Split(s, sep)` for a non-empty `sep`. -/
def stringsSplit (s sep : String) : List String :=
  (splitChars sep.data (s.data.length + 1) [] s.data).map String.mk

/-- The call `fmt.Sprintf("%v", fragment)` on a `[]string`. -/
def sprintfV (fragment : List String) : String :=
  "[" ++ stringsJoin fragment " " ++ "]"

/-- Read of a Go map: `v, ok := m[k]`. -/
def mapGet {β : Type} : List (String × β) → String → Option β
  | [], _ => none
  | (k', v) :: m, k => if k' = k then some v else mapGet m k

/-- Write of a Go map: `m[k] = v`. -/
def mapSet {β : Type} : List (String × β) → String → β → List (String × β)
  | [], k, v => [(k, v)]
  | (k', v') :: m, k, v => if k' = k then (k, v) :: m else (k', v') :: mapSet m k v

/-- The keys of a Go map. -/
def mapKeys {β : Type} (m : List (String × β)) : List String := m.map Prod.fst

/-- A `[]string` held by a cell: `elems` is `s[0:len(s)]` and `spare` is the rest
of the backing array, up to `cap(s)`. -/
structure Slice where
  elems : List String
  spare : List String
deriving DecidableEq, Repr

/-- The capacity `cap(s)`. -/
def Slice.cap (s : Slice) : Nat := s.elems.length + s.spare.length

/-- The slice expression `s[:hi]`: it may reach into the spare capacity and
panics (`none`) when `hi` is negative or exceeds `cap(s)`. -/
def Slice.upTo (s : Slice) (hi : Int) : Option (List String) :=
  if hi < 0 ∨ (s.cap : Int) < hi then none
  else some ((s.elems ++ s.spare).take hi.toNat)

/-- The backing array of `s` after `append(s[:n], e...)`: the elements of `e` are
written after position `n` when they fit into the capacity; otherwise `append`
allocates a new array and `s` keeps its own. -/
def Slice.appended (s : Slice) (n : Nat) (e : List String) : Slice :=
  if n + e.length ≤ s.cap then
    { elems := ((s.elems ++ s.spare).take n ++ e ++ (s.elems ++ s.spare).drop (n + e.length)).take
        s.elems.length,
      spare := ((s.elems ++ s.spare).take n ++ e ++ (s.elems ++ s.spare).drop (n + e.length)).drop
        s.elems.length }
  else s

/-! ## lattice.go -/

/-- The struct `Lattice`.  The file lattice.go declares the three fields
`DimensionNames`, `ValuesByDimension` and `EndpointsByCoordinate`; shard.go also
reads a field `Seed` (an `int64`), whose declaration is not in lattice.go. -/
structure Lattice where
  Seed : Int
  DimensionNames : List String
  ValuesByDimension : List (String × List String)
  EndpointsByCoordinate : List (String × Slice)
deriving DecidableEq, Repr

/-- The constant `seperator`: a high-voltage sign followed by a variation
selector, six bytes in UTF-8. -/
def seperator : String := String.mk [Char.ofNat 0x26A1, Char.ofNat 0xFE0F]

/-- The loop of `set`: an element is appended the first time it is met. -/
def setLoop (arr : List String) : List String :=
  arr.foldl (fun s i => if i ∈ s then s else s ++ [i]) []

/-- The function `set`: the distinct elements of `arr`, sorted, in a new slice. -/
def set (arr : List String) : List String := sortStrings (setLoop arr)

/-- The slice that `set(arr)` returns, with the capacity it was grown to. -/
def setSlice (rt : Runtime) (arr : List String) : Slice :=
  { elems := set arr,
    spare := List.replicate (rt.growCap (set arr).length - (set arr).length) "" }

/-- The function `indexOf`: the first index of `p` in `s`, or `-1`. -/
def indexOf (s : List String) (p : String) : Int :=
  if s.indexOf p < s.length then (s.indexOf p : Int) else -1

/-- Modelled from the spec: the constructor with an explicit seed, which shard.go
calls and lattice.go does not define.  It is `NewLattice` with the field `Seed`
set to its first argument. -/
def NewLatticeWithSeed (seed : Int) (dims : List String) : Outcome Lattice :=
  if dims.length = 0 then .error "lattice: at least one dimension is required"
  else .ok
    { Seed := seed,
      DimensionNames := set (sortStrings dims),
      ValuesByDimension :=
        (set (sortStrings dims)).foldl (fun m d => mapSet m d []) [],
      EndpointsByCoordinate := [] }

/-- The function `NewLattice`.  The `Seed` of the new lattice is the package-level
seed.  (`sort.Strings(dims)` also sorts the slice of the caller; every
`DimensionNames` that is passed here is sorted already.) -/
def NewLattice (rt : Runtime) (dims : List String) : Outcome Lattice :=
  NewLatticeWithSeed rt.seed dims

/-- The slice `l.EndpointsByCoordinate[k]`; the nil slice when `k` is not a key. -/
def Lattice.cell (l : Lattice) (k : String) : Slice :=
  (mapGet l.EndpointsByCoordinate k).getD { elems := [], spare := [] }

/-- The assignment of a slice to the cell `k` through an alias of it: a key that
is not in the map is not created (its slice is nil). -/
def Lattice.setCell (l : Lattice) (k : String) (c : Slice) : Lattice :=
  match mapGet l.EndpointsByCoordinate k with
  | some _ => { l with EndpointsByCoordinate := mapSet l.EndpointsByCoordinate k c }
  | none => l

/-- The loop over the dimension names at the end of `AddEndpointsForSector`. -/
def addValues : List String → List String → List (String × List String) →
    List (String × List String)
  | d :: ds, v :: vs, m => addValues ds vs (mapSet m d (set (((mapGet m d).getD []) ++ [v])))
  | _, _, m => m

/-- The method `AddEndpointsForSector`, as a function of the lattice, for an
argument `ep` that shares no backing array with a cell of the lattice: the line
`ep = append(ep, e...)` then writes into an array of the caller or into a new
one, and the lattice sees the value `ep ++ e` alone.  The call with a part of a
cell of the lattice is `AddEndpointsForSectorOf`. -/
def AddEndpointsForSector (rt : Runtime) (l : Lattice) (sec ep : List String) :
    Outcome Lattice :=
  if sec.length ≠ l.DimensionNames.length then
    .error "lattice: mismatch between dimensions of the lattice and sector"
  else .ok
    { l with
      EndpointsByCoordinate :=
        mapSet l.EndpointsByCoordinate (stringsJoin sec seperator)
          (setSlice rt
            (match mapGet l.EndpointsByCoordinate (stringsJoin sec seperator) with
             | some e => ep ++ e.elems
             | none => ep)),
      ValuesByDimension := addValues l.DimensionNames sec l.ValuesByDimension }

/-- The lattice after a call of `AddEndpointsForSector` whose error is not looked
at. -/
def addIgnoringError (rt : Runtime) (l : Lattice) (sec ep : List String) : Lattice :=
  match AddEndpointsForSector rt l sec ep with
  | .ok l' => l'
  | _ => l

/-- The argument `ep` of a call of `AddEndpointsForSector`: a slice that shares no
backing array with a cell of the receiver, or the part `eps[lo:hi]` of the slice
`eps` that `GetEndpointsForSector` returned for the cell with the key `key` of the
receiver (that method returns the slice of the cell itself, not a copy). -/
inductive Endpoints where
  | own (ep : List String)
  | ofCell (key : String) (lo hi : Nat)
deriving DecidableEq, Repr

/-- The method `AddEndpointsForSector` for both kinds of argument.  The slice
expression `eps[lo:hi]` panics unless `lo <= hi <= cap(eps)`.  When the lattice
has a cell `e` at `sec`, the line `ep = append(ep, e...)` writes the elements of
`e` into the backing array of the cell `key` after position `hi`, when they fit
into its capacity; the cell at `sec` is then set to the new slice `set(ep)`. -/
def AddEndpointsForSectorOf (rt : Runtime) (l : Lattice) (sec : List String) :
    Endpoints → Outcome Lattice
  | .own ep => AddEndpointsForSector rt l sec ep
  | .ofCell key lo hi =>
    if hi < lo ∨ (l.cell key).cap < hi then .panic
    else if sec.length ≠ l.DimensionNames.length then
      .error "lattice: mismatch between dimensions of the lattice and sector"
    else
      match mapGet l.EndpointsByCoordinate (stringsJoin sec seperator) with
      | some e => .ok
        { l with
          EndpointsByCoordinate :=
            mapSet (l.setCell key ((l.cell key).appended hi e.elems)).EndpointsByCoordinate
              (stringsJoin sec seperator)
              (setSlice rt
                ((((l.cell key).elems ++ (l.cell key).spare).take hi).drop lo ++ e.elems)),
          ValuesByDimension := addValues l.DimensionNames sec l.ValuesByDimension }
      | none => .ok
        { l with
          EndpointsByCoordinate :=
            mapSet l.EndpointsByCoordinate (stringsJoin sec seperator)
              (setSlice rt ((((l.cell key).elems ++ (l.cell key).spare).take hi).drop lo)),
          ValuesByDimension := addValues l.DimensionNames sec l.ValuesByDimension }

/-- The method `GetEndpointsForSector`. -/
def GetEndpointsForSector (l : Lattice) (sec : List String) : Outcome (List String) :=
  if sec.length ≠ l.DimensionNames.length then
    .error "lattice: mismatch between dimensions of the lattice and sector"
  else .ok (l.cell (stringsJoin sec seperator)).elems

/-- The method `GetAllEndpoints`. -/
def GetAllEndpoints (l : Lattice) : List String :=
  set (l.EndpointsByCoordinate.flatMap (fun kv => kv.2.elems))

/-- The method `GetAllCoordinates`. -/
def GetAllCoordinates (l : Lattice) : List (List String) :=
  (set (mapKeys l.EndpointsByCoordinate)).map (fun k => stringsSplit k seperator)

/-- The method `GetDimensionNames`. -/
def GetDimensionNames (l : Lattice) : List String := l.DimensionNames

/-- The method `GetDimensionName`; it panics when the index is out of range. -/
def GetDimensionName (l : Lattice) (dNum : Nat) : Outcome String :=
  match l.DimensionNames[dNum]? with
  | some d => .ok d
  | none => .panic

/-- The method `GetDimensionValues`. -/
def GetDimensionValues (l : Lattice) (dName : String) : List String :=
  set ((mapGet l.ValuesByDimension dName).getD [])

/-- The method `GetDimensionSize`. -/
def GetDimensionSize (l : Lattice) (dName : String) : Nat :=
  (set ((mapGet l.ValuesByDimension dName).getD [])).length

/-- The method `GetDimensionality`. -/
def GetDimensionality (l : Lattice) : List (String × Nat) :=
  l.DimensionNames.foldl (fun m d => mapSet m d (GetDimensionValues l d).length) []

/-- The loop of `SimulateFailure` over the cells of `l`; `none` is the panic of
`s[dIdx]` on a key with too few parts. -/
def failureLoop (rt : Runtime) (l : Lattice) (dIdx : Nat) (dVal : String) :
    List (String × Slice) → Lattice → Option Lattice
  | [], sub => some sub
  | (c, _) :: rest, sub =>
    match (stringsSplit c seperator)[dIdx]? with
    | none => none
    | some v =>
      if v ≠ dVal then
        failureLoop rt l dIdx dVal rest
          (addIgnoringError rt sub (stringsSplit c seperator)
            (l.cell (stringsJoin (stringsSplit c seperator) seperator)).elems)
      else failureLoop rt l dIdx dVal rest sub

/-- The method `SimulateFailure`. -/
def SimulateFailure (rt : Runtime) (l : Lattice) (dName dVal : String) : Outcome Lattice :=
  match NewLattice rt l.DimensionNames with
  | .error e => .error e
  | .panic => .panic
  | .ok sublattice =>
    if indexOf l.DimensionNames dName < 0 then .error "lattice: unknown dimension name"
    else
      match failureLoop rt l (indexOf l.DimensionNames dName).toNat dVal
          l.EndpointsByCoordinate sublattice with
      | none => .panic
      | some sub => .ok sub

/-! ## shard.go -/

/-- The conversion `int64(x)` and the wrap-around of `int64` arithmetic. -/
def toInt64 (x : Int) : Int := (x + 2 ^ 63) % 2 ^ 64 - 2 ^ 63

/-- The generator `rand.New(rand.NewSource(l.Seed * shdSeed * 42))` of
`SimpleShuffleShard`, where `shdSeed = int64(murmur3.Sum64WithSeed(id, uint32(l.Seed)))`. -/
def shardRand (rt : Runtime) (l : Lattice) (id : List Nat) : Rand :=
  { draws := rt.source
      (toInt64 (l.Seed * toInt64 (rt.sum64WithSeed id (l.Seed % 2 ^ 32).toNat) * 42)),
    pos := 0 }

/-- The loop that shuffles the values of each dimension. -/
def shuffleDims (l : Lattice) : List String → Rand → List (List String) × Rand
  | [], r => ([], r)
  | d :: ds, r =>
    ((r.Shuffle (GetDimensionValues l d)).1 :: (shuffleDims l ds (r.Shuffle (GetDimensionValues l d)).2).1,
      (shuffleDims l ds (r.Shuffle (GetDimensionValues l d)).2).2)

/-- The lattice `l` after `r.Shuffle(len(eps), ...)` on `eps`, the slice of the
cell `k` of `l`: the elements of the cell are permuted in place. -/
def shuffleCell (l : Lattice) (k : String) (r : Rand) : Lattice × Rand :=
  (l.setCell k { elems := (r.Shuffle (l.cell k).elems).1, spare := (l.cell k).spare },
    (r.Shuffle (l.cell k).elems).2)

/-- The lattice `l` after `shard.AddEndpointsForSector(sec, eps[:n])`, where `eps`
is the slice of the cell `k` of `l`: when the shard already has a cell at `sec`,
`append(ep, e...)` writes into the backing array of `eps`. -/
def writeThrough (l shard : Lattice) (sec : List String) (k : String) (n : Nat) : Lattice :=
  if sec.length ≠ shard.DimensionNames.length then l
  else
    match mapGet shard.EndpointsByCoordinate (stringsJoin sec seperator) with
    | some e => l.setCell k ((l.cell k).appended n e.elems)
    | none => l

/-- The loop of `SimpleShuffleShard` over the values of a one-dimensional
lattice.  It returns the result and the lattice `l` as the call leaves it. -/
def oneDimLoop (rt : Runtime) (epc : Int) :
    List String → Lattice → Lattice → Rand → Outcome Lattice × Lattice
  | [], l, shard, _ => (.ok shard, l)
  | dimVal :: rest, l, shard, r =>
    match GetEndpointsForSector l [dimVal] with
    | .error e => (.error e, l)
    | .panic => (.panic, l)
    | .ok _ =>
      match ((shuffleCell l (stringsJoin [dimVal] seperator) r).1.cell
          (stringsJoin [dimVal] seperator)).upTo epc with
      | none => (.panic, (shuffleCell l (stringsJoin [dimVal] seperator) r).1)
      | some ep =>
        match AddEndpointsForSector rt shard [dimVal] ep with
        | .ok shard' =>
          oneDimLoop rt epc rest
            (writeThrough (shuffleCell l (stringsJoin [dimVal] seperator) r).1 shard [dimVal]
              (stringsJoin [dimVal] seperator) epc.toNat)
            shard' (shuffleCell l (stringsJoin [dimVal] seperator) r).2
        | .error e =>
          (.error ("shard: unable to add endpoints: " ++ e),
            (shuffleCell l (stringsJoin [dimVal] seperator) r).1)
        | .panic => (.panic, (shuffleCell l (stringsJoin [dimVal] seperator) r).1)

/-- The inner loop that builds a coordinate from the heads of the shuffled lists
and drops them; `none` is the panic of `shuffled[j][0]` on an empty list. -/
def popHeads : List (List String) → Option (List String × List (List String))
  | [] => some ([], [])
  | [] :: _ => none
  | (v :: vs) :: rest =>
    match popHeads rest with
    | none => none
    | some (c, t) => some (v :: c, vs :: t)

/-- The smallest dimension size, from `math.MaxInt64` down. -/
def minDimension (dimC : List (String × Nat)) : Int :=
  dimC.foldl (fun m kv => if (kv.2 : Int) < m then (kv.2 : Int) else m) (2 ^ 63 - 1)

/-- The loop `for i := int64(0); i < minDim; i++` of `SimpleShuffleShard`; the
first argument is the number of rounds that are left. -/
def multiDimLoop (rt : Runtime) (epc : Int) :
    Nat → List (List String) → Lattice → Lattice → Rand → Outcome Lattice × Lattice
  | 0, _, l, shard, _ => (.ok shard, l)
  | n + 1, shuffled, l, shard, r =>
    match popHeads shuffled with
    | none => (.panic, l)
    | some (coords, shuffled') =>
      match GetEndpointsForSector l coords with
      | .error e => (.error ("shard: unable to get endpoints: " ++ e), l)
      | .panic => (.panic, l)
      | .ok eps =>
        if eps.length ≤ 0 then (.error "shard: no endpoints available", l)
        else
          match ((shuffleCell l (stringsJoin coords seperator) r).1.cell
              (stringsJoin coords seperator)).upTo epc with
          | none => (.panic, (shuffleCell l (stringsJoin coords seperator) r).1)
          | some ep =>
            multiDimLoop rt epc n shuffled'
              (writeThrough (shuffleCell l (stringsJoin coords seperator) r).1 shard coords
                (stringsJoin coords seperator) epc.toNat)
              (addIgnoringError rt shard coords ep)
              (shuffleCell l (stringsJoin coords seperator) r).2

/-- The method `SimpleShuffleShard`.  It returns the result of the call and the
receiver `l` as the call leaves it. -/
def SimpleShuffleShard (rt : Runtime) (l : Lattice) (id : List Nat) (epc : Int) :
    Outcome Lattice × Lattice :=
  match NewLatticeWithSeed l.Seed (GetDimensionNames l) with
  | .error e => (.error ("shard: unable to create a sharded lattice: " ++ e), l)
  | .panic => (.panic, l)
  | .ok shard =>
    if (GetDimensionality l).length = 1 then
      match (shuffleDims l (GetDimensionNames l) (shardRand rt l id)).1 with
      | [] => (.panic, l)
      | vals :: _ =>
        oneDimLoop rt epc vals l shard (shuffleDims l (GetDimensionNames l) (shardRand rt l id)).2
    else
      multiDimLoop rt epc (minDimension (GetDimensionality l)).toNat
        (shuffleDims l (GetDimensionNames l) (shardRand rt l id)).1 l shard
        (shuffleDims l (GetDimensionNames l) (shardRand rt l id)).2

/-! ## stateful_shard.go -/

/-- The function `combinations.Combinations(set, n)` of the library
github.com/mxschmitt/golang-combinations, which is not part of this package:
the non-empty sub-lists of `set` in the order of their bit masks, those of
`n` elements when `n > 0` and all of them otherwise; an `n` above `len(set)`
counts as `len(set)`.  The library counts the bit mask in an `int` of 64 bits,
`for subsetBits := 1; subsetBits < (1 << length); subsetBits++`: for 63 elements
the bound `1 << 63` is the least `int` and for more elements it is 0, so the
loop does not run and the result is empty. -/
def Combinations (set : List String) (n : Int) : List (List String) :=
  if 63 ≤ set.length then []
  else
    set.sublists.filter (fun s =>
      decide (s ≠ []) &&
        (decide ((if (set.length : Int) < n then (set.length : Int) else n) ≤ 0) ||
          decide ((s.length : Int) = (if (set.length : Int) < n then (set.length : Int) else n))))

/-- The struct `StatefulSharder`: `store` holds the keys of the map
`map[string]bool`, every one of which is mapped to `true`. -/
structure StatefulSharder where
  store : List String
deriving DecidableEq, Repr

/-- The function `NewStatefulSharder`. -/
def NewStatefulSharder : StatefulSharder := { store := [] }

/-- The method `saveFragment`. -/
def saveFragment (shard : StatefulSharder) (fragment : List String) : StatefulSharder :=
  if sprintfV (sortStrings fragment) ∈ shard.store then shard
  else { store := shard.store ++ [sprintfV (sortStrings fragment)] }

/-- The method `isFragmentUsed`. -/
def isFragmentUsed (shard : StatefulSharder) (fragment : List String) : Bool :=
  decide (sprintfV (sortStrings fragment) ∈ shard.store)

/-- The method `areThereTooManyCollisions`.  The sum `maximumOverlap+1` is a sum
of `int`, which wraps around at 64 bits. -/
def areThereTooManyCollisions (shard : StatefulSharder) (haystack : List String)
    (maximumOverlap : Int) : Bool :=
  if (haystack.length : Int) ≤ maximumOverlap then false
  else if (haystack.length : Int) = toInt64 (maximumOverlap + 1) then isFragmentUsed shard haystack
  else (Combinations haystack (toInt64 (maximumOverlap + 1))).any (isFragmentUsed shard)

/-- The loop of `shuffleShardRecursiveHelper` that, after the copy of the lattice,
removes the slice of `coordinate` along every dimension. -/
def complementLoop (rt : Runtime) (lattice : Lattice) (coordinate : List String) :
    List Nat → Lattice → Outcome Lattice
  | [], compliment => .ok compliment
  | i :: rest, compliment =>
    match GetDimensionName lattice i, coordinate[i]? with
    | .ok d, some v =>
      match SimulateFailure rt compliment d v with
      | .ok c => complementLoop rt lattice coordinate rest c
      | .error e => .error e
      | .panic => .panic
    | _, _ => .panic

/-- The complement of `coordinate` in `lattice`: `deepcopy.Copy(compliment,
lattice)` makes `compliment` a copy of `lattice`, and the loop then calls
`SimulateFailure` once for each dimension. -/
def complement (rt : Runtime) (lattice : Lattice) (coordinate : List String) : Outcome Lattice :=
  complementLoop rt lattice coordinate (List.range (GetDimensionality lattice).length) lattice

/-- What a call of the recursive helper leaves: its result, the lattice it was
given (whose cells it shuffles in place) and the state of the global generator.
`none` stands for a recursion that was cut off by the bound on its depth. -/
abbrev HelperResult := Option (Outcome Lattice × Lattice × Rand)

/-- The loop of `shuffleShardRecursiveHelper` over the fragments of one cell.
`recurse` is the recursive call; the result `some (none, _)` says that every
fragment was skipped, and the loop over the coordinates goes on. -/
def fragmentLoop (rt : Runtime) (shard : StatefulSharder) (maximumOverlap : Int)
    (recurse : Lattice → Rand → HelperResult) (coordinate : List String) :
    List (List String) → Lattice → Rand → Option (Option (Outcome Lattice) × Rand)
  | [], _, g => some (none, g)
  | fragment :: rest, compliment, g =>
    if (fragment.length : Int) ≥ maximumOverlap ∧
        areThereTooManyCollisions shard fragment maximumOverlap = true then
      fragmentLoop rt shard maximumOverlap recurse coordinate rest compliment g
    else
      match recurse compliment g with
      | none => none
      | some (.error e, _, g') => some (some (.error e), g')
      | some (.panic, _, g') => some (some .panic, g')
      | some (.ok pickedRecursively, compliment', g') =>
        if (((GetAllEndpoints pickedRecursively) ++ fragment).length : Int) ≥ maximumOverlap ∧
            areThereTooManyCollisions shard ((GetAllEndpoints pickedRecursively) ++ fragment)
              maximumOverlap = true then
          fragmentLoop rt shard maximumOverlap recurse coordinate rest compliment' g'
        else some (some (.ok (addIgnoringError rt pickedRecursively coordinate fragment)), g')

/-- The loop of `shuffleShardRecursiveHelper` over the shuffled coordinates. -/
def coordinateLoop (rt : Runtime) (shard : StatefulSharder) (endpointsPerCell maximumOverlap : Int)
    (recurse : Lattice → Rand → HelperResult) :
    List (List String) → Lattice → Rand → HelperResult
  | [], lattice, g => some (NewLattice rt (GetDimensionNames lattice), lattice, g)
  | coordinate :: rest, lattice, g =>
    match NewLattice rt (GetDimensionNames lattice) with
    | .error e => some (.error e, lattice, g)
    | .panic => some (.panic, lattice, g)
    | .ok _ =>
      match complement rt lattice coordinate with
      | .error e => some (.error e, lattice, g)
      | .panic => some (.panic, lattice, g)
      | .ok compliment =>
        match GetEndpointsForSector lattice coordinate with
        | .error e => some (.error e, lattice, g)
        | .panic => some (.panic, lattice, g)
        | .ok _ =>
          match fragmentLoop rt shard maximumOverlap recurse coordinate
              (Combinations
                ((shuffleCell lattice (stringsJoin coordinate seperator) g).1.cell
                  (stringsJoin coordinate seperator)).elems endpointsPerCell)
              compliment (shuffleCell lattice (stringsJoin coordinate seperator) g).2 with
          | none => none
          | some (some res, g') =>
            some (res, (shuffleCell lattice (stringsJoin coordinate seperator) g).1, g')
          | some (none, g') =>
            coordinateLoop rt shard endpointsPerCell maximumOverlap recurse rest
              (shuffleCell lattice (stringsJoin coordinate seperator) g).1 g'

/-- The method `shuffleShardRecursiveHelper`.  The first argument bounds the depth
of the recursion. -/
def shuffleShardRecursiveHelper (rt : Runtime) (shard : StatefulSharder)
    (endpointsPerCell maximumOverlap : Int) : Nat → Lattice → Rand → HelperResult
  | 0, _, _ => none
  | depth + 1, lattice, g =>
    coordinateLoop rt shard endpointsPerCell maximumOverlap
      (shuffleShardRecursiveHelper rt shard endpointsPerCell maximumOverlap depth)
      (g.Shuffle (GetAllCoordinates lattice)).1 lattice (g.Shuffle (GetAllCoordinates lattice)).2

/-- The method `StatefulShuffleShard`.  It returns the result of the call, the
sharder, the lattice and the global generator as the call leaves them.  The depth
of the recursion is bounded by the number of cells of the lattice plus one, which
is never reached (see `StatefulShuffleShard_isSome`).  The sum `maximumOverlap+1`
is a sum of `int`, which wraps around at 64 bits. -/
def StatefulShuffleShard (rt : Runtime) (shard : StatefulSharder) (g : Rand) (lattice : Lattice)
    (endpointsPerCell maximumOverlap : Int) :
    Option (Outcome Lattice × StatefulSharder × Lattice × Rand) :=
  match shuffleShardRecursiveHelper rt shard endpointsPerCell maximumOverlap
      (lattice.EndpointsByCoordinate.length + 1) lattice g with
  | none => none
  | some (.error e, lattice', g') => some (.error e, shard, lattice', g')
  | some (.panic, lattice', g') => some (.panic, shard, lattice', g')
  | some (.ok targetLattice, lattice', g') =>
    if (GetAllEndpoints targetLattice).length = 0 then
      some (.error "No shards available", shard, lattice', g')
    else
      some (.ok targetLattice,
        (Combinations (GetAllEndpoints targetLattice) (toInt64 (maximumOverlap + 1))).foldl
          saveFragment shard,
        lattice', g')

/-! ## Notions used by the statements -/

/-- The endpoints of the cell of `l` at the coordinate `c`: the list that
`GetEndpointsForSector` returns for `c`. -/
def Lattice.endpointsAt (l : Lattice) (c : List String) : List String :=
  (l.cell (stringsJoin c seperator)).elems

/-- The lattice `l'` is `l` up to the order of the endpoints inside the cells,
which is what the in-place shuffles of the sharders change. -/
def ShuffledOf (l' l : Lattice) : Prop :=
  l'.Seed = l.Seed ∧ l'.DimensionNames = l.DimensionNames ∧
    l'.ValuesByDimension = l.ValuesByDimension ∧
    mapKeys l'.EndpointsByCoordinate = mapKeys l.EndpointsByCoordinate ∧
    ∀ k, (l'.cell k).elems.Perm (l.cell k).elems ∧ (l'.cell k).spare = (l.cell k).spare

/-- The results that the search of `shuffleShardRecursiveHelper` can return on a
lattice: the empty lattice of its last line, or an accepted fragment of the cell at
a coordinate of the lattice, added to a result of the search on the complement. -/
inductive Search (rt : Runtime) (shard : StatefulSharder) (endpointsPerCell maximumOverlap : Int) :
    Lattice → Lattice → Prop
  | empty (lattice res : Lattice) :
      NewLattice rt (GetDimensionNames lattice) = .ok res →
      Search rt shard endpointsPerCell maximumOverlap lattice res
  | pick (lattice l₁ l₂ compliment compliment₁ picked : Lattice) (key : String)
      (coordinate fragment : List String) :
      ShuffledOf l₁ lattice → ShuffledOf l₂ lattice →
      key ∈ mapKeys lattice.EndpointsByCoordinate →
      coordinate = stringsSplit key seperator →
      GetDimensionNames lattice ≠ [] →
      complement rt l₁ coordinate = .ok compliment →
      coordinate.length = lattice.DimensionNames.length →
      fragment ∈ Combinations (l₂.cell (stringsJoin coordinate seperator)).elems endpointsPerCell →
      ¬ ((fragment.length : Int) ≥ maximumOverlap ∧
          areThereTooManyCollisions shard fragment maximumOverlap = true) →
      ShuffledOf compliment₁ compliment →
      Search rt shard endpointsPerCell maximumOverlap compliment₁ picked →
      ¬ ((((GetAllEndpoints picked) ++ fragment).length : Int) ≥ maximumOverlap ∧
          areThereTooManyCollisions shard ((GetAllEndpoints picked) ++ fragment)
            maximumOverlap = true) →
      Search rt shard endpointsPerCell maximumOverlap lattice
        (addIgnoringError rt picked coordinate fragment)

/-- The number of endpoints in the cells of `l`, an endpoint counted once for
every cell that holds it: the length of the slice that `GetAllEndpoints` collects
before it calls `set`. -/
def Lattice.endpointCount (l : Lattice) : Nat :=
  (l.EndpointsByCoordinate.flatMap (fun kv => kv.2.elems)).length

/-- The number of endpoints that the shard `a` shares with the shard `b`. -/
def overlap (a b : Lattice) : Nat :=
  ((GetAllEndpoints a).filter (fun e => decide (e ∈ GetAllEndpoints b))).length

/-- The shards that a sharder returns in a sequence of calls of
`StatefulShuffleShard` with the same `maximumOverlap`; every call has its own
lattice, `endpointsPerCell` and state of the global generator. -/
def issuedShards (rt : Runtime) (maximumOverlap : Int) :
    StatefulSharder → List (Lattice × Int × Rand) → List Lattice
  | _, [] => []
  | shard, (lattice, endpointsPerCell, g) :: rest =>
    match StatefulShuffleShard rt shard g lattice endpointsPerCell maximumOverlap with
    | some (.ok s, shard', _, _) => s :: issuedShards rt maximumOverlap shard' rest
    | some (_, shard', _, _) => issuedShards rt maximumOverlap shard' rest
    | none => []

/-! ## A sample runtime and sample lattices -/

/-- The capacity that the gc toolchain gives a slice grown by `n` single appends
from `[]string{}`, for the small sizes where the capacity doubles: 0, 1, 2, 4,
8, ... -/
def gcGrowCap (n : Nat) : Nat :=
  (List.range n).foldl (fun cap len => if len < cap then cap else if cap = 0 then 1 else 2 * cap) 0

/-- The states of a 64-bit linear congruential generator. -/
def lcgState (seed : Int) : Nat → Nat
  | 0 => (seed % 2 ^ 64).toNat
  | i + 1 => (6364136223846793005 * lcgState seed i + 1442695040888963407) % 2 ^ 64

/-- A runtime to evaluate the package on: a multiplicative hash, a linear
congruential generator and the growth policy of the gc toolchain. -/
def sampleRuntime : Runtime where
  seed := 1
  sum64WithSeed := fun bytes s =>
    bytes.foldl (fun h b => (h * 1099511628211 + b) % 2 ^ 64) (14695981039346656037 + s)
  source := fun s i => lcgState s (i + 1) / 2 ^ 33
  growCap := gcGrowCap

/-- A state of the global generator. -/
def sampleRand : Rand where
  draws := sampleRuntime.source 7
  pos := 0

/-- The lattice of `NewLattice(["AZ"])` after `AddEndpointsForSector(["az1"],
["A", "B", "C"])` and `AddEndpointsForSector(["az2"], ["D", "E"])`. -/
def azLattice : Lattice where
  Seed := 1
  DimensionNames := ["AZ"]
  ValuesByDimension := [("AZ", ["az1", "az2"])]
  EndpointsByCoordinate :=
    [("az1", { elems := ["A", "B", "C"], spare := [""] }),
     ("az2", { elems := ["D", "E"], spare := [] })]

/-- The first shard that the sample generator draws from `azLattice` with two
endpoints per cell. -/
def azShard : Lattice where
  Seed := 1
  DimensionNames := ["AZ"]
  ValuesByDimension := [("AZ", ["az1", "az2"])]
  EndpointsByCoordinate :=
    [("az1", { elems := ["B", "C"], spare := [] }),
     ("az2", { elems := ["D", "E"], spare := [] })]

/-- The store after `azShard` was issued with `maximumOverlap = 1`. -/
def azSharder : StatefulSharder where
  store := ["[B C]", "[B D]", "[C D]", "[B E]", "[C E]", "[D E]"]

/-- The state of the sample generator after the call that issued `azShard`. -/
def azRand : Rand where
  draws := sampleRuntime.source 7
  pos := 4

/-- The shard of the second call on `azLattice`: it has no cell at `az2`. -/
def azPartialShard : Lattice where
  Seed := 1
  DimensionNames := ["AZ"]
  ValuesByDimension := [("AZ", ["az1"])]
  EndpointsByCoordinate := [("az1", { elems := ["A", "B"], spare := [] })]

/-- The lattice of `NewLattice(["dimX"])` after `AddEndpointsForSector(["x"],
["a", "b", "c"])`; the slice of the cell has length 3 and capacity 4. -/
def cellLattice : Lattice where
  Seed := 1
  DimensionNames := ["dimX"]
  ValuesByDimension := [("dimX", ["x"])]
  EndpointsByCoordinate := [("x", { elems := ["a", "b", "c"], spare := [""] })]

/-- The lattice `cellLattice` as `SimpleShuffleShard([]byte{4}, 1)` leaves it. -/
def cellLatticeAfter : Lattice where
  Seed := 1
  DimensionNames := ["dimX"]
  ValuesByDimension := [("dimX", ["x"])]
  EndpointsByCoordinate := [("x", { elems := ["c", "b", "a"], spare := [""] })]

/-- A shard of `cellLattice` with the given endpoints in its cell. -/
def cellShard (eps : List String) : Lattice where
  Seed := 1
  DimensionNames := ["dimX"]
  ValuesByDimension := [("dimX", ["x"])]
  EndpointsByCoordinate := [("x", { elems := eps, spare := [] })]

/-- The lattice of `NewLattice(["dimX"])` after `AddEndpointsForSector` of five
endpoints at the sector `value`. -/
def fiveLattice (value : String) : Lattice where
  Seed := 1
  DimensionNames := ["dimX"]
  ValuesByDimension := [("dimX", [value])]
  EndpointsByCoordinate :=
    [(value, { elems := ["A", "B", "C", "D", "E"], spare := ["", "", ""] })]

/-- The results of successive calls of `StatefulShuffleShard` with the same
arguments on the same sharder and the same lattice; every call has its own state of
the global generator. -/
def repeatedCalls (rt : Runtime) (endpointsPerCell maximumOverlap : Int) :
    StatefulSharder → Lattice → List Rand → List (Outcome Lattice)
  | _, _, [] => []
  | shard, lattice, g :: rest =>
    match StatefulShuffleShard rt shard g lattice endpointsPerCell maximumOverlap with
    | some (out, shard', lattice', _) =>
      out :: repeatedCalls rt endpointsPerCell maximumOverlap shard' lattice' rest
    | none => []

/-- The lattices that the package builds: a lattice comes from a constructor,
from `AddEndpointsForSector` on such a lattice, or from a sharder that shuffled the
endpoints inside the cells of such a lattice. -/
inductive Built (rt : Runtime) : Lattice → Prop
  | new (seed : Int) (dims : List String) (l : Lattice) :
      NewLatticeWithSeed seed dims = .ok l → Built rt l
  | add (l l' : Lattice) (sec ep : List String) :
      Built rt l → AddEndpointsForSector rt l sec ep = .ok l' → Built rt l'
  | shuffled (l l' : Lattice) : Built rt l → ShuffledOf l' l → Built rt l'

/-- Twenty endpoints, `a` to `t`. -/
def twentyEndpoints : List String :=
  ["a", "b", "c", "d", "e", "f", "g", "h", "i", "j",
   "k", "l", "m", "n", "o", "p", "q", "r", "s", "t"]

/-- The lattice of `NewLattice(["az"])` with the first ten endpoints at `us-x` and
the last ten at `us-y`. -/
def twoCellLattice : Lattice where
  Seed := 1
  DimensionNames := ["az"]
  ValuesByDimension := [("az", ["us-x", "us-y"])]
  EndpointsByCoordinate :=
    [("us-x", { elems := twentyEndpoints.take 10, spare := List.replicate 6 "" }),
     ("us-y", { elems := twentyEndpoints.drop 10, spare := List.replicate 6 "" })]

/-- The lattice of `NewLattice(["az", "version"])` with two endpoints in each of
the four cells of `{x, y} × {1, 2}`. -/
def gridLattice : Lattice where
  Seed := 1
  DimensionNames := ["az", "version"]
  ValuesByDimension := [("az", ["x", "y"]), ("version", ["1", "2"])]
  EndpointsByCoordinate :=
    [(stringsJoin ["x", "1"] seperator, { elems := ["a", "b"], spare := [] }),
     (stringsJoin ["x", "2"] seperator, { elems := ["c", "d"], spare := [] }),
     (stringsJoin ["y", "1"] seperator, { elems := ["e", "f"], spare := [] }),
     (stringsJoin ["y", "2"] seperator, { elems := ["g", "h"], spare := [] })]

/-- A value of the dimension `az` that contains the separator. -/
def clashAz : String := "p" ++ seperator ++ "q"

/-- A value of the dimension `version` that contains the separator. -/
def clashVersion : String := "q" ++ seperator ++ "r"

/-- The lattice of `NewLattice(["az", "version"])` after `AddEndpointsForSector` at
the four sectors of `{p, clashAz} × {clashVersion, r}` with `{a, b}`, `{c, d}`,
`{e, f}` and `{g, h}`: the sectors `(p, clashVersion)` and `(clashAz, r)` have the
same key. -/
def clashLattice : Lattice where
  Seed := 1
  DimensionNames := ["az", "version"]
  ValuesByDimension := [("az", ["p", clashAz]), ("version", [clashVersion, "r"])]
  EndpointsByCoordinate :=
    [(stringsJoin ["p", clashVersion] seperator, { elems := ["a", "b", "g", "h"], spare := [] }),
     (stringsJoin ["p", "r"] seperator, { elems := ["c", "d"], spare := [] }),
     (stringsJoin [clashAz, clashVersion] seperator, { elems := ["e", "f"], spare := [] })]

/-- The shard that `SimpleShuffleShard` returns on `clashLattice`. -/
def clashShard : Lattice where
  Seed := 1
  DimensionNames := ["az", "version"]
  ValuesByDimension := [("az", ["p", clashAz]), ("version", [clashVersion, "r"])]
  EndpointsByCoordinate :=
    [(stringsJoin ["p", clashVersion] seperator, { elems := ["b", "g", "h"], spare := [""] })]

/-! ## Notions used by the statements about the lattice -/

/-- No value of the sector contains the separator: `strings.Split` at the
separator gives the value back. -/
def SeparatorFree (sec : List String) : Prop :=
  ∀ v ∈ sec, stringsSplit v seperator = [v]

/-- A sequence of calls of `AddEndpointsForSector`, each with its sector and its
endpoints; it stops at the first call that does not succeed. -/
def addAll (rt : Runtime) : Lattice → List (List String × List String) → Outcome Lattice
  | l, [] => .ok l
  | l, (sec, ep) :: rest =>
    match AddEndpointsForSector rt l sec ep with
    | .ok l' => addAll rt l' rest
    | .error e => .error e
    | .panic => .panic

/-- A sequence of calls of `AddEndpointsForSector` whose arguments `ep` may be
parts of the slice of one cell of the lattice, which the caller got from
`GetEndpointsForSector` before the first call and which no call of the sequence
replaces; it stops at the first call that does not succeed. -/
def addAllOf (rt : Runtime) : Lattice → List (List String × Endpoints) → Outcome Lattice
  | l, [] => .ok l
  | l, (sec, ep) :: rest =>
    match AddEndpointsForSectorOf rt l sec ep with
    | .ok l' => addAllOf rt l' rest
    | .error e => .error e
    | .panic => .panic

/-- The lattices that are reached from `NewLattice` by successful calls of
`AddEndpointsForSector`, with sectors that satisfy `allowed`, and of
`SimulateFailure`. -/
inductive Reachable (rt : Runtime) (allowed : List String → Prop) : Lattice → Prop
  | new (dims : List String) (l : Lattice) :
      NewLattice rt dims = .ok l → Reachable rt allowed l
  | add (l l' : Lattice) (sec ep : List String) :
      Reachable rt allowed l → allowed sec → AddEndpointsForSector rt l sec ep = .ok l' →
      Reachable rt allowed l'
  | fail (l l' : Lattice) (dName dVal : String) :
      Reachable rt allowed l → SimulateFailure rt l dName dVal = .ok l' →
      Reachable rt allowed l'

/-- The cells of `l` are exactly the cells of the sectors `secs`, which have the
length of the dimension names and values without the separator, and the values of
the dimension at every position are exactly the values of the sectors at that
position. -/
def Mirrors (l : Lattice) (secs : List (List String)) : Prop :=
  l.DimensionNames ≠ [] ∧ l.DimensionNames.Nodup ∧
    (∀ sec ∈ secs, sec.length = l.DimensionNames.length ∧ SeparatorFree sec) ∧
    (∀ k, k ∈ mapKeys l.EndpointsByCoordinate ↔ ∃ sec ∈ secs, stringsJoin sec seperator = k) ∧
    ∀ (i : Nat) (d : String), l.DimensionNames[i]? = some d →
      ∀ v, v ∈ GetDimensionValues l d ↔ ∃ sec ∈ secs, sec[i]? = some v

/-! ## More sample lattices -/

/-- The lattice of `NewLattice(["dimX"])` after `AddEndpointsForSector(["x"], [])`:
one cell, which holds no endpoints. -/
def emptyCellLattice : Lattice where
  Seed := 1
  DimensionNames := ["dimX"]
  ValuesByDimension := [("dimX", ["x"])]
  EndpointsByCoordinate := [("x", { elems := [], spare := [] })]

/-- The shard that `StatefulShuffleShard` returns on `azLattice` with
`endpointsPerCell = 0`. -/
def azSingles : Lattice where
  Seed := 1
  DimensionNames := ["AZ"]
  ValuesByDimension := [("AZ", ["az1", "az2"])]
  EndpointsByCoordinate :=
    [("az1", { elems := ["C"], spare := [] }), ("az2", { elems := ["D"], spare := [] })]

/-- The lattice of `NewLattice(["az", "version"])`. -/
def twoDimLattice : Lattice where
  Seed := 1
  DimensionNames := ["az", "version"]
  ValuesByDimension := [("az", []), ("version", [])]
  EndpointsByCoordinate := []

/-- The lattice of `NewLattice(["b", "a"])` after
`AddEndpointsForSector(["1", "2"], ["e"])`. -/
def swappedLattice : Lattice where
  Seed := 1
  DimensionNames := ["a", "b"]
  ValuesByDimension := [("a", ["1"]), ("b", ["2"])]
  EndpointsByCoordinate := [(stringsJoin ["1", "2"] seperator, { elems := ["e"], spare := [] })]

/-- The lattice that `SimulateFailure("az", "x")` returns on `gridLattice`. -/
def gridWithoutX : Lattice where
  Seed := 1
  DimensionNames := ["az", "version"]
  ValuesByDimension := [("az", ["y"]), ("version", ["1", "2"])]
  EndpointsByCoordinate :=
    [(stringsJoin ["y", "1"] seperator, { elems := ["e", "f"], spare := [] }),
     (stringsJoin ["y", "2"] seperator, { elems := ["g", "h"], spare := [] })]

/-- The lattice of `NewLattice(["dimX"])`. -/
def oneDimLattice : Lattice where
  Seed := 1
  DimensionNames := ["dimX"]
  ValuesByDimension := [("dimX", [])]
  EndpointsByCoordinate := []

/-- No endpoint of the list contains a space, the character that
`fmt.Sprintf("%v", fragment)` puts between the endpoints. -/
def SpaceFree (f : List String) : Prop :=
  ∀ e ∈ f, Char.ofNat 32 ∉ e.data

/-- The complement of the coordinate `(x, 1)` in `gridLattice`. -/
def gridComplement : Lattice where
  Seed := 1
  DimensionNames := ["az", "version"]
  ValuesByDimension := [("az", ["y"]), ("version", ["2"])]
  EndpointsByCoordinate :=
    [(stringsJoin ["y", "2"] seperator, { elems := ["g", "h"], spare := [] })]

/-- The shard that `StatefulShuffleShard` returns on `gridLattice` with one endpoint
per cell. -/
def gridDiagonal : Lattice where
  Seed := 1
  DimensionNames := ["az", "version"]
  ValuesByDimension := [("az", ["x", "y"]), ("version", ["1", "2"])]
  EndpointsByCoordinate :=
    [(stringsJoin ["y", "2"] seperator, { elems := ["g"], spare := [] }),
     (stringsJoin ["x", "1"] seperator, { elems := ["a"], spare := [] })]

/-- The seed `l.Seed * shdSeed * 42` that `SimpleShuffleShard` gives to
`rand.NewSource`, in the wrapping arithmetic of `int64`. -/
def shardSeed (rt : Runtime) (l : Lattice) (id : List Nat) : Int :=
  toInt64 (l.Seed * toInt64 (rt.sum64WithSeed id (l.Seed % 2 ^ 32).toNat) * 42)

/-- The lattice `cellLattice` with the seed 0, as `NewLatticeWithSeed(0, ["dimX"])`
and `AddEndpointsForSector(["x"], ["a", "b", "c"])` make it. -/
def zeroSeedLattice : Lattice where
  Seed := 0
  DimensionNames := ["dimX"]
  ValuesByDimension := [("dimX", ["x"])]
  EndpointsByCoordinate := [("x", { elems := ["a", "b", "c"], spare := [""] })]

/-! ## Sample lattices with 63 endpoints in a shard -/

/-- The lattice of `NewLattice(["AZ"])` after seven calls of `AddEndpointsForSector`,
one for each of `az1` to `az7`, with ten endpoints each. -/
def sevenCells : Lattice where
  Seed := 1
  DimensionNames := ["AZ"]
  ValuesByDimension := [("AZ", ["az1", "az2", "az3", "az4", "az5", "az6", "az7"])]
  EndpointsByCoordinate :=
    [("az1",
      { elems := ["a0", "a1", "a2", "a3", "a4", "a5", "a6", "a7", "a8", "a9"],
        spare := ["", "", "", "", "", ""] }),
     ("az2",
      { elems := ["b0", "b1", "b2", "b3", "b4", "b5", "b6", "b7", "b8", "b9"],
        spare := ["", "", "", "", "", ""] }),
     ("az3",
      { elems := ["c0", "c1", "c2", "c3", "c4", "c5", "c6", "c7", "c8", "c9"],
        spare := ["", "", "", "", "", ""] }),
     ("az4",
      { elems := ["d0", "d1", "d2", "d3", "d4", "d5", "d6", "d7", "d8", "d9"],
        spare := ["", "", "", "", "", ""] }),
     ("az5",
      { elems := ["e0", "e1", "e2", "e3", "e4", "e5", "e6", "e7", "e8", "e9"],
        spare := ["", "", "", "", "", ""] }),
     ("az6",
      { elems := ["f0", "f1", "f2", "f3", "f4", "f5", "f6", "f7", "f8", "f9"],
        spare := ["", "", "", "", "", ""] }),
     ("az7",
      { elems := ["g0", "g1", "g2", "g3", "g4", "g5", "g6", "g7", "g8", "g9"],
        spare := ["", "", "", "", "", ""] })]

/-- A second state of the global generator. -/
def otherRand : Rand where
  draws := sampleRuntime.source 11
  pos := 0

/-- The shard that the sample generator draws from `sevenCells` with nine
endpoints per cell: 63 endpoints. -/
def sevenCellsShard : Lattice where
  Seed := 1
  DimensionNames := ["AZ"]
  ValuesByDimension := [("AZ", ["az1", "az2", "az3", "az4", "az5", "az6", "az7"])]
  EndpointsByCoordinate :=
    [("az6",
      { elems := ["f0", "f1", "f2", "f3", "f4", "f6", "f7", "f8", "f9"],
        spare := ["", "", "", "", "", "", ""] }),
     ("az5",
      { elems := ["e1", "e2", "e3", "e4", "e5", "e6", "e7", "e8", "e9"],
        spare := ["", "", "", "", "", "", ""] }),
     ("az2",
      { elems := ["b0", "b1", "b2", "b3", "b4", "b5", "b6", "b7", "b9"],
        spare := ["", "", "", "", "", "", ""] }),
     ("az3",
      { elems := ["c0", "c1", "c2", "c3", "c5", "c6", "c7", "c8", "c9"],
        spare := ["", "", "", "", "", "", ""] }),
     ("az7",
      { elems := ["g0", "g1", "g2", "g3", "g4", "g6", "g7", "g8", "g9"],
        spare := ["", "", "", "", "", "", ""] }),
     ("az4",
      { elems := ["d0", "d1", "d2", "d3", "d4", "d5", "d7", "d8", "d9"],
        spare := ["", "", "", "", "", "", ""] }),
     ("az1",
      { elems := ["a0", "a1", "a2", "a3", "a5", "a6", "a7", "a8", "a9"],
        spare := ["", "", "", "", "", "", ""] })]

/-- The shard that the second generator draws from `sevenCells` with nine endpoints
per cell: 63 endpoints, 56 of which are endpoints of `sevenCellsShard`. -/
def sevenCellsOtherShard : Lattice where
  Seed := 1
  DimensionNames := ["AZ"]
  ValuesByDimension := [("AZ", ["az1", "az2", "az3", "az4", "az5", "az6", "az7"])]
  EndpointsByCoordinate :=
    [("az3",
      { elems := ["c0", "c1", "c2", "c3", "c4", "c5", "c6", "c8", "c9"],
        spare := ["", "", "", "", "", "", ""] }),
     ("az4",
      { elems := ["d0", "d1", "d2", "d3", "d4", "d5", "d6", "d8", "d9"],
        spare := ["", "", "", "", "", "", ""] }),
     ("az7",
      { elems := ["g0", "g1", "g2", "g3", "g4", "g5", "g6", "g7", "g8"],
        spare := ["", "", "", "", "", "", ""] }),
     ("az6",
      { elems := ["f1", "f2", "f3", "f4", "f5", "f6", "f7", "f8", "f9"],
        spare := ["", "", "", "", "", "", ""] }),
     ("az2",
      { elems := ["b0", "b1", "b2", "b4", "b5", "b6", "b7", "b8", "b9"],
        spare := ["", "", "", "", "", "", ""] }),
     ("az1",
      { elems := ["a0", "a1", "a2", "a3", "a4", "a5", "a6", "a7", "a8"],
        spare := ["", "", "", "", "", "", ""] }),
     ("az5",
      { elems := ["e0", "e1", "e2", "e4", "e5", "e6", "e7", "e8", "e9"],
        spare := ["", "", "", "", "", "", ""] })]

/-- The lattice of `NewLattice(["dimX"])` after `AddEndpointsForSector(["x"], ep)`
with the 63 endpoints of `sevenCellsShard`. -/
def wideLattice : Lattice where
  Seed := 1
  DimensionNames := ["dimX"]
  ValuesByDimension := [("dimX", ["x"])]
  EndpointsByCoordinate := [("x", { elems := GetAllEndpoints sevenCellsShard, spare := [""] })]

/-- The lattice of `NewLattice(["dimX"])` after `AddEndpointsForSector(["s"],
["x", "y"])` and `AddEndpointsForSector(["t"], ["a", "b", "c"])`. -/
def twoCellsXY : Lattice where
  Seed := 1
  DimensionNames := ["dimX"]
  ValuesByDimension := [("dimX", ["s", "t"])]
  EndpointsByCoordinate :=
    [("s", { elems := ["x", "y"], spare := [] }),
     ("t", { elems := ["a", "b", "c"], spare := [""] })]

/-- The lattice `cellLattice` after the call `AddEndpointsForSector(["y"], eps[:1])`,
where `eps` is the slice of its cell `x`. -/
def cellLatticeOnce : Lattice where
  Seed := 1
  DimensionNames := ["dimX"]
  ValuesByDimension := [("dimX", ["x", "y"])]
  EndpointsByCoordinate :=
    [("x", { elems := ["a", "b", "c"], spare := [""] }),
     ("y", { elems := ["a"], spare := [] })]

/-- The lattice `cellLatticeOnce` after the same call once more: the endpoint of
the cell `y` was written into the array of the cell `x`. -/
def cellLatticeTwice : Lattice where
  Seed := 1
  DimensionNames := ["dimX"]
  ValuesByDimension := [("dimX", ["x", "y"])]
  EndpointsByCoordinate :=
    [("x", { elems := ["a", "a", "c"], spare := [""] }),
     ("y", { elems := ["a"], spare := [] })]

/-! ## Shuffles are permutations -/

theorem set_cons_perm {α : Type} (x b : α) :
    ∀ (xs : List α) (j : Nat), xs[j]? = some b → (b :: xs.set j x).Perm (x :: xs)
  | [], j, h => by simp at h
  | y :: ys, 0, h => by
    simp at h
    subst h
    simpa using List.Perm.swap x y ys
  | y :: ys, j + 1, h => by
    simp at h
    have ih := set_cons_perm x b ys j h
    simp only [List.set_cons_succ]
    exact (List.Perm.swap y b _).trans (((ih.cons y)).trans (List.Perm.swap x y ys))

theorem swap_perm {α : Type} : ∀ (xs : List α) (i j : Nat), (swap xs i j).Perm xs
  | [], i, j => by simp [swap]
  | x :: xs, 0, 0 => by simp [swap]
  | x :: xs, 0, j + 1 => by
    unfold swap
    cases h : xs[j]? with
    | none => simp [h]
    | some b =>
      simp only [List.getElem?_cons_zero, List.getElem?_cons_succ, h, List.set_cons_zero,
        List.set_cons_succ]
      exact set_cons_perm x b xs j h
  | x :: xs, i + 1, 0 => by
    unfold swap
    cases h : xs[i]? with
    | none => simp [h]
    | some a =>
      simp only [List.getElem?_cons_zero, List.getElem?_cons_succ, h, List.set_cons_zero,
        List.set_cons_succ]
      exact set_cons_perm x a xs i h
  | x :: xs, i + 1, j + 1 => by
    have ih := swap_perm xs i j
    unfold swap at ih ⊢
    simp only [List.getElem?_cons_succ]
    cases hi : xs[i]? with
    | none => simp
    | some a =>
      cases hj : xs[j]? with
      | none => simp
      | some b =>
        simp only [hi, hj] at ih
        simpa using ih.cons x

theorem shuffleFrom_perm {α : Type} :
    ∀ (i : Nat) (r : Rand) (xs : List α), (shuffleFrom i r xs).1.Perm xs
  | 0, _, _ => List.Perm.refl _
  | i + 1, _, xs => (shuffleFrom_perm i _ _).trans (swap_perm xs _ _)

theorem Shuffle_perm {α : Type} (r : Rand) (xs : List α) : (r.Shuffle xs).1.Perm xs :=
  shuffleFrom_perm _ r xs

/-! ## `set` -/

theorem sortStrings_perm (s : List String) : (sortStrings s).Perm s :=
  List.perm_insertionSort strLe s

theorem sortStrings_sorted (s : List String) : (sortStrings s).Sorted strLe :=
  List.sorted_insertionSort strLe s

theorem mem_sortStrings {x : String} {s : List String} : x ∈ sortStrings s ↔ x ∈ s :=
  (sortStrings_perm s).mem_iff

theorem sorted_nodup_ext {a b : List String} (ha : a.Sorted strLe) (hb : b.Sorted strLe)
    (na : a.Nodup) (nb : b.Nodup) (h : ∀ x, x ∈ a ↔ x ∈ b) : a = b :=
  List.eq_of_perm_of_sorted ((List.perm_ext_iff_of_nodup na nb).2 h) ha hb

theorem sortStrings_eq_of_perm {a b : List String} (h : a.Perm b) :
    sortStrings a = sortStrings b :=
  List.eq_of_perm_of_sorted (((sortStrings_perm a).trans h).trans (sortStrings_perm b).symm)
    (sortStrings_sorted a) (sortStrings_sorted b)

theorem setFold_mem (x : String) :
    ∀ (arr acc : List String),
      x ∈ arr.foldl (fun s i => if i ∈ s then s else s ++ [i]) acc ↔ x ∈ acc ∨ x ∈ arr
  | [], acc => by simp
  | a :: arr, acc => by
    rw [List.foldl_cons, setFold_mem x arr]
    by_cases h : a ∈ acc
    · simp only [h, if_true, List.mem_cons]
      constructor
      · rintro (h1 | h1)
        · exact Or.inl h1
        · exact Or.inr (Or.inr h1)
      · rintro (h1 | h1 | h1)
        · exact Or.inl h1
        · exact Or.inl (h1 ▸ h)
        · exact Or.inr h1
    · simp only [h, if_false, List.mem_append, List.mem_singleton, List.mem_cons]
      tauto

theorem setFold_nodup :
    ∀ (arr acc : List String), acc.Nodup →
      (arr.foldl (fun s i => if i ∈ s then s else s ++ [i]) acc).Nodup
  | [], _, h => h
  | a :: arr, acc, h => by
    rw [List.foldl_cons]
    apply setFold_nodup arr
    by_cases ha : a ∈ acc
    · simpa [ha] using h
    · simp only [ha, if_false]
      exact List.Nodup.append h (List.nodup_singleton a) (by simpa using ha)

theorem setFold_of_nodup :
    ∀ (arr acc : List String), (acc ++ arr).Nodup →
      arr.foldl (fun s i => if i ∈ s then s else s ++ [i]) acc = acc ++ arr
  | [], acc, _ => by simp
  | a :: arr, acc, h => by
    have ha : a ∉ acc := by
      intro hc
      have := List.nodup_append.1 h
      exact this.2.2 hc (List.mem_cons_self a arr)
    rw [List.foldl_cons]
    simp only [ha, if_false]
    rw [setFold_of_nodup arr (acc ++ [a]) (by simpa using h)]
    simp

theorem mem_setLoop {x : String} {arr : List String} : x ∈ setLoop arr ↔ x ∈ arr := by
  simp [setLoop, setFold_mem]

theorem setLoop_nodup (arr : List String) : (setLoop arr).Nodup :=
  setFold_nodup arr [] List.nodup_nil

theorem setLoop_of_nodup {arr : List String} (h : arr.Nodup) : setLoop arr = arr := by
  simpa [setLoop] using setFold_of_nodup arr [] (by simpa using h)

theorem mem_set {x : String} {arr : List String} : x ∈ set arr ↔ x ∈ arr := by
  simp [set, mem_sortStrings, mem_setLoop]

theorem set_nodup (arr : List String) : (set arr).Nodup :=
  (sortStrings_perm _).nodup_iff.2 (setLoop_nodup arr)

theorem set_sorted (arr : List String) : (set arr).Sorted strLe :=
  sortStrings_sorted _

theorem set_ext {a b : List String} (h : ∀ x, x ∈ a ↔ x ∈ b) : set a = set b :=
  sorted_nodup_ext (set_sorted a) (set_sorted b) (set_nodup a) (set_nodup b)
    (fun x => by simp [mem_set, h])

theorem set_perm_of_nodup {arr : List String} (h : arr.Nodup) : (set arr).Perm arr := by
  unfold set
  rw [setLoop_of_nodup h]
  exact sortStrings_perm arr

theorem set_length_of_nodup {arr : List String} (h : arr.Nodup) :
    (set arr).length = arr.length :=
  (set_perm_of_nodup h).length_eq

theorem set_of_sorted_nodup {arr : List String} (hs : arr.Sorted strLe) (hn : arr.Nodup) :
    set arr = arr :=
  sorted_nodup_ext (set_sorted arr) hs (set_nodup arr) hn (fun _ => mem_set)

theorem set_set (arr : List String) : set (set arr) = set arr :=
  set_of_sorted_nodup (set_sorted arr) (set_nodup arr)

theorem set_nil : set [] = [] := rfl

/-! ## Go maps -/

theorem mapGet_mapSet_self {β : Type} (k : String) (v : β) :
    ∀ m : List (String × β), mapGet (mapSet m k v) k = some v
  | [] => by simp [mapSet, mapGet]
  | (k', v') :: m => by
    by_cases h : k' = k
    · simp [mapSet, mapGet, h]
    · simp [mapSet, mapGet, h, mapGet_mapSet_self k v m]

theorem mapGet_mapSet_ne {β : Type} {k k' : String} (v : β) (hne : k' ≠ k) :
    ∀ m : List (String × β), mapGet (mapSet m k v) k' = mapGet m k'
  | [] => by simp [mapSet, mapGet, hne.symm]
  | (k₁, v₁) :: m => by
    by_cases h : k₁ = k
    · subst h
      simp [mapSet, mapGet, hne.symm]
    · by_cases h' : k₁ = k'
      · subst h'
        simp [mapSet, mapGet, h]
      · simp [mapSet, mapGet, h, h', mapGet_mapSet_ne v hne m]

theorem mem_mapKeys_mapSet {β : Type} {k k' : String} (v : β) :
    ∀ m : List (String × β), k' ∈ mapKeys (mapSet m k v) ↔ k' = k ∨ k' ∈ mapKeys m
  | [] => by simp [mapSet, mapKeys]
  | (k₁, v₁) :: m => by
    have ih := @mem_mapKeys_mapSet β k k' v m
    by_cases h : k₁ = k
    · subst h
      simp [mapSet, mapKeys]
    · simp only [mapSet, h, if_false, mapKeys, List.map_cons, List.mem_cons] at ih ⊢
      rw [ih]
      tauto

theorem mapGet_eq_none_iff {β : Type} {k : String} :
    ∀ m : List (String × β), mapGet m k = none ↔ k ∉ mapKeys m
  | [] => by simp [mapGet, mapKeys]
  | (k₁, v₁) :: m => by
    have ih := @mapGet_eq_none_iff β k m
    by_cases h : k₁ = k
    · simp [mapGet, mapKeys, h]
    · simp only [mapGet, h, if_false, mapKeys, List.map_cons, List.mem_cons, not_or] at ih ⊢
      rw [ih]
      constructor
      · intro h1
        exact ⟨fun h2 => h h2.symm, h1⟩
      · exact fun h1 => h1.2

theorem mapGet_mem {β : Type} {k : String} {v : β} :
    ∀ m : List (String × β), mapGet m k = some v → (k, v) ∈ m
  | [], h => by simp [mapGet] at h
  | (k₁, v₁) :: m, h => by
    by_cases h' : k₁ = k
    · simp [mapGet, h'] at h
      simp [h, h']
    · simp only [mapGet, h', if_false] at h
      exact List.mem_cons_of_mem _ (mapGet_mem m h)

theorem mapGet_mem_keys {β : Type} {k : String} {v : β} {m : List (String × β)}
    (h : mapGet m k = some v) : k ∈ mapKeys m :=
  List.mem_map.2 ⟨(k, v), mapGet_mem m h, rfl⟩

theorem mapKeys_mapSet_of_mem {β : Type} {k : String} (v : β) :
    ∀ m : List (String × β), k ∈ mapKeys m → mapKeys (mapSet m k v) = mapKeys m
  | [], h => by simp [mapKeys] at h
  | (k₁, v₁) :: m, h => by
    by_cases h' : k₁ = k
    · simp [mapSet, mapKeys, h']
    · have hm : k ∈ mapKeys m := by
        simp only [mapKeys, List.map_cons, List.mem_cons] at h
        rcases h with h | h
        · exact absurd h.symm h'
        · exact h
      have ih := mapKeys_mapSet_of_mem v m hm
      simp only [mapKeys] at ih
      simp [mapSet, mapKeys, h', ih]

theorem mapKeys_mapSet_of_not_mem {β : Type} {k : String} (v : β) :
    ∀ m : List (String × β), k ∉ mapKeys m → mapKeys (mapSet m k v) = mapKeys m ++ [k]
  | [], _ => by simp [mapSet, mapKeys]
  | (k₁, v₁) :: m, h => by
    simp only [mapKeys, List.map_cons, List.mem_cons, not_or] at h
    have ih := mapKeys_mapSet_of_not_mem v m h.2
    simp only [mapKeys] at ih
    have hk : ¬ k₁ = k := fun h' => h.1 h'.symm
    simp [mapSet, mapKeys, hk, ih]

theorem length_mapSet_le {β : Type} (k : String) (v : β) :
    ∀ m : List (String × β), (mapSet m k v).length ≤ m.length + 1
  | [] => by simp [mapSet]
  | (k₁, v₁) :: m => by
    by_cases h : k₁ = k
    · simp [mapSet, h]
    · simpa [mapSet, h] using length_mapSet_le k v m

theorem mem_mapSet {β : Type} {k k' : String} {v c : β} :
    ∀ m : List (String × β), (k', c) ∈ mapSet m k v → (k' = k ∧ c = v) ∨ (k', c) ∈ m
  | [], h => by simpa [mapSet] using h
  | (k₁, v₁) :: m, h => by
    by_cases h' : k₁ = k
    · simp only [mapSet, h', if_true, List.mem_cons, Prod.mk.injEq] at h
      rcases h with h | h
      · exact Or.inl h
      · exact Or.inr (List.mem_cons_of_mem _ h)
    · simp only [mapSet, h', if_false, List.mem_cons] at h
      rcases h with h | h
      · exact Or.inr (h ▸ List.mem_cons_self _ _)
      · rcases mem_mapSet m h with h | h
        · exact Or.inl h
        · exact Or.inr (List.mem_cons_of_mem _ h)

theorem mapGet_of_mem_nodup {β : Type} {k : String} {v : β} :
    ∀ m : List (String × β), (mapKeys m).Nodup → (k, v) ∈ m → mapGet m k = some v
  | [], _, h => by simp at h
  | (k₁, v₁) :: m, hn, h => by
    simp only [mapKeys, List.map_cons, List.nodup_cons] at hn
    simp only [List.mem_cons, Prod.mk.injEq] at h
    rcases h with h | h
    · simp [mapGet, h.1, h.2]
    · have hk : k₁ ≠ k := by
        intro hc
        exact hn.1 (List.mem_map.2 ⟨(k, v), h, hc.symm⟩)
      simp only [mapGet, hk, if_false]
      exact mapGet_of_mem_nodup m hn.2 h

theorem mapKeys_nodup_mapSet {β : Type} (k : String) (v : β) (m : List (String × β))
    (h : (mapKeys m).Nodup) : (mapKeys (mapSet m k v)).Nodup := by
  by_cases hk : k ∈ mapKeys m
  · rw [mapKeys_mapSet_of_mem v m hk]
    exact h
  · rw [mapKeys_mapSet_of_not_mem v m hk]
    exact List.Nodup.append h (List.nodup_singleton k) (by simpa using hk)

/-! ## `strings.Join` and `strings.Split` -/

theorem isPrefixOf_append_drop :
    ∀ (p l : List Char), p.isPrefixOf l = true → p ++ l.drop p.length = l
  | [], l, _ => by simp
  | _ :: _, [], h => by simp [List.isPrefixOf] at h
  | a :: p, b :: l, h => by
    simp only [List.isPrefixOf, Bool.and_eq_true, beq_iff_eq] at h
    simp [h.1, isPrefixOf_append_drop p l h.2]

theorem splitChars_ne_nil (sep : List Char) :
    ∀ (n : Nat) (acc rest : List Char), splitChars sep n acc rest ≠ []
  | 0, _, _ => by simp [splitChars]
  | _ + 1, _, [] => by simp [splitChars]
  | n + 1, acc, c :: cs => by
    unfold splitChars
    split
    · simp
    · exact splitChars_ne_nil sep n _ _

theorem joinChars_cons (sep a : List Char) {l : List (List Char)} (h : l ≠ []) :
    joinChars sep (a :: l) = a ++ sep ++ joinChars sep l := by
  cases l with
  | nil => exact absurd rfl h
  | cons b rest => rfl

theorem joinChars_splitChars (sep : List Char) :
    ∀ (n : Nat) (acc rest : List Char),
      joinChars sep (splitChars sep n acc rest) = acc.reverse ++ rest
  | 0, _, _ => by simp [splitChars, joinChars]
  | _ + 1, _, [] => by simp [splitChars, joinChars]
  | n + 1, acc, c :: cs => by
    unfold splitChars
    split
    · rename_i h
      rw [joinChars_cons _ _ (splitChars_ne_nil sep n _ _), joinChars_splitChars sep n]
      simp only [List.reverse_nil, List.nil_append, List.append_assoc]
      rw [isPrefixOf_append_drop sep (c :: cs) h]
    · rw [joinChars_splitChars sep n]
      simp

theorem stringsJoin_stringsSplit (s sep : String) : stringsJoin (stringsSplit s sep) sep = s := by
  unfold stringsJoin stringsSplit
  rw [List.map_map]
  have : (String.data ∘ String.mk) = id := by
    funext x
    rfl
  rw [this, List.map_id, joinChars_splitChars]
  rfl

theorem stringsSplit_ne_nil (s sep : String) : stringsSplit s sep ≠ [] := by
  unfold stringsSplit
  simpa using splitChars_ne_nil sep.data _ _ _

theorem stringsJoin_singleton (v sep : String) : stringsJoin [v] sep = v := rfl

/-! ## `combinations.Combinations` -/

theorem Combinations_of_lt {s : List String} (n : Int) (hs : s.length < 63) :
    Combinations s n = s.sublists.filter (fun f =>
      decide (f ≠ []) &&
        (decide ((if (s.length : Int) < n then (s.length : Int) else n) ≤ 0) ||
          decide ((f.length : Int) = (if (s.length : Int) < n then (s.length : Int) else n)))) := by
  unfold Combinations
  rw [if_neg (by omega)]

theorem Combinations_of_ge {s : List String} (n : Int) (hs : 63 ≤ s.length) :
    Combinations s n = [] := by
  unfold Combinations
  rw [if_pos hs]

theorem length_lt_of_mem_Combinations {s f : List String} {n : Int} (h : f ∈ Combinations s n) :
    s.length < 63 := by
  by_contra hs
  rw [Combinations_of_ge n (by omega)] at h
  simp at h

theorem Combinations_sublist {s f : List String} {n : Int} (h : f ∈ Combinations s n) :
    f.Sublist s := by
  rw [Combinations_of_lt n (length_lt_of_mem_Combinations h)] at h
  exact List.mem_sublists.1 (List.mem_filter.1 h).1

theorem Combinations_ne_nil {s f : List String} {n : Int} (h : f ∈ Combinations s n) :
    f ≠ [] := by
  rw [Combinations_of_lt n (length_lt_of_mem_Combinations h)] at h
  have := (List.mem_filter.1 h).2
  simp only [Bool.and_eq_true, decide_eq_true_eq] at this
  exact this.1

theorem mem_Combinations {s f : List String} {n : Int} (h0 : 0 < n) (hn : n ≤ s.length)
    (hs : s.length < 63) :
    f ∈ Combinations s n ↔ f.Sublist s ∧ (f.length : Int) = n := by
  rw [Combinations_of_lt n hs]
  have hlt : ¬ ((s.length : Int) < n) := not_lt.2 hn
  simp only [hlt, if_false, List.mem_filter, List.mem_sublists, Bool.and_eq_true,
    Bool.or_eq_true, decide_eq_true_eq]
  constructor
  · rintro ⟨h1, _, h3 | h3⟩
    · omega
    · exact ⟨h1, h3⟩
  · rintro ⟨h1, h2⟩
    refine ⟨h1, ?_, Or.inr h2⟩
    intro hf
    subst hf
    simp at h2
    omega

theorem Combinations_length {s f : List String} {n : Int} (h0 : 0 < n) (hn : n ≤ s.length)
    (h : f ∈ Combinations s n) : (f.length : Int) = n :=
  ((mem_Combinations h0 hn (length_lt_of_mem_Combinations h)).1 h).2

theorem toInt64_of_range {x : Int} (h₁ : -2 ^ 63 ≤ x) (h₂ : x < 2 ^ 63) : toInt64 x = x := by
  unfold toInt64
  omega

/-! ## Cells and `AddEndpointsForSector` -/

theorem cell_of_not_mem {l : Lattice} {k : String} (h : k ∉ mapKeys l.EndpointsByCoordinate) :
    l.cell k = { elems := [], spare := [] } := by
  unfold Lattice.cell
  rw [(mapGet_eq_none_iff _).2 h]
  rfl

theorem AddEndpointsForSector_eq (rt : Runtime) (l : Lattice) (sec ep : List String)
    (h : sec.length = l.DimensionNames.length) :
    AddEndpointsForSector rt l sec ep = .ok
      { l with
        EndpointsByCoordinate :=
          mapSet l.EndpointsByCoordinate (stringsJoin sec seperator)
            (setSlice rt (ep ++ (l.cell (stringsJoin sec seperator)).elems)),
        ValuesByDimension := addValues l.DimensionNames sec l.ValuesByDimension } := by
  unfold AddEndpointsForSector Lattice.cell
  simp only [h, ne_eq, not_true_eq_false, if_false]
  cases hg : mapGet l.EndpointsByCoordinate (stringsJoin sec seperator) <;> simp

theorem AddEndpointsForSector_error (rt : Runtime) (l : Lattice) (sec ep : List String)
    (h : sec.length ≠ l.DimensionNames.length) :
    AddEndpointsForSector rt l sec ep =
      .error "lattice: mismatch between dimensions of the lattice and sector" := by
  unfold AddEndpointsForSector
  simp [h]

theorem addIgnoringError_eq (rt : Runtime) (l : Lattice) (sec ep : List String)
    (h : sec.length = l.DimensionNames.length) :
    addIgnoringError rt l sec ep =
      { l with
        EndpointsByCoordinate :=
          mapSet l.EndpointsByCoordinate (stringsJoin sec seperator)
            (setSlice rt (ep ++ (l.cell (stringsJoin sec seperator)).elems)),
        ValuesByDimension := addValues l.DimensionNames sec l.ValuesByDimension } := by
  unfold addIgnoringError
  rw [AddEndpointsForSector_eq rt l sec ep h]

theorem addIgnoringError_of_ne (rt : Runtime) (l : Lattice) (sec ep : List String)
    (h : sec.length ≠ l.DimensionNames.length) : addIgnoringError rt l sec ep = l := by
  unfold addIgnoringError
  rw [AddEndpointsForSector_error rt l sec ep h]

theorem addIgnoringError_names (rt : Runtime) (l : Lattice) (sec ep : List String) :
    (addIgnoringError rt l sec ep).DimensionNames = l.DimensionNames := by
  by_cases h : sec.length = l.DimensionNames.length
  · rw [addIgnoringError_eq rt l sec ep h]
  · rw [addIgnoringError_of_ne rt l sec ep h]

theorem addIgnoringError_keys (rt : Runtime) (l : Lattice) (sec ep : List String) {k : String}
    (hk : k ∈ mapKeys (addIgnoringError rt l sec ep).EndpointsByCoordinate) :
    k = stringsJoin sec seperator ∨ k ∈ mapKeys l.EndpointsByCoordinate := by
  by_cases h : sec.length = l.DimensionNames.length
  · rw [addIgnoringError_eq rt l sec ep h] at hk
    exact (mem_mapKeys_mapSet _ _).1 hk
  · rw [addIgnoringError_of_ne rt l sec ep h] at hk
    exact Or.inr hk

theorem addIgnoringError_keys_mono (rt : Runtime) (l : Lattice) (sec ep : List String) {k : String}
    (hk : k ∈ mapKeys l.EndpointsByCoordinate) :
    k ∈ mapKeys (addIgnoringError rt l sec ep).EndpointsByCoordinate := by
  by_cases h : sec.length = l.DimensionNames.length
  · rw [addIgnoringError_eq rt l sec ep h]
    exact (mem_mapKeys_mapSet _ _).2 (Or.inr hk)
  · rw [addIgnoringError_of_ne rt l sec ep h]
    exact hk

theorem addIgnoringError_cell_ne (rt : Runtime) (l : Lattice) (sec ep : List String) {k : String}
    (hk : k ≠ stringsJoin sec seperator) : (addIgnoringError rt l sec ep).cell k = l.cell k := by
  by_cases h : sec.length = l.DimensionNames.length
  · rw [addIgnoringError_eq rt l sec ep h]
    unfold Lattice.cell
    simp only
    rw [mapGet_mapSet_ne _ hk]
  · rw [addIgnoringError_of_ne rt l sec ep h]

theorem addIgnoringError_cell_self (rt : Runtime) (l : Lattice) (sec ep : List String)
    (h : sec.length = l.DimensionNames.length) :
    ((addIgnoringError rt l sec ep).cell (stringsJoin sec seperator)).elems =
      set (ep ++ (l.cell (stringsJoin sec seperator)).elems) := by
  rw [addIgnoringError_eq rt l sec ep h]
  unfold Lattice.cell
  simp only
  rw [mapGet_mapSet_self]
  rfl

theorem addIgnoringError_cell_subset (rt : Runtime) (l : Lattice) (sec ep : List String)
    {k e : String} (he : e ∈ ((addIgnoringError rt l sec ep).cell k).elems) :
    e ∈ (l.cell k).elems ∨ (k = stringsJoin sec seperator ∧ e ∈ ep) := by
  by_cases hk : k = stringsJoin sec seperator
  · by_cases h : sec.length = l.DimensionNames.length
    · subst hk
      rw [addIgnoringError_cell_self rt l sec ep h, mem_set, List.mem_append] at he
      rcases he with he | he
      · exact Or.inr ⟨rfl, he⟩
      · exact Or.inl he
    · rw [addIgnoringError_of_ne rt l sec ep h] at he
      exact Or.inl he
  · rw [addIgnoringError_cell_ne rt l sec ep hk] at he
    exact Or.inl he

theorem addIgnoringError_length_le (rt : Runtime) (l : Lattice) (sec ep : List String) :
    (addIgnoringError rt l sec ep).EndpointsByCoordinate.length ≤
      l.EndpointsByCoordinate.length + 1 := by
  by_cases h : sec.length = l.DimensionNames.length
  · rw [addIgnoringError_eq rt l sec ep h]
    exact length_mapSet_le _ _ _
  · rw [addIgnoringError_of_ne rt l sec ep h]
    exact Nat.le_succ _

theorem addIgnoringError_keys_nodup (rt : Runtime) (l : Lattice) (sec ep : List String)
    (hn : (mapKeys l.EndpointsByCoordinate).Nodup) :
    (mapKeys (addIgnoringError rt l sec ep).EndpointsByCoordinate).Nodup := by
  by_cases h : sec.length = l.DimensionNames.length
  · rw [addIgnoringError_eq rt l sec ep h]
    exact mapKeys_nodup_mapSet _ _ _ hn
  · rw [addIgnoringError_of_ne rt l sec ep h]
    exact hn

/-! ## The endpoints of a lattice -/

theorem mem_GetAllEndpoints {l : Lattice} {e : String} :
    e ∈ GetAllEndpoints l ↔ ∃ kv ∈ l.EndpointsByCoordinate, e ∈ kv.2.elems := by
  unfold GetAllEndpoints
  rw [mem_set, List.mem_flatMap]

theorem GetAllEndpoints_nodup (l : Lattice) : (GetAllEndpoints l).Nodup := set_nodup _

theorem GetAllEndpoints_of_cell {l : Lattice} {k e : String} (h : e ∈ (l.cell k).elems) :
    e ∈ GetAllEndpoints l := by
  unfold Lattice.cell at h
  cases hg : mapGet l.EndpointsByCoordinate k with
  | none => simp [hg] at h
  | some c =>
    simp only [hg, Option.getD_some] at h
    exact mem_GetAllEndpoints.2 ⟨(k, c), mapGet_mem _ hg, h⟩

theorem NewLatticeWithSeed_ok {seed : Int} {dims : List String} {l : Lattice}
    (h : NewLatticeWithSeed seed dims = .ok l) :
    dims ≠ [] ∧ l.Seed = seed ∧ l.DimensionNames = set (sortStrings dims) ∧
      l.EndpointsByCoordinate = [] := by
  unfold NewLatticeWithSeed at h
  split at h
  · exact absurd h (by simp)
  · rename_i hd
    simp only [Outcome.ok.injEq] at h
    subst h
    refine ⟨?_, rfl, rfl, rfl⟩
    intro hc
    exact hd (by simp [hc])

theorem NewLatticeWithSeed_not_panic (seed : Int) (dims : List String) :
    NewLatticeWithSeed seed dims ≠ .panic := by
  unfold NewLatticeWithSeed
  split <;> simp

theorem NewLatticeWithSeed_of_ne_nil (seed : Int) {dims : List String} (h : dims ≠ []) :
    ∃ l, NewLatticeWithSeed seed dims = .ok l := by
  unfold NewLatticeWithSeed
  have : ¬ dims.length = 0 := by simpa using h
  simp [this]

theorem GetAllEndpoints_addIgnoringError {rt : Runtime} {l : Lattice} {sec ep : List String}
    {e : String} (h : e ∈ GetAllEndpoints (addIgnoringError rt l sec ep)) :
    e ∈ GetAllEndpoints l ∨ e ∈ ep := by
  rcases mem_GetAllEndpoints.1 h with ⟨⟨k, c⟩, hkv, he⟩
  by_cases hlen : sec.length = l.DimensionNames.length
  · rw [addIgnoringError_eq rt l sec ep hlen] at hkv
    rcases mem_mapSet _ hkv with ⟨_, hc⟩ | hmem
    · subst hc
      simp only [setSlice, mem_set, List.mem_append] at he
      rcases he with he | he
      · exact Or.inr he
      · exact Or.inl (GetAllEndpoints_of_cell he)
    · exact Or.inl (mem_GetAllEndpoints.2 ⟨(k, c), hmem, he⟩)
  · rw [addIgnoringError_of_ne rt l sec ep hlen] at hkv
    exact Or.inl (mem_GetAllEndpoints.2 ⟨(k, c), hkv, he⟩)

/-! ## `SimulateFailure` and the complement -/

/-- What `failureLoop` keeps true of the sub-lattice it builds. -/
theorem failureLoop_spec (rt : Runtime) (l : Lattice) (dIdx : Nat) (dVal : String) :
    ∀ (entries : List (String × Slice)) (sub res : Lattice),
      (∀ e ∈ entries, e.1 ∈ mapKeys l.EndpointsByCoordinate) →
      failureLoop rt l dIdx dVal entries sub = some res →
      (∀ k ∈ mapKeys sub.EndpointsByCoordinate,
        k ∈ mapKeys l.EndpointsByCoordinate ∧
          (∃ w, (stringsSplit k seperator)[dIdx]? = some w ∧ w ≠ dVal) ∧
          (sub.cell k).elems = set (l.cell k).elems) →
      res.DimensionNames = sub.DimensionNames ∧
      (∀ k ∈ mapKeys res.EndpointsByCoordinate,
        k ∈ mapKeys l.EndpointsByCoordinate ∧
          (∃ w, (stringsSplit k seperator)[dIdx]? = some w ∧ w ≠ dVal) ∧
          (res.cell k).elems = set (l.cell k).elems) ∧
      res.EndpointsByCoordinate.length ≤ sub.EndpointsByCoordinate.length +
        (entries.filter (fun e => decide ((stringsSplit e.1 seperator)[dIdx]? ≠ some dVal))).length ∧
      ((mapKeys sub.EndpointsByCoordinate).Nodup → (mapKeys res.EndpointsByCoordinate).Nodup)
  | [], sub, res, _, h, hs => by
    simp only [failureLoop, Option.some.injEq] at h
    subst h
    exact ⟨rfl, hs, by simp, id⟩
  | (c, x) :: rest, sub, res, hin, h, hs => by
    have hc : c ∈ mapKeys l.EndpointsByCoordinate := hin (c, x) (List.mem_cons_self _ _)
    have hin' : ∀ e ∈ rest, e.1 ∈ mapKeys l.EndpointsByCoordinate :=
      fun e he => hin e (List.mem_cons_of_mem _ he)
    unfold failureLoop at h
    cases hv : (stringsSplit c seperator)[dIdx]? with
    | none => simp [hv] at h
    | some v =>
      simp only [hv] at h
      by_cases hne : v ≠ dVal
      · simp only [hne, ne_eq, not_false_eq_true, if_true] at h
        rw [stringsJoin_stringsSplit] at h
        have hs' : ∀ k ∈ mapKeys (addIgnoringError rt sub (stringsSplit c seperator)
              (l.cell c).elems).EndpointsByCoordinate,
            k ∈ mapKeys l.EndpointsByCoordinate ∧
              (∃ w, (stringsSplit k seperator)[dIdx]? = some w ∧ w ≠ dVal) ∧
              ((addIgnoringError rt sub (stringsSplit c seperator) (l.cell c).elems).cell k).elems =
                set (l.cell k).elems := by
          intro k hk
          by_cases hkc : k = c
          · subst hkc
            refine ⟨hc, ⟨v, hv, hne⟩, ?_⟩
            by_cases hlen : (stringsSplit k seperator).length = sub.DimensionNames.length
            · have := addIgnoringError_cell_self rt sub (stringsSplit k seperator)
                (l.cell k).elems hlen
              rw [stringsJoin_stringsSplit] at this
              rw [this]
              apply set_ext
              intro x
              by_cases hks : k ∈ mapKeys sub.EndpointsByCoordinate
              · rw [(hs k hks).2.2]
                simp [mem_set]
              · rw [cell_of_not_mem hks]
                simp
            · rw [addIgnoringError_of_ne rt sub _ _ hlen] at hk ⊢
              exact (hs k hk).2.2
          · have hk' : k ≠ stringsJoin (stringsSplit c seperator) seperator := by
              rw [stringsJoin_stringsSplit]
              exact hkc
            rw [addIgnoringError_cell_ne rt sub _ _ hk']
            rcases addIgnoringError_keys rt sub _ _ hk with h1 | h1
            · exact absurd h1 hk'
            · exact hs k h1
        obtain ⟨r1, r2, r3, r4⟩ := failureLoop_spec rt l dIdx dVal rest _ res hin' h hs'
        refine ⟨by rw [r1, addIgnoringError_names], r2, ?_, ?_⟩
        · have hle := addIgnoringError_length_le rt sub (stringsSplit c seperator) (l.cell c).elems
          have hf : decide ((stringsSplit c seperator)[dIdx]? ≠ some dVal) = true := by
            simp [hv, hne]
          simp only [List.filter_cons, hf, if_true, List.length_cons]
          omega
        · intro hn
          exact r4 (addIgnoringError_keys_nodup rt sub _ _ hn)
      · have hve : v = dVal := not_not.1 hne
        simp only [hve, ne_eq, not_true_eq_false, if_false] at h
        obtain ⟨r1, r2, r3, r4⟩ := failureLoop_spec rt l dIdx dVal rest sub res hin' h hs
        refine ⟨r1, r2, ?_, r4⟩
        have hf : decide ((stringsSplit c seperator)[dIdx]? ≠ some dVal) = false := by
          simp [hv, hve]
        simp only [List.filter_cons, hf]
        simpa using r3

theorem NewLattice_ok {rt : Runtime} {dims : List String} {l : Lattice}
    (h : NewLattice rt dims = .ok l) :
    dims ≠ [] ∧ l.DimensionNames = set (sortStrings dims) ∧ l.EndpointsByCoordinate = [] := by
  have := NewLatticeWithSeed_ok h
  exact ⟨this.1, this.2.2.1, this.2.2.2⟩

theorem NewLattice_cell {rt : Runtime} {dims : List String} {l : Lattice}
    (h : NewLattice rt dims = .ok l) (k : String) : l.cell k = { elems := [], spare := [] } := by
  apply cell_of_not_mem
  rw [(NewLattice_ok h).2.2]
  simp [mapKeys]

theorem NewLattice_endpoints {rt : Runtime} {dims : List String} {l : Lattice}
    (h : NewLattice rt dims = .ok l) : GetAllEndpoints l = [] := by
  unfold GetAllEndpoints
  rw [(NewLattice_ok h).2.2]
  rfl

/-- The cells that `SimulateFailure` keeps. -/
theorem SimulateFailure_spec {rt : Runtime} {l sub : Lattice} {dName dVal : String}
    (h : SimulateFailure rt l dName dVal = .ok sub) :
    l.DimensionNames ≠ [] ∧
    sub.DimensionNames = set (sortStrings l.DimensionNames) ∧
    (∀ k ∈ mapKeys sub.EndpointsByCoordinate,
      k ∈ mapKeys l.EndpointsByCoordinate ∧
        (∃ w, (stringsSplit k seperator)[(indexOf l.DimensionNames dName).toNat]? = some w ∧
          w ≠ dVal) ∧
        (sub.cell k).elems = set (l.cell k).elems) ∧
    sub.EndpointsByCoordinate.length ≤
      (l.EndpointsByCoordinate.filter (fun e =>
        decide ((stringsSplit e.1 seperator)[(indexOf l.DimensionNames dName).toNat]? ≠
          some dVal))).length ∧
    (mapKeys sub.EndpointsByCoordinate).Nodup := by
  unfold SimulateFailure at h
  cases hn : NewLattice rt l.DimensionNames with
  | error e => simp [hn] at h
  | panic => simp [hn] at h
  | ok s0 =>
    simp only [hn] at h
    split at h
    · exact absurd h (by simp)
    · cases hf : failureLoop rt l (indexOf l.DimensionNames dName).toNat dVal
          l.EndpointsByCoordinate s0 with
      | none => simp [hf] at h
      | some r =>
        simp only [hf, Outcome.ok.injEq] at h
        subst h
        have h0 := NewLattice_ok hn
        have hs0 : ∀ k ∈ mapKeys s0.EndpointsByCoordinate,
            k ∈ mapKeys l.EndpointsByCoordinate ∧
              (∃ w, (stringsSplit k seperator)[(indexOf l.DimensionNames dName).toNat]? = some w ∧
                w ≠ dVal) ∧
              (s0.cell k).elems = set (l.cell k).elems := by
          intro k hk
          rw [h0.2.2] at hk
          simp [mapKeys] at hk
        obtain ⟨r1, r2, r3, r4⟩ := failureLoop_spec rt l _ dVal l.EndpointsByCoordinate s0 r
          (fun e he => List.mem_map.2 ⟨e, he, rfl⟩) hf hs0
        refine ⟨h0.1, by rw [r1, h0.2.1], r2, ?_, ?_⟩
        · rw [h0.2.2] at r3
          simpa using r3
        · apply r4
          rw [h0.2.2]
          simp [mapKeys]

theorem SimulateFailure_length_le {rt : Runtime} {l sub : Lattice} {dName dVal : String}
    (h : SimulateFailure rt l dName dVal = .ok sub) :
    sub.EndpointsByCoordinate.length ≤ l.EndpointsByCoordinate.length :=
  (SimulateFailure_spec h).2.2.2.1.trans (List.length_filter_le _ _)

/-- Later rounds of the loop of the complement only drop cells. -/
theorem complementLoop_weak (rt : Runtime) (lattice : Lattice) (coordinate : List String) :
    ∀ (idx : List Nat) (start comp : Lattice),
      complementLoop rt lattice coordinate idx start = .ok comp →
      (∀ k ∈ mapKeys comp.EndpointsByCoordinate,
        k ∈ mapKeys start.EndpointsByCoordinate ∧
          ((comp.cell k).elems = (start.cell k).elems ∨
            (comp.cell k).elems = set (start.cell k).elems)) ∧
      comp.EndpointsByCoordinate.length ≤ start.EndpointsByCoordinate.length ∧
      ((mapKeys start.EndpointsByCoordinate).Nodup → (mapKeys comp.EndpointsByCoordinate).Nodup)
  | [], start, comp, h => by
    simp only [complementLoop, Outcome.ok.injEq] at h
    subst h
    exact ⟨fun k hk => ⟨hk, Or.inl rfl⟩, le_refl _, id⟩
  | i :: rest, start, comp, h => by
    unfold complementLoop at h
    cases hd : GetDimensionName lattice i with
    | error e => simp [hd] at h
    | panic => simp [hd] at h
    | ok d =>
      cases hv : coordinate[i]? with
      | none => simp [hd, hv] at h
      | some v =>
        simp only [hd, hv] at h
        cases hs : SimulateFailure rt start d v with
        | error e => simp [hs] at h
        | panic => simp [hs] at h
        | ok c =>
          simp only [hs] at h
          obtain ⟨r1, r2, r3⟩ := complementLoop_weak rt lattice coordinate rest c comp h
          obtain ⟨_, _, s3, s4, s5⟩ := SimulateFailure_spec hs
          refine ⟨?_, r2.trans (s4.trans (List.length_filter_le _ _)), fun _ => r3 s5⟩
          intro k hk
          obtain ⟨hk1, hk2⟩ := r1 k hk
          obtain ⟨hk3, _, hk5⟩ := s3 k hk1
          refine ⟨hk3, Or.inr ?_⟩
          rcases hk2 with hk2 | hk2
          · rw [hk2, hk5]
          · rw [hk2, hk5, set_set]

theorem length_foldl_mapSet_pos {β : Type} (f : String → β) :
    ∀ (names : List String) (m : List (String × β)), names ≠ [] ∨ m ≠ [] →
      0 < (names.foldl (fun m d => mapSet m d (f d)) m).length
  | [], m, h => by
    rcases h with h | h
    · exact absurd rfl h
    · simpa using List.length_pos.2 h
  | d :: names, m, _ => by
    rw [List.foldl_cons]
    apply length_foldl_mapSet_pos f names
    right
    cases m with
    | nil => simp [mapSet]
    | cons a m =>
      obtain ⟨k, v⟩ := a
      unfold mapSet
      split <;> simp

theorem GetDimensionality_length_pos {l : Lattice} (h : l.DimensionNames ≠ []) :
    0 < (GetDimensionality l).length := by
  unfold GetDimensionality
  exact length_foldl_mapSet_pos (fun d => (GetDimensionValues l d).length) _ _ (Or.inl h)

theorem indexOf_head (d : String) (ds : List String) : indexOf (d :: ds) d = 0 := by
  unfold indexOf
  simp

/-- The complement of a coordinate: its cells are cells of the lattice whose first
value differs from the first value of the coordinate. -/
theorem complement_spec {rt : Runtime} {lattice comp : Lattice} {coordinate : List String}
    (hn : lattice.DimensionNames ≠ [])
    (h : complement rt lattice coordinate = .ok comp) :
    (∀ k ∈ mapKeys comp.EndpointsByCoordinate,
      k ∈ mapKeys lattice.EndpointsByCoordinate ∧
        (stringsSplit k seperator)[0]? ≠ coordinate[0]? ∧
        (comp.cell k).elems = set (lattice.cell k).elems) ∧
    comp.EndpointsByCoordinate.length ≤
      (lattice.EndpointsByCoordinate.filter (fun e =>
        decide ((stringsSplit e.1 seperator)[0]? ≠ coordinate[0]?))).length ∧
    (mapKeys comp.EndpointsByCoordinate).Nodup := by
  unfold complement at h
  obtain ⟨n, hnn⟩ : ∃ n, (GetDimensionality lattice).length = n + 1 :=
    ⟨(GetDimensionality lattice).length - 1, by
      have := GetDimensionality_length_pos hn
      omega⟩
  rw [hnn, List.range_succ_eq_map] at h
  unfold complementLoop at h
  obtain ⟨d, ds, hds⟩ : ∃ d ds, lattice.DimensionNames = d :: ds := by
    cases hl : lattice.DimensionNames with
    | nil => exact absurd hl hn
    | cons d ds => exact ⟨d, ds, rfl⟩
  have hd : GetDimensionName lattice 0 = .ok d := by
    unfold GetDimensionName
    simp [hds]
  cases hv : coordinate[0]? with
  | none => simp [hd, hv] at h
  | some v =>
    simp only [hd, hv] at h
    cases hs : SimulateFailure rt lattice d v with
    | error e => simp [hs] at h
    | panic => simp [hs] at h
    | ok c =>
      simp only [hs] at h
      obtain ⟨r1, r2, r3⟩ := complementLoop_weak rt lattice coordinate _ c comp h
      obtain ⟨_, _, s3, s4, s5⟩ := SimulateFailure_spec hs
      have hidx : (indexOf lattice.DimensionNames d).toNat = 0 := by
        rw [hds, indexOf_head]
        rfl
      rw [hidx] at s3 s4
      refine ⟨?_, ?_, r3 s5⟩
      · intro k hk
        obtain ⟨hk1, hk2⟩ := r1 k hk
        obtain ⟨hk3, ⟨w, hw1, hw2⟩, hk5⟩ := s3 k hk1
        refine ⟨hk3, ?_, ?_⟩
        · rw [hw1]
          intro hc
          exact hw2 (Option.some.inj hc)
        · rcases hk2 with hk2 | hk2
          · rw [hk2, hk5]
          · rw [hk2, hk5, set_set]
      · exact r2.trans s4

theorem mem_GetAllCoordinates {l : Lattice} {c : List String} :
    c ∈ GetAllCoordinates l ↔
      ∃ k ∈ mapKeys l.EndpointsByCoordinate, c = stringsSplit k seperator := by
  unfold GetAllCoordinates
  simp only [List.mem_map, mem_set]
  constructor
  · rintro ⟨k, hk, rfl⟩
    exact ⟨k, hk, rfl⟩
  · rintro ⟨k, hk, rfl⟩
    exact ⟨k, hk, rfl⟩

/-- The complement of a coordinate of the lattice has fewer cells than the
lattice. -/
theorem complement_length_lt {rt : Runtime} {lattice comp : Lattice} {key : String}
    (hn : lattice.DimensionNames ≠ [])
    (hk : key ∈ mapKeys lattice.EndpointsByCoordinate)
    (h : complement rt lattice (stringsSplit key seperator) = .ok comp) :
    comp.EndpointsByCoordinate.length < lattice.EndpointsByCoordinate.length := by
  refine lt_of_le_of_lt (complement_spec hn h).2.1 ?_
  obtain ⟨⟨k, x⟩, hmem, hkx⟩ := List.mem_map.1 hk
  simp only at hkx
  subst hkx
  apply List.length_filter_lt_length_iff_exists.2
  exact ⟨(k, x), hmem, by simp⟩

theorem complement_not_mem {rt : Runtime} {lattice comp : Lattice} {key : String}
    (hn : lattice.DimensionNames ≠ [])
    (h : complement rt lattice (stringsSplit key seperator) = .ok comp) :
    key ∉ mapKeys comp.EndpointsByCoordinate := by
  intro hk
  exact ((complement_spec hn h).1 key hk).2.1 rfl

/-! ## Lattices up to the order inside the cells -/

theorem ShuffledOf.refl (l : Lattice) : ShuffledOf l l :=
  ⟨rfl, rfl, rfl, rfl, fun _ => ⟨List.Perm.refl _, rfl⟩⟩

theorem ShuffledOf.trans {a b c : Lattice} (h₁ : ShuffledOf a b) (h₂ : ShuffledOf b c) :
    ShuffledOf a c :=
  ⟨h₁.1.trans h₂.1, h₁.2.1.trans h₂.2.1, h₁.2.2.1.trans h₂.2.2.1, h₁.2.2.2.1.trans h₂.2.2.2.1,
    fun k => ⟨(h₁.2.2.2.2 k).1.trans (h₂.2.2.2.2 k).1, (h₁.2.2.2.2 k).2.trans (h₂.2.2.2.2 k).2⟩⟩

theorem ShuffledOf.length_eq {a b : Lattice} (h : ShuffledOf a b) :
    a.EndpointsByCoordinate.length = b.EndpointsByCoordinate.length := by
  have := congrArg List.length h.2.2.2.1
  simpa [mapKeys] using this

theorem ShuffledOf.mem_cell {a b : Lattice} (h : ShuffledOf a b) {k e : String} :
    e ∈ (a.cell k).elems ↔ e ∈ (b.cell k).elems :=
  (h.2.2.2.2 k).1.mem_iff

theorem setCell_keys (l : Lattice) (k : String) (c : Slice) :
    mapKeys (l.setCell k c).EndpointsByCoordinate = mapKeys l.EndpointsByCoordinate := by
  unfold Lattice.setCell
  cases h : mapGet l.EndpointsByCoordinate k with
  | none => rfl
  | some v => exact mapKeys_mapSet_of_mem c _ (mapGet_mem_keys h)

theorem setCell_cell_ne (l : Lattice) {k k' : String} (c : Slice) (h : k' ≠ k) :
    (l.setCell k c).cell k' = l.cell k' := by
  unfold Lattice.setCell
  cases hg : mapGet l.EndpointsByCoordinate k with
  | none => rfl
  | some v =>
    unfold Lattice.cell
    simp only
    rw [mapGet_mapSet_ne c h]

theorem setCell_cell_self (l : Lattice) {k : String} (c : Slice)
    (h : k ∈ mapKeys l.EndpointsByCoordinate) : (l.setCell k c).cell k = c := by
  unfold Lattice.setCell
  cases hg : mapGet l.EndpointsByCoordinate k with
  | none => exact absurd h ((mapGet_eq_none_iff _).1 hg)
  | some v =>
    unfold Lattice.cell
    simp only
    rw [mapGet_mapSet_self]
    rfl

theorem setCell_of_not_mem (l : Lattice) {k : String} (c : Slice)
    (h : k ∉ mapKeys l.EndpointsByCoordinate) : l.setCell k c = l := by
  unfold Lattice.setCell
  rw [(mapGet_eq_none_iff _).2 h]

theorem setCell_fields (l : Lattice) (k : String) (c : Slice) :
    (l.setCell k c).Seed = l.Seed ∧ (l.setCell k c).DimensionNames = l.DimensionNames ∧
      (l.setCell k c).ValuesByDimension = l.ValuesByDimension := by
  unfold Lattice.setCell
  cases mapGet l.EndpointsByCoordinate k <;> exact ⟨rfl, rfl, rfl⟩

theorem setCell_ShuffledOf (l : Lattice) (k : String) (c : Slice)
    (hp : c.elems.Perm (l.cell k).elems) (hs : c.spare = (l.cell k).spare) :
    ShuffledOf (l.setCell k c) l := by
  obtain ⟨f1, f2, f3⟩ := setCell_fields l k c
  refine ⟨f1, f2, f3, setCell_keys l k c, ?_⟩
  intro k'
  by_cases hk : k' = k
  · subst hk
    by_cases hm : k' ∈ mapKeys l.EndpointsByCoordinate
    · rw [setCell_cell_self l c hm]
      exact ⟨hp, hs⟩
    · rw [setCell_of_not_mem l c hm]
      exact ⟨List.Perm.refl _, rfl⟩
  · rw [setCell_cell_ne l c hk]
    exact ⟨List.Perm.refl _, rfl⟩

theorem shuffleCell_ShuffledOf (l : Lattice) (k : String) (r : Rand) :
    ShuffledOf (shuffleCell l k r).1 l :=
  setCell_ShuffledOf l k _ (Shuffle_perm r _) rfl

/-! ## The search of the stateful sharder -/

theorem fragmentLoop_sound (rt : Runtime) (shard : StatefulSharder) (epc k : Int)
    (recurse : Lattice → Rand → HelperResult)
    (hrec : ∀ c g out c' g', recurse c g = some (out, c', g') →
      ShuffledOf c' c ∧ ∀ res, out = .ok res → Search rt shard epc k c res)
    {lattice l₁ l₂ compliment : Lattice} {key : String} {coordinate : List String}
    (h₁ : ShuffledOf l₁ lattice) (h₂ : ShuffledOf l₂ lattice)
    (hkey : key ∈ mapKeys lattice.EndpointsByCoordinate)
    (hc : coordinate = stringsSplit key seperator)
    (hn : GetDimensionNames lattice ≠ [])
    (hcomp : complement rt l₁ coordinate = .ok compliment)
    (hlen : coordinate.length = lattice.DimensionNames.length) :
    ∀ (frags : List (List String)) (comp : Lattice) (g : Rand) (res : Lattice) (g' : Rand),
      (∀ f ∈ frags, f ∈ Combinations (l₂.cell (stringsJoin coordinate seperator)).elems epc) →
      ShuffledOf comp compliment →
      fragmentLoop rt shard k recurse coordinate frags comp g = some (some (.ok res), g') →
      Search rt shard epc k lattice res
  | [], comp, g, res, g', _, _, h => by simp [fragmentLoop] at h
  | fragment :: rest, comp, g, res, g', hf, hs, h => by
    have hf' : ∀ f ∈ rest, f ∈ Combinations (l₂.cell (stringsJoin coordinate seperator)).elems epc :=
      fun f hm => hf f (List.mem_cons_of_mem _ hm)
    unfold fragmentLoop at h
    split at h
    · exact fragmentLoop_sound rt shard epc k recurse hrec h₁ h₂ hkey hc hn hcomp hlen
        rest comp g res g' hf' hs h
    · rename_i hloc
      cases hr : recurse comp g with
      | none => simp [hr] at h
      | some t =>
        obtain ⟨out, comp', g₁⟩ := t
        obtain ⟨hsh, hsearch⟩ := hrec comp g out comp' g₁ hr
        cases out with
        | error e => simp [hr] at h
        | panic => simp [hr] at h
        | ok picked =>
          simp only [hr] at h
          split at h
          · exact fragmentLoop_sound rt shard epc k recurse hrec h₁ h₂ hkey hc hn hcomp hlen
              rest comp' g₁ res g' hf' (hsh.trans hs) h
          · rename_i hcomb
            simp only [Option.some.injEq, Prod.mk.injEq, Outcome.ok.injEq] at h
            rw [← h.1]
            exact Search.pick lattice l₁ l₂ compliment comp picked key coordinate fragment
              h₁ h₂ hkey hc hn hcomp hlen (hf fragment (List.mem_cons_self _ _)) hloc hs
              (hsearch picked rfl) hcomb

theorem GetEndpointsForSector_ok {l : Lattice} {sec eps : List String}
    (h : GetEndpointsForSector l sec = .ok eps) :
    sec.length = l.DimensionNames.length ∧ eps = (l.cell (stringsJoin sec seperator)).elems := by
  unfold GetEndpointsForSector at h
  split at h
  · exact absurd h (by simp)
  · rename_i hl
    simp only [Outcome.ok.injEq] at h
    exact ⟨not_not.1 hl, h.symm⟩

theorem GetEndpointsForSector_not_panic (l : Lattice) (sec : List String) :
    GetEndpointsForSector l sec ≠ .panic := by
  unfold GetEndpointsForSector
  split <;> simp

theorem coordinateLoop_sound (rt : Runtime) (shard : StatefulSharder) (epc k : Int)
    (recurse : Lattice → Rand → HelperResult)
    (hrec : ∀ c g out c' g', recurse c g = some (out, c', g') →
      ShuffledOf c' c ∧ ∀ res, out = .ok res → Search rt shard epc k c res)
    (lattice : Lattice) :
    ∀ (coords : List (List String)) (cur : Lattice) (g : Rand) (out : Outcome Lattice)
      (l' : Lattice) (g' : Rand),
      ShuffledOf cur lattice →
      (∀ c ∈ coords, ∃ key ∈ mapKeys lattice.EndpointsByCoordinate,
        c = stringsSplit key seperator) →
      coordinateLoop rt shard epc k recurse coords cur g = some (out, l', g') →
      ShuffledOf l' lattice ∧ ∀ res, out = .ok res → Search rt shard epc k lattice res
  | [], cur, g, out, l', g', hs, _, h => by
    simp only [coordinateLoop, Option.some.injEq, Prod.mk.injEq] at h
    obtain ⟨h1, h2, _⟩ := h
    subst h2
    refine ⟨hs, fun res hres => Search.empty lattice res ?_⟩
    rw [← hres, ← h1]
    unfold GetDimensionNames
    rw [hs.2.1]
  | coordinate :: rest, cur, g, out, l', g', hs, hco, h => by
    have hco' : ∀ c ∈ rest, ∃ key ∈ mapKeys lattice.EndpointsByCoordinate,
        c = stringsSplit key seperator := fun c hm => hco c (List.mem_cons_of_mem _ hm)
    obtain ⟨key, hkey, hc⟩ := hco coordinate (List.mem_cons_self _ _)
    unfold coordinateLoop at h
    cases hnew : NewLattice rt (GetDimensionNames cur) with
    | error e =>
      simp only [hnew, Option.some.injEq, Prod.mk.injEq] at h
      obtain ⟨h1, h2, _⟩ := h
      subst h2
      exact ⟨hs, fun res hres => by rw [← h1] at hres; exact absurd hres (by simp)⟩
    | panic =>
      simp only [hnew, Option.some.injEq, Prod.mk.injEq] at h
      obtain ⟨h1, h2, _⟩ := h
      subst h2
      exact ⟨hs, fun res hres => by rw [← h1] at hres; exact absurd hres (by simp)⟩
    | ok fresh =>
      simp only [hnew] at h
      have hn : GetDimensionNames lattice ≠ [] := by
        have := (NewLattice_ok hnew).1
        unfold GetDimensionNames at this ⊢
        rwa [hs.2.1] at this
      cases hcomp : complement rt cur coordinate with
      | error e =>
        simp only [hcomp, Option.some.injEq, Prod.mk.injEq] at h
        obtain ⟨h1, h2, _⟩ := h
        subst h2
        exact ⟨hs, fun res hres => by rw [← h1] at hres; exact absurd hres (by simp)⟩
      | panic =>
        simp only [hcomp, Option.some.injEq, Prod.mk.injEq] at h
        obtain ⟨h1, h2, _⟩ := h
        subst h2
        exact ⟨hs, fun res hres => by rw [← h1] at hres; exact absurd hres (by simp)⟩
      | ok compliment =>
        simp only [hcomp] at h
        cases hget : GetEndpointsForSector cur coordinate with
        | error e =>
          simp only [hget, Option.some.injEq, Prod.mk.injEq] at h
          obtain ⟨h1, h2, _⟩ := h
          subst h2
          exact ⟨hs, fun res hres => by rw [← h1] at hres; exact absurd hres (by simp)⟩
        | panic =>
          simp only [hget, Option.some.injEq, Prod.mk.injEq] at h
          obtain ⟨h1, h2, _⟩ := h
          subst h2
          exact ⟨hs, fun res hres => by rw [← h1] at hres; exact absurd hres (by simp)⟩
        | ok eps =>
          simp only [hget] at h
          have hlen : coordinate.length = lattice.DimensionNames.length := by
            rw [← hs.2.1]
            exact (GetEndpointsForSector_ok hget).1
          have hs2 : ShuffledOf (shuffleCell cur (stringsJoin coordinate seperator) g).1 lattice :=
            (shuffleCell_ShuffledOf cur _ g).trans hs
          cases hfl : fragmentLoop rt shard k recurse coordinate
              (Combinations
                ((shuffleCell cur (stringsJoin coordinate seperator) g).1.cell
                  (stringsJoin coordinate seperator)).elems epc)
              compliment (shuffleCell cur (stringsJoin coordinate seperator) g).2 with
          | none => simp [hfl] at h
          | some t =>
            obtain ⟨o, g₁⟩ := t
            cases o with
            | none =>
              simp only [hfl] at h
              exact coordinateLoop_sound rt shard epc k recurse hrec lattice rest _ g₁ out l' g'
                hs2 hco' h
            | some r =>
              simp only [hfl, Option.some.injEq, Prod.mk.injEq] at h
              obtain ⟨h1, h2, _⟩ := h
              subst h2
              refine ⟨hs2, fun res hres => ?_⟩
              rw [← h1] at hres
              subst hres
              exact fragmentLoop_sound rt shard epc k recurse hrec hs hs2 hkey hc hn hcomp hlen
                _ compliment _ res g₁ (fun f hf => hf) (ShuffledOf.refl _) hfl

/-- Every result of the recursive helper is a result of the search, and the helper
leaves the lattice as it was up to the order inside the cells. -/
theorem shuffleShardRecursiveHelper_sound (rt : Runtime) (shard : StatefulSharder) (epc k : Int) :
    ∀ (depth : Nat) (lattice : Lattice) (g : Rand) (out : Outcome Lattice) (l' : Lattice)
      (g' : Rand),
      shuffleShardRecursiveHelper rt shard epc k depth lattice g = some (out, l', g') →
      ShuffledOf l' lattice ∧ ∀ res, out = .ok res → Search rt shard epc k lattice res
  | 0, _, _, _, _, _, h => by simp [shuffleShardRecursiveHelper] at h
  | depth + 1, lattice, g, out, l', g', h => by
    unfold shuffleShardRecursiveHelper at h
    refine coordinateLoop_sound rt shard epc k _
      (shuffleShardRecursiveHelper_sound rt shard epc k depth) lattice _ lattice _ out l' g'
      (ShuffledOf.refl _) ?_ h
    intro c hc
    exact mem_GetAllCoordinates.1 ((Shuffle_perm g _).mem_iff.1 hc)

theorem fragmentLoop_total (rt : Runtime) (shard : StatefulSharder) (epc k : Int) (n : Nat)
    (recurse : Lattice → Rand → HelperResult)
    (hrec : ∀ c g out c' g', recurse c g = some (out, c', g') →
      ShuffledOf c' c ∧ ∀ res, out = .ok res → Search rt shard epc k c res)
    (htot : ∀ c g, c.EndpointsByCoordinate.length < n → recurse c g ≠ none)
    (coordinate : List String) :
    ∀ (frags : List (List String)) (comp : Lattice) (g : Rand),
      comp.EndpointsByCoordinate.length < n →
      fragmentLoop rt shard k recurse coordinate frags comp g ≠ none
  | [], _, _, _ => by simp [fragmentLoop]
  | fragment :: rest, comp, g, hl => by
    unfold fragmentLoop
    split
    · exact fragmentLoop_total rt shard epc k n recurse hrec htot coordinate rest comp g hl
    · cases hr : recurse comp g with
      | none => exact absurd hr (htot comp g hl)
      | some t =>
        obtain ⟨out, comp', g₁⟩ := t
        obtain ⟨hsh, _⟩ := hrec comp g out comp' g₁ hr
        cases out with
        | error e => simp
        | panic => simp
        | ok picked =>
          simp only
          split
          · exact fragmentLoop_total rt shard epc k n recurse hrec htot coordinate rest comp' g₁
              (by rw [hsh.length_eq]; exact hl)
          · simp

theorem coordinateLoop_total (rt : Runtime) (shard : StatefulSharder) (epc k : Int) (n : Nat)
    (recurse : Lattice → Rand → HelperResult)
    (hrec : ∀ c g out c' g', recurse c g = some (out, c', g') →
      ShuffledOf c' c ∧ ∀ res, out = .ok res → Search rt shard epc k c res)
    (htot : ∀ c g, c.EndpointsByCoordinate.length < n → recurse c g ≠ none) :
    ∀ (coords : List (List String)) (cur : Lattice) (g : Rand),
      cur.EndpointsByCoordinate.length ≤ n →
      (∀ c ∈ coords, ∃ key ∈ mapKeys cur.EndpointsByCoordinate,
        c = stringsSplit key seperator) →
      coordinateLoop rt shard epc k recurse coords cur g ≠ none
  | [], _, _, _, _ => by simp [coordinateLoop]
  | coordinate :: rest, cur, g, hl, hco => by
    obtain ⟨key, hkey, hc⟩ := hco coordinate (List.mem_cons_self _ _)
    unfold coordinateLoop
    cases hnew : NewLattice rt (GetDimensionNames cur) with
    | error e => simp
    | panic => simp
    | ok fresh =>
      simp only
      cases hcomp : complement rt cur coordinate with
      | error e => simp
      | panic => simp
      | ok compliment =>
        simp only
        cases hget : GetEndpointsForSector cur coordinate with
        | error e => simp
        | panic => simp
        | ok eps =>
          simp only
          have hlt : compliment.EndpointsByCoordinate.length < n := by
            rw [hc] at hcomp
            exact lt_of_lt_of_le (complement_length_lt (NewLattice_ok hnew).1 hkey hcomp) hl
          cases hfl : fragmentLoop rt shard k recurse coordinate
              (Combinations
                ((shuffleCell cur (stringsJoin coordinate seperator) g).1.cell
                  (stringsJoin coordinate seperator)).elems epc)
              compliment (shuffleCell cur (stringsJoin coordinate seperator) g).2 with
          | none =>
            exact absurd hfl (fragmentLoop_total rt shard epc k n recurse hrec htot coordinate
              _ compliment _ hlt)
          | some t =>
            obtain ⟨o, g₁⟩ := t
            cases o with
            | some r => simp
            | none =>
              simp only
              have hsh := shuffleCell_ShuffledOf cur (stringsJoin coordinate seperator) g
              apply coordinateLoop_total rt shard epc k n recurse hrec htot rest _ g₁
              · rw [hsh.length_eq]
                exact hl
              · intro c hm
                obtain ⟨key', hk', hc'⟩ := hco c (List.mem_cons_of_mem _ hm)
                exact ⟨key', by rw [hsh.2.2.2.1]; exact hk', hc'⟩

/-- The recursive helper returns when the bound on its depth exceeds the number
of cells of the lattice. -/
theorem shuffleShardRecursiveHelper_total (rt : Runtime) (shard : StatefulSharder)
    (epc k : Int) :
    ∀ (depth : Nat) (lattice : Lattice) (g : Rand),
      lattice.EndpointsByCoordinate.length < depth →
      shuffleShardRecursiveHelper rt shard epc k depth lattice g ≠ none
  | 0, _, _, h => absurd h (Nat.not_lt_zero _)
  | depth + 1, lattice, g, h => by
    unfold shuffleShardRecursiveHelper
    apply coordinateLoop_total rt shard epc k depth _
      (shuffleShardRecursiveHelper_sound rt shard epc k depth)
      (fun c g hc => shuffleShardRecursiveHelper_total rt shard epc k depth c g hc)
      _ lattice _ (Nat.lt_succ_iff.1 h)
    intro c hc
    exact mem_GetAllCoordinates.1 ((Shuffle_perm g _).mem_iff.1 hc)

/-- The call `StatefulShuffleShard` always returns: the bound on the depth of the
recursion is never reached. -/
theorem StatefulShuffleShard_isSome (rt : Runtime) (shard : StatefulSharder) (g : Rand)
    (lattice : Lattice) (epc k : Int) :
    (StatefulShuffleShard rt shard g lattice epc k).isSome = true := by
  unfold StatefulShuffleShard
  cases h : shuffleShardRecursiveHelper rt shard epc k
      (lattice.EndpointsByCoordinate.length + 1) lattice g with
  | none =>
    exact absurd h (shuffleShardRecursiveHelper_total rt shard epc k _ lattice g
      (Nat.lt_succ_self _))
  | some t =>
    obtain ⟨out, l', g'⟩ := t
    cases out with
    | error e => rfl
    | panic => rfl
    | ok target =>
      simp only
      split <;> rfl

/-! ## What every result of the search satisfies -/

theorem mem_cell_keys {l : Lattice} {k e : String} (h : e ∈ (l.cell k).elems) :
    k ∈ mapKeys l.EndpointsByCoordinate := by
  by_contra hk
  rw [cell_of_not_mem hk] at h
  simp at h

theorem ShuffledOf.mem_keys {a b : Lattice} (h : ShuffledOf a b) {k : String} :
    k ∈ mapKeys a.EndpointsByCoordinate ↔ k ∈ mapKeys b.EndpointsByCoordinate := by
  rw [h.2.2.2.1]

/-- Cell-locality of the search: a cell of the result is a cell of the lattice and
its endpoints are endpoints of that cell. -/
theorem Search_local {rt : Runtime} {shard : StatefulSharder} {epc k : Int}
    {lattice res : Lattice} (h : Search rt shard epc k lattice res) :
    ∀ key ∈ mapKeys res.EndpointsByCoordinate,
      key ∈ mapKeys lattice.EndpointsByCoordinate ∧
        ∀ e ∈ (res.cell key).elems, e ∈ (lattice.cell key).elems := by
  induction h with
  | empty lattice res hnew =>
    intro key hk
    rw [(NewLattice_ok hnew).2.2] at hk
    simp [mapKeys] at hk
  | pick lattice l₁ l₂ compliment comp₁ picked key₀ coordinate fragment h₁ h₂ hkey hc hn hcomp
      hlen hfrag _ hs _ _ ih =>
    have hn₁ : l₁.DimensionNames ≠ [] := by
      rw [h₁.2.1]
      exact hn
    have hjoin : stringsJoin coordinate seperator = key₀ := by
      rw [hc, stringsJoin_stringsSplit]
    have hpicked : ∀ key ∈ mapKeys picked.EndpointsByCoordinate,
        key ∈ mapKeys lattice.EndpointsByCoordinate ∧
          ∀ e ∈ (picked.cell key).elems, e ∈ (lattice.cell key).elems := by
      intro key hk
      obtain ⟨i1, i2⟩ := ih key hk
      obtain ⟨c1, _, c3⟩ := (complement_spec hn₁ hcomp).1 key (hs.mem_keys.1 i1)
      refine ⟨h₁.mem_keys.1 c1, fun e he => ?_⟩
      have := hs.mem_cell.1 (i2 e he)
      rw [c3, mem_set] at this
      exact h₁.mem_cell.1 this
    intro key hk
    constructor
    · rcases addIgnoringError_keys rt picked coordinate fragment hk with h | h
      · rw [h, hjoin]
        exact hkey
      · exact (hpicked key h).1
    · intro e he
      rcases addIgnoringError_cell_subset rt picked coordinate fragment he with h | ⟨h, hf⟩
      · exact (hpicked key (mem_cell_keys h)).2 e h
      · rw [h]
        exact h₂.mem_cell.1 ((Combinations_sublist hfrag).subset hf)

/-- Every cell of a result of the search holds `endpointsPerCell` endpoints when
every non-empty cell of the lattice holds at least as many. -/
theorem Search_shape {rt : Runtime} {shard : StatefulSharder} {epc k : Int} (hepc : 0 < epc)
    {lattice res : Lattice} (h : Search rt shard epc k lattice res) :
    (∀ key ∈ mapKeys lattice.EndpointsByCoordinate,
      (lattice.cell key).elems.Nodup ∧
        ((lattice.cell key).elems = [] ∨ epc ≤ ((lattice.cell key).elems.length : Int))) →
    ∀ key ∈ mapKeys res.EndpointsByCoordinate, ((res.cell key).elems.length : Int) = epc := by
  induction h with
  | empty lattice res hnew =>
    intro _ key hk
    rw [(NewLattice_ok hnew).2.2] at hk
    simp [mapKeys] at hk
  | pick lattice l₁ l₂ compliment comp₁ picked key₀ coordinate fragment h₁ h₂ hkey hc hn hcomp
      hlen hfrag _ hs hsearch _ ih =>
    intro hyp
    have hn₁ : l₁.DimensionNames ≠ [] := by
      rw [h₁.2.1]
      exact hn
    have hjoin : stringsJoin coordinate seperator = key₀ := by
      rw [hc, stringsJoin_stringsSplit]
    have hcomp₁ : ∀ key ∈ mapKeys comp₁.EndpointsByCoordinate,
        (comp₁.cell key).elems.Nodup ∧
          ((comp₁.cell key).elems = [] ∨ epc ≤ ((comp₁.cell key).elems.length : Int)) := by
      intro key hk
      obtain ⟨c1, _, c3⟩ := (complement_spec hn₁ hcomp).1 key (hs.mem_keys.1 hk)
      obtain ⟨y1, y2⟩ := hyp key (h₁.mem_keys.1 c1)
      have hp : (comp₁.cell key).elems.Perm (lattice.cell key).elems := by
        refine ((hs.2.2.2.2 key).1.trans ?_).trans (h₁.2.2.2.2 key).1
        rw [c3]
        exact set_perm_of_nodup ((h₁.2.2.2.2 key).1.nodup_iff.2 y1)
      refine ⟨hp.nodup_iff.2 y1, ?_⟩
      rcases y2 with y2 | y2
      · left
        exact List.eq_nil_of_length_eq_zero (by rw [hp.length_eq, y2]; rfl)
      · right
        rw [hp.length_eq]
        exact y2
    have ihp := ih hcomp₁
    intro key hk
    by_cases hl : coordinate.length = picked.DimensionNames.length
    · by_cases hkj : key = stringsJoin coordinate seperator
      · subst hkj
        rw [addIgnoringError_cell_self rt picked coordinate fragment hl]
        have hnot : stringsJoin coordinate seperator ∉ mapKeys picked.EndpointsByCoordinate := by
          intro hmem
          have h1 := hs.mem_keys.1 ((Search_local hsearch _ hmem).1)
          rw [hjoin] at h1
          rw [hc] at hcomp
          exact complement_not_mem hn₁ hcomp h1
        rw [cell_of_not_mem hnot, List.append_nil]
        have hsub := Combinations_sublist hfrag
        obtain ⟨y1, y2⟩ := hyp key₀ hkey
        have hp := (h₂.2.2.2.2 (stringsJoin coordinate seperator)).1
        rw [hjoin] at hp hsub hfrag
        have hnd : fragment.Nodup := hsub.nodup (hp.nodup_iff.2 y1)
        rw [set_length_of_nodup hnd]
        rcases y2 with y2 | y2
        · have : (l₂.cell key₀).elems = [] :=
            List.eq_nil_of_length_eq_zero (by rw [hp.length_eq, y2]; rfl)
          rw [this] at hsub
          exact absurd (List.sublist_nil.1 hsub) (Combinations_ne_nil hfrag)
        · exact Combinations_length hepc (by rw [hp.length_eq]; exact y2) hfrag
      · rw [addIgnoringError_cell_ne rt picked coordinate fragment hkj]
        rcases addIgnoringError_keys rt picked coordinate fragment hk with h | h
        · exact absurd h hkj
        · exact ihp key h
    · rw [addIgnoringError_of_ne rt picked coordinate fragment hl] at hk ⊢
      exact ihp key hk

/-- A result of the search that holds an endpoint passed the collision check on a
list that covers its endpoints. -/
theorem Search_checked {rt : Runtime} {shard : StatefulSharder} {epc k : Int}
    {lattice res : Lattice} (h : Search rt shard epc k lattice res)
    (hne : GetAllEndpoints res ≠ []) :
    ∃ combined : List String,
      (∀ e ∈ GetAllEndpoints res, e ∈ combined) ∧
        ¬ ((combined.length : Int) ≥ k ∧ areThereTooManyCollisions shard combined k = true) := by
  induction h with
  | empty lattice res hnew => exact absurd (NewLattice_endpoints hnew) hne
  | pick lattice l₁ l₂ compliment comp₁ picked key₀ coordinate fragment h₁ h₂ hkey hc hn hcomp
      hlen hfrag _ hs hsearch hcomb _ =>
    refine ⟨GetAllEndpoints picked ++ fragment, ?_, hcomb⟩
    intro e he
    exact List.mem_append.2 (GetAllEndpoints_addIgnoringError he)

/-- What a call of `StatefulShuffleShard` that returns a shard went through. -/
theorem StatefulShuffleShard_ok {rt : Runtime} {shard shard' : StatefulSharder} {g g' : Rand}
    {lattice lattice' s : Lattice} {epc k : Int}
    (h : StatefulShuffleShard rt shard g lattice epc k = some (.ok s, shard', lattice', g')) :
    Search rt shard epc k lattice s ∧ ShuffledOf lattice' lattice ∧ GetAllEndpoints s ≠ [] ∧
      shard' = (Combinations (GetAllEndpoints s) (toInt64 (k + 1))).foldl saveFragment shard := by
  unfold StatefulShuffleShard at h
  cases hh : shuffleShardRecursiveHelper rt shard epc k
      (lattice.EndpointsByCoordinate.length + 1) lattice g with
  | none => simp [hh] at h
  | some t =>
    obtain ⟨out, l', g₁⟩ := t
    obtain ⟨hsh, hsearch⟩ := shuffleShardRecursiveHelper_sound rt shard epc k _ lattice g out l' g₁ hh
    cases out with
    | error e => simp [hh] at h
    | panic => simp [hh] at h
    | ok target =>
      simp only [hh] at h
      split at h
      · simp at h
      · rename_i hlen
        simp only [Option.some.injEq, Prod.mk.injEq, Outcome.ok.injEq] at h
        obtain ⟨e1, e2, e3, _⟩ := h
        subst e1
        subst e3
        refine ⟨hsearch target rfl, hsh, ?_, e2.symm⟩
        intro hc
        exact hlen (by rw [hc]; rfl)

/-- A call of `StatefulShuffleShard` that returns no shard leaves the store as it
was. -/
theorem StatefulShuffleShard_not_ok {rt : Runtime} {shard shard' : StatefulSharder} {g g' : Rand}
    {lattice lattice' : Lattice} {epc k : Int} {out : Outcome Lattice}
    (h : StatefulShuffleShard rt shard g lattice epc k = some (out, shard', lattice', g'))
    (hout : ∀ s, out ≠ .ok s) : shard' = shard := by
  unfold StatefulShuffleShard at h
  cases hh : shuffleShardRecursiveHelper rt shard epc k
      (lattice.EndpointsByCoordinate.length + 1) lattice g with
  | none => simp [hh] at h
  | some t =>
    obtain ⟨o, l', g₁⟩ := t
    cases o with
    | error e =>
      simp only [hh, Option.some.injEq, Prod.mk.injEq] at h
      exact h.2.1.symm
    | panic =>
      simp only [hh, Option.some.injEq, Prod.mk.injEq] at h
      exact h.2.1.symm
    | ok target =>
      simp only [hh] at h
      split at h
      · simp only [Option.some.injEq, Prod.mk.injEq] at h
        exact h.2.1.symm
      · simp only [Option.some.injEq, Prod.mk.injEq] at h
        exact absurd h.1.symm (hout target)

/-! ## The size of the lists that the collision check sees -/

theorem set_length_le (arr : List String) : (set arr).length ≤ arr.length :=
  (List.subperm_of_subset (set_nodup arr) (fun _ hx => mem_set.1 hx)).length_le

theorem mapSet_of_not_mem {β : Type} {k : String} (v : β) :
    ∀ m : List (String × β), k ∉ mapKeys m → mapSet m k v = m ++ [(k, v)]
  | [], _ => by simp [mapSet]
  | (k₁, v₁) :: m, h => by
    simp only [mapKeys, List.map_cons, List.mem_cons, not_or] at h
    have ih := mapSet_of_not_mem v m h.2
    have hk : ¬ k₁ = k := fun h' => h.1 h'.symm
    simp [mapSet, hk, ih]

theorem GetAllEndpoints_length_le (l : Lattice) :
    (GetAllEndpoints l).length ≤ l.endpointCount :=
  set_length_le _

theorem endpointCount_addIgnoringError {rt : Runtime} {l : Lattice} {sec ep : List String}
    (h : sec.length = l.DimensionNames.length)
    (hk : stringsJoin sec seperator ∉ mapKeys l.EndpointsByCoordinate) :
    (addIgnoringError rt l sec ep).endpointCount = l.endpointCount + (set ep).length := by
  rw [addIgnoringError_eq rt l sec ep h]
  unfold Lattice.endpointCount
  simp only
  rw [mapSet_of_not_mem _ _ hk, cell_of_not_mem hk]
  simp [setSlice]

/-- A result of the search that holds an endpoint passed the collision check on a
list that covers its endpoints and is no longer than the number of endpoints in
its cells, when no cell of the lattice holds an endpoint twice. -/
theorem Search_checked_count {rt : Runtime} {shard : StatefulSharder} {epc k : Int}
    {lattice res : Lattice} (h : Search rt shard epc k lattice res) :
    (∀ key ∈ mapKeys lattice.EndpointsByCoordinate, (lattice.cell key).elems.Nodup) →
    GetAllEndpoints res ≠ [] →
    ∃ combined : List String,
      (∀ e ∈ GetAllEndpoints res, e ∈ combined) ∧ combined.length ≤ res.endpointCount ∧
        ¬ ((combined.length : Int) ≥ k ∧ areThereTooManyCollisions shard combined k = true) := by
  induction h with
  | empty lattice res hnew => exact fun _ hne => absurd (NewLattice_endpoints hnew) hne
  | pick lattice l₁ l₂ compliment comp₁ picked key₀ coordinate fragment h₁ h₂ hkey hc hn hcomp
      hlen hfrag _ hs hsearch hcomb ih =>
    intro hnd hne
    have hn₁ : l₁.DimensionNames ≠ [] := by
      rw [h₁.2.1]
      exact hn
    have hjoin : stringsJoin coordinate seperator = key₀ := by
      rw [hc, stringsJoin_stringsSplit]
    by_cases hl : coordinate.length = picked.DimensionNames.length
    · refine ⟨GetAllEndpoints picked ++ fragment, ?_, ?_, hcomb⟩
      · intro e he
        exact List.mem_append.2 (GetAllEndpoints_addIgnoringError he)
      · have hnot : stringsJoin coordinate seperator ∉ mapKeys picked.EndpointsByCoordinate := by
          intro hmem
          have h1 := hs.mem_keys.1 ((Search_local hsearch _ hmem).1)
          rw [hjoin] at h1
          rw [hc] at hcomp
          exact complement_not_mem hn₁ hcomp h1
        rw [endpointCount_addIgnoringError hl hnot, List.length_append]
        have hsub := Combinations_sublist hfrag
        have hp := (h₂.2.2.2.2 (stringsJoin coordinate seperator)).1
        rw [hjoin] at hp hsub
        have hfn : fragment.Nodup := hsub.nodup (hp.nodup_iff.2 (hnd key₀ hkey))
        rw [set_length_of_nodup hfn]
        have := GetAllEndpoints_length_le picked
        omega
    · rw [addIgnoringError_of_ne rt picked coordinate fragment hl] at hne ⊢
      refine ih ?_ hne
      intro key hk
      obtain ⟨_, _, c3⟩ := (complement_spec hn₁ hcomp).1 key (hs.mem_keys.1 hk)
      refine ((hs.2.2.2.2 key).1.nodup_iff).2 ?_
      rw [c3]
      exact set_nodup _

/-! ## The store of issued fragments -/

theorem saveFragment_mono {shard : StatefulSharder} {f : List String} {key : String}
    (h : key ∈ shard.store) : key ∈ (saveFragment shard f).store := by
  unfold saveFragment
  split
  · exact h
  · exact List.mem_append_left _ h

theorem saveFragment_mem (shard : StatefulSharder) (f : List String) :
    sprintfV (sortStrings f) ∈ (saveFragment shard f).store := by
  unfold saveFragment
  split
  · assumption
  · simp

theorem foldl_saveFragment_mono {key : String} :
    ∀ (frags : List (List String)) (shard : StatefulSharder), key ∈ shard.store →
      key ∈ (frags.foldl saveFragment shard).store
  | [], _, h => h
  | f :: frags, shard, h => by
    rw [List.foldl_cons]
    exact foldl_saveFragment_mono frags _ (saveFragment_mono h)

theorem foldl_saveFragment_mem :
    ∀ (frags : List (List String)) (shard : StatefulSharder) (f : List String), f ∈ frags →
      sprintfV (sortStrings f) ∈ (frags.foldl saveFragment shard).store
  | [], _, _, h => by simp at h
  | f' :: frags, shard, f, h => by
    rw [List.foldl_cons]
    rcases List.mem_cons.1 h with h | h
    · subst h
      exact foldl_saveFragment_mono frags _ (saveFragment_mem shard f)
    · exact foldl_saveFragment_mem frags _ f h

theorem exists_sublist_perm {F L : List String} (hF : F.Nodup) (hsub : ∀ x ∈ F, x ∈ L) :
    ∃ F' : List String, F'.Sublist L ∧ F'.Perm F := by
  refine ⟨L.dedup.filter (fun x => decide (x ∈ F)),
    (List.filter_sublist _).trans (List.dedup_sublist L), ?_⟩
  refine (List.perm_ext_iff_of_nodup ((List.nodup_dedup L).filter _) hF).2 ?_
  intro x
  simp only [List.mem_filter, List.mem_dedup, decide_eq_true_eq]
  exact ⟨fun h => h.2, fun h => ⟨hsub x h, h⟩⟩

/-- A list of fewer than 63 endpoints that contains `k + 1` distinct endpoints of
an issued shard, all of whose fragments are in the store, does not pass the
collision check. -/
theorem collision_of_common {shard : StatefulSharder} {k : Int} (hk : 0 ≤ k)
    {issued combined F : List String}
    (hcover : ∀ f : List String, f.Sublist issued → (f.length : Int) = k + 1 →
      sprintfV (sortStrings f) ∈ shard.store)
    (hc : combined.length < 63)
    (hF : F.Nodup) (hlen : (F.length : Int) = k + 1)
    (h₁ : ∀ x ∈ F, x ∈ issued) (h₂ : ∀ x ∈ F, x ∈ combined) :
    (combined.length : Int) ≥ k ∧ areThereTooManyCollisions shard combined k = true := by
  obtain ⟨F₁, s₁, p₁⟩ := exists_sublist_perm hF h₁
  obtain ⟨F₂, s₂, p₂⟩ := exists_sublist_perm hF h₂
  have hkey : sprintfV (sortStrings F₂) ∈ shard.store := by
    rw [sortStrings_eq_of_perm (p₂.trans p₁.symm)]
    exact hcover F₁ s₁ (by rw [p₁.length_eq]; exact hlen)
  have hused : isFragmentUsed shard F₂ = true := by
    unfold isFragmentUsed
    exact decide_eq_true hkey
  have hl₂ : (F₂.length : Int) = k + 1 := by
    rw [p₂.length_eq]
    exact hlen
  have hle : F₂.length ≤ combined.length := s₂.length_le
  have hwrap : toInt64 (k + 1) = k + 1 := toInt64_of_range (by omega) (by omega)
  refine ⟨by omega, ?_⟩
  unfold areThereTooManyCollisions
  rw [hwrap]
  have h1 : ¬ ((combined.length : Int) ≤ k) := by omega
  simp only [h1, if_false]
  by_cases h2 : (combined.length : Int) = k + 1
  · simp only [h2, if_true]
    have : F₂ = combined := s₂.eq_of_length (by omega)
    rw [← this]
    exact hused
  · simp only [h2, if_false]
    apply List.any_eq_true.2
    exact ⟨F₂, (mem_Combinations (by omega) (by omega) hc).2 ⟨s₂, hl₂⟩, hused⟩

theorem overlap_comm (a b : Lattice) : overlap a b = overlap b a := by
  unfold overlap
  apply List.Perm.length_eq
  refine (List.perm_ext_iff_of_nodup ((GetAllEndpoints_nodup a).filter _)
    ((GetAllEndpoints_nodup b).filter _)).2 ?_
  intro x
  simp only [List.mem_filter, decide_eq_true_eq]
  tauto

theorem overlap_le_length (a b : Lattice) : overlap a b ≤ (GetAllEndpoints a).length := by
  unfold overlap
  exact List.length_filter_le _ _

/-- A shard that passed the collision check on a list of fewer than 63 endpoints
shares at most `k` endpoints with a shard all of whose fragments are in the store. -/
theorem overlap_le_of_checked {shard : StatefulSharder} {k : Int} (hk : 0 ≤ k)
    {new old : Lattice} {combined : List String}
    (hcover : ∀ f : List String, f.Sublist (GetAllEndpoints old) → (f.length : Int) = k + 1 →
      sprintfV (sortStrings f) ∈ shard.store)
    (hsub : ∀ e ∈ GetAllEndpoints new, e ∈ combined)
    (hc : combined.length < 63)
    (hcheck : ¬ ((combined.length : Int) ≥ k ∧
      areThereTooManyCollisions shard combined k = true)) :
    (overlap new old : Int) ≤ k := by
  by_contra hgt
  apply hcheck
  have hlt : k.toNat + 1 ≤ overlap new old := by omega
  unfold overlap at hlt
  have hnd : ((GetAllEndpoints new).filter
      (fun e => decide (e ∈ GetAllEndpoints old))).Nodup := (GetAllEndpoints_nodup new).filter _
  refine collision_of_common hk hcover hc
    (F := ((GetAllEndpoints new).filter (fun e => decide (e ∈ GetAllEndpoints old))).take
      (k.toNat + 1))
    ((List.take_sublist _ _).nodup hnd) ?_ ?_ ?_
  · rw [List.length_take, min_eq_left hlt]
    omega
  · intro x hx
    have := (List.mem_filter.1 (List.mem_of_mem_take hx)).2
    simpa using this
  · intro x hx
    exact hsub x (List.mem_filter.1 (List.mem_of_mem_take hx)).1

/-- The invariant of the store over a sequence of calls with the same
`maximumOverlap`, on lattices no cell of which holds an endpoint twice: the
fragments of every issued shard of fewer than 63 endpoints are in the store. -/
theorem issuedShards_overlap (rt : Runtime) (k : Int) (hk : 0 ≤ k) :
    ∀ (calls : List (Lattice × Int × Rand)) (shard : StatefulSharder) (prev : List Lattice),
      (∀ c ∈ calls, ∀ key ∈ mapKeys c.1.EndpointsByCoordinate, (c.1.cell key).elems.Nodup) →
      (∀ old ∈ prev, old.endpointCount < 63 →
        ∀ f : List String, f.Sublist (GetAllEndpoints old) →
          (f.length : Int) = k + 1 → sprintfV (sortStrings f) ∈ shard.store) →
      (∀ new ∈ issuedShards rt k shard calls, ∀ old ∈ prev,
        new.endpointCount < 63 → old.endpointCount < 63 → (overlap new old : Int) ≤ k) ∧
        (issuedShards rt k shard calls).Pairwise
          (fun a b => a.endpointCount < 63 → b.endpointCount < 63 →
            (overlap a b : Int) ≤ k ∧ (overlap b a : Int) ≤ k)
  | [], _, _, _, _ => by simp [issuedShards]
  | (lattice, epc, g) :: rest, shard, prev, hcells, hinv => by
    have hrest : ∀ c ∈ rest, ∀ key ∈ mapKeys c.1.EndpointsByCoordinate,
        (c.1.cell key).elems.Nodup := fun c hc => hcells c (List.mem_cons_of_mem _ hc)
    unfold issuedShards
    cases hcall : StatefulShuffleShard rt shard g lattice epc k with
    | none => simp
    | some t =>
      obtain ⟨out, shard', l', g'⟩ := t
      cases out with
      | ok s =>
        simp only
        obtain ⟨hsearch, _, hne, hstore⟩ := StatefulShuffleShard_ok hcall
        obtain ⟨combined, hsub, hcount, hcheck⟩ :=
          Search_checked_count hsearch (hcells _ (List.mem_cons_self _ _)) hne
        have hnew : ∀ old ∈ prev, s.endpointCount < 63 → old.endpointCount < 63 →
            (overlap s old : Int) ≤ k :=
          fun old ho hs1 ho1 =>
            overlap_le_of_checked hk (hinv old ho ho1) hsub (by omega) hcheck
        have hinv' : ∀ old ∈ s :: prev, old.endpointCount < 63 →
            ∀ f : List String, f.Sublist (GetAllEndpoints old) →
              (f.length : Int) = k + 1 → sprintfV (sortStrings f) ∈ shard'.store := by
          intro old ho hold f hf hl
          rw [hstore]
          rcases List.mem_cons.1 ho with ho | ho
          · subst ho
            have h63 := GetAllEndpoints_length_le old
            have hfl := hf.length_le
            have hwrap : toInt64 (k + 1) = k + 1 := toInt64_of_range (by omega) (by omega)
            rw [hwrap]
            apply foldl_saveFragment_mem
            exact (mem_Combinations (by omega) (by omega) (by omega)).2 ⟨hf, hl⟩
          · exact foldl_saveFragment_mono _ _ (hinv old ho hold f hf hl)
        obtain ⟨r1, r2⟩ := issuedShards_overlap rt k hk rest shard' (s :: prev) hrest hinv'
        refine ⟨?_, ?_⟩
        · intro new hn old ho
          rcases List.mem_cons.1 hn with hn | hn
          · subst hn
            exact hnew old ho
          · exact r1 new hn old (List.mem_cons_of_mem _ ho)
        · refine List.Pairwise.cons ?_ r2
          intro b hb hs1 hb1
          have := r1 b hb s (List.mem_cons_self _ _) hb1 hs1
          exact ⟨by rw [overlap_comm]; exact this, this⟩
      | error e =>
        simp only
        have := StatefulShuffleShard_not_ok hcall (by simp)
        subst this
        exact issuedShards_overlap rt k hk rest _ prev hrest hinv
      | panic =>
        simp only
        have := StatefulShuffleShard_not_ok hcall (by simp)
        subst this
        exact issuedShards_overlap rt k hk rest _ prev hrest hinv

theorem azLattice_built :
    (match NewLattice sampleRuntime ["AZ"] with
      | .ok l => (match AddEndpointsForSector sampleRuntime l ["az1"] ["A", "B", "C"] with
        | .ok l' => AddEndpointsForSector sampleRuntime l' ["az2"] ["D", "E"]
        | o => o)
      | o => o) = .ok azLattice := by decide!

theorem StatefulShuffleShard_of_map {rt : Runtime} {shard : StatefulSharder} {g : Rand}
    {lattice s : Lattice} {epc k : Int}
    (h : (StatefulShuffleShard rt shard g lattice epc k).map Prod.fst = some (.ok s)) :
    ∃ shard' lattice' g',
      StatefulShuffleShard rt shard g lattice epc k = some (.ok s, shard', lattice', g') := by
  cases hc : StatefulShuffleShard rt shard g lattice epc k with
  | none => simp [hc] at h
  | some t =>
    obtain ⟨out, shard', l', g'⟩ := t
    simp only [hc, Option.map_some', Option.some.injEq] at h
    subst h
    exact ⟨shard', l', g', rfl⟩

theorem mem_GetAllCoordinates_join {l : Lattice} {c : List String} (h : c ∈ GetAllCoordinates l) :
    stringsJoin c seperator ∈ mapKeys l.EndpointsByCoordinate := by
  obtain ⟨k, hk, rfl⟩ := mem_GetAllCoordinates.1 h
  rw [stringsJoin_stringsSplit]
  exact hk

/-- C1 (amended): from an empty store, over calls of `StatefulShuffleShard` with the
same `maximumOverlap = k >= 0` on lattices no cell of which holds an endpoint twice
(`endpointsPerCell` and the state of the generator arbitrary), any two returned
shards that each hold fewer than 63 endpoints, counted once for every cell, have at
most `k` endpoints of `GetAllEndpoints` in common. -/
theorem stateful_overlap_at_most_k (rt : Runtime) (k : Int) (hk : 0 ≤ k)
    (calls : List (Lattice × Int × Rand))
    (hcells : ∀ c ∈ calls, ∀ x ∈ GetAllCoordinates c.1, (c.1.endpointsAt x).Nodup) :
    (issuedShards rt k NewStatefulSharder calls).Pairwise
      (fun a b => a.endpointCount < 63 → b.endpointCount < 63 →
        (overlap a b : Int) ≤ k ∧ (overlap b a : Int) ≤ k) :=
  (issuedShards_overlap rt k hk calls NewStatefulSharder [] (by
    intro c hc key hkey
    have := hcells c hc (stringsSplit key seperator) (mem_GetAllCoordinates.2 ⟨key, hkey, rfl⟩)
    unfold Lattice.endpointsAt at this
    rw [stringsJoin_stringsSplit] at this
    exact this) (by simp)).2

theorem stateful_overlap_at_most_k_witness :
    (0 : Int) ≤ 1 ∧
      (∀ c ∈ [(azLattice, (2 : Int), sampleRand), (azLattice, (2 : Int), sampleRand)],
        ∀ x ∈ GetAllCoordinates c.1, (c.1.endpointsAt x).Nodup) ∧
      (issuedShards sampleRuntime 1 NewStatefulSharder
        [(azLattice, 2, sampleRand), (azLattice, 2, sampleRand)]).Pairwise
        (fun a b => a.endpointCount < 63 → b.endpointCount < 63 →
          (overlap a b : Int) ≤ 1 ∧ (overlap b a : Int) ≤ 1) :=
  ⟨by decide, by decide!,
    stateful_overlap_at_most_k sampleRuntime 1 (by decide) _ (by decide!)⟩

set_option maxRecDepth 1000000 in
theorem sevenCells_built :
    (match NewLattice sampleRuntime ["AZ"] with
      | .ok l => addAll sampleRuntime l
          [(["az1"], ["a0", "a1", "a2", "a3", "a4", "a5", "a6", "a7", "a8", "a9"]),
           (["az2"], ["b0", "b1", "b2", "b3", "b4", "b5", "b6", "b7", "b8", "b9"]),
           (["az3"], ["c0", "c1", "c2", "c3", "c4", "c5", "c6", "c7", "c8", "c9"]),
           (["az4"], ["d0", "d1", "d2", "d3", "d4", "d5", "d6", "d7", "d8", "d9"]),
           (["az5"], ["e0", "e1", "e2", "e3", "e4", "e5", "e6", "e7", "e8", "e9"]),
           (["az6"], ["f0", "f1", "f2", "f3", "f4", "f5", "f6", "f7", "f8", "f9"]),
           (["az7"], ["g0", "g1", "g2", "g3", "g4", "g5", "g6", "g7", "g8", "g9"])]
      | o => o) = .ok sevenCells := by rfl

set_option maxRecDepth 1000000 in
/-- Two calls on `sevenCells` with nine endpoints per cell and `maximumOverlap = 55`
return two shards of 63 endpoints each that share 56 endpoints: the collision check
on 63 endpoints finds no combination to look up, and no fragment is saved. -/
theorem large_shards_overlap_more_than_k :
    issuedShards sampleRuntime 55 NewStatefulSharder
        [(sevenCells, 9, sampleRand), (sevenCells, 9, otherRand)] =
        [sevenCellsShard, sevenCellsOtherShard] ∧
      (GetAllEndpoints sevenCellsShard).length = 63 ∧
      (GetAllEndpoints sevenCellsOtherShard).length = 63 ∧
      overlap sevenCellsShard sevenCellsOtherShard = 56 := by
  refine ⟨by rfl, by rfl, by rfl, by rfl⟩

/-- C5: cell-locality of the stateful sharder: every coordinate of a shard returned
by `StatefulShuffleShard` is a coordinate of the lattice, and every endpoint of the
shard at that coordinate is an endpoint of the lattice at it. -/
theorem stateful_cell_locality (rt : Runtime) (shard : StatefulSharder) (g : Rand)
    (l s : Lattice) (epc k : Int)
    (h : (StatefulShuffleShard rt shard g l epc k).map Prod.fst = some (.ok s)) :
    ∀ c ∈ GetAllCoordinates s,
      c ∈ GetAllCoordinates l ∧ ∀ e ∈ s.endpointsAt c, e ∈ l.endpointsAt c := by
  obtain ⟨shard', l', g', h'⟩ := StatefulShuffleShard_of_map h
  have hloc := Search_local (StatefulShuffleShard_ok h').1
  intro c hc
  obtain ⟨key, hkey, rfl⟩ := mem_GetAllCoordinates.1 hc
  obtain ⟨h1, h2⟩ := hloc key hkey
  refine ⟨mem_GetAllCoordinates.2 ⟨key, h1, rfl⟩, ?_⟩
  unfold Lattice.endpointsAt
  rw [stringsJoin_stringsSplit]
  exact h2

theorem stateful_cell_locality_witness :
    (StatefulShuffleShard sampleRuntime NewStatefulSharder sampleRand azLattice 2 1).map Prod.fst =
        some (.ok azShard) ∧
      ∀ c ∈ GetAllCoordinates azShard,
        c ∈ GetAllCoordinates azLattice ∧
          ∀ e ∈ azShard.endpointsAt c, e ∈ azLattice.endpointsAt c :=
  ⟨by rfl, stateful_cell_locality sampleRuntime NewStatefulSharder sampleRand azLattice azShard
    2 1 (by rfl)⟩

/-- C10: when every cell of the lattice holds distinct endpoints and every non-empty
cell holds at least `endpointsPerCell >= 1` of them, every cell of a shard returned
by `StatefulShuffleShard` holds exactly `endpointsPerCell` endpoints, for every
state of the sharder and every `maximumOverlap`. -/
theorem stateful_cells_hold_endpointsPerCell (rt : Runtime) (shard : StatefulSharder)
    (g : Rand) (l s : Lattice) (epc k : Int) (hepc : 1 ≤ epc)
    (hcells : ∀ c ∈ GetAllCoordinates l,
      (l.endpointsAt c).Nodup ∧
        (l.endpointsAt c = [] ∨ epc ≤ ((l.endpointsAt c).length : Int)))
    (h : (StatefulShuffleShard rt shard g l epc k).map Prod.fst = some (.ok s)) :
    ∀ c ∈ GetAllCoordinates s, ((s.endpointsAt c).length : Int) = epc := by
  obtain ⟨shard', l', g', h'⟩ := StatefulShuffleShard_of_map h
  have hshape := Search_shape (by omega) (StatefulShuffleShard_ok h').1 (by
    intro key hkey
    have := hcells (stringsSplit key seperator) (mem_GetAllCoordinates.2 ⟨key, hkey, rfl⟩)
    unfold Lattice.endpointsAt at this
    rw [stringsJoin_stringsSplit] at this
    exact this)
  intro c hc
  obtain ⟨key, hkey, rfl⟩ := mem_GetAllCoordinates.1 hc
  unfold Lattice.endpointsAt
  rw [stringsJoin_stringsSplit]
  exact hshape key hkey

theorem stateful_cells_hold_endpointsPerCell_witness :
    (1 : Int) ≤ 2 ∧
      (∀ c ∈ GetAllCoordinates azLattice,
        (azLattice.endpointsAt c).Nodup ∧
          (azLattice.endpointsAt c = [] ∨ (2 : Int) ≤ ((azLattice.endpointsAt c).length : Int))) ∧
      (StatefulShuffleShard sampleRuntime NewStatefulSharder sampleRand azLattice 2 1).map
        Prod.fst = some (.ok azShard) ∧
      ∀ c ∈ GetAllCoordinates azShard, ((azShard.endpointsAt c).length : Int) = 2 :=
  ⟨by decide, by decide!, by rfl,
    stateful_cells_hold_endpointsPerCell sampleRuntime NewStatefulSharder sampleRand azLattice
      azShard 2 1 (by decide) (by decide!) (by rfl)⟩

theorem cellLattice_built :
    (match NewLattice sampleRuntime ["dimX"] with
      | .ok l => AddEndpointsForSector sampleRuntime l ["x"] ["a", "b", "c"]
      | o => o) = .ok cellLattice := by decide!

set_option maxRecDepth 100000 in
/-- C2 (the code at the failing input): two successive calls of
`SimpleShuffleShard` with the same identifier and `epc = 1` on the lattice with the
single cell `x = {a, b, c}` return the shards `{c}` and `{a}`: the first call leaves
the cell of the receiver shuffled, and the second call shuffles that. -/
theorem simple_shard_second_call_differs :
    (SimpleShuffleShard sampleRuntime cellLattice [4] 1).1 = .ok (cellShard ["c"]) ∧
      (SimpleShuffleShard sampleRuntime (SimpleShuffleShard sampleRuntime cellLattice [4] 1).2
        [4] 1).1 = .ok (cellShard ["a"]) ∧
      GetEndpointsForSector (cellShard ["c"]) ["x"] ≠ GetEndpointsForSector (cellShard ["a"]) ["x"] :=
  ⟨by rfl, by rfl, by decide!⟩

set_option maxRecDepth 100000 in
/-- C3 (the code at the failing input): `SimpleShuffleShard` changes its receiver.
Before the call `GetEndpointsForSector(["x"])` returns `a, b, c`; after it the same
call returns `c, b, a`, which is not sorted. -/
theorem simple_shard_shuffles_receiver :
    GetEndpointsForSector cellLattice ["x"] = .ok ["a", "b", "c"] ∧
      (SimpleShuffleShard sampleRuntime cellLattice [4] 1).2 = cellLatticeAfter ∧
      GetEndpointsForSector (SimpleShuffleShard sampleRuntime cellLattice [4] 1).2 ["x"] =
        .ok ["c", "b", "a"] ∧
      ¬ (["c", "b", "a"] : List String).Sorted strLe :=
  ⟨by rfl, by rfl, by rfl, by decide!⟩

set_option maxRecDepth 100000 in
/-- C4 (the code at the failing input): with `epc = 4` on a cell of three
endpoints, whose slice has capacity four, `eps[:epc]` reaches into the spare
capacity and `SimpleShuffleShard` returns a shard whose cell holds the empty string,
which is not an endpoint of the lattice. -/
theorem simple_shard_pads_with_empty_string :
    (SimpleShuffleShard sampleRuntime cellLattice [4] 4).1 = .ok (cellShard ["", "a", "b", "c"]) ∧
      "" ∈ (cellShard ["", "a", "b", "c"]).endpointsAt ["x"] ∧
      "" ∉ cellLattice.endpointsAt ["x"] :=
  ⟨by rfl, by decide!, by decide!⟩

/-- C9 (the code at the failing input): the cells `az1 = {A, B, C}` and
`az2 = {D, E}` are disjoint and hold at least two endpoints each.  The first call
with `endpointsPerCell = 2` and `maximumOverlap = 1` returns a shard over both cells;
the second call returns a shard with the single cell `az1` and two endpoints, since
the search on the complement returns the empty lattice when all its fragments are
used. -/
theorem stateful_shard_misses_a_cell :
    GetAllCoordinates azLattice = [["az1"], ["az2"]] ∧
      StatefulShuffleShard sampleRuntime NewStatefulSharder sampleRand azLattice 2 1 =
        some (.ok azShard, azSharder, azLattice, azRand) ∧
      (StatefulShuffleShard sampleRuntime azSharder azRand azLattice 2 1).map Prod.fst =
        some (.ok azPartialShard) ∧
      GetAllCoordinates azPartialShard = [["az1"]] ∧
      GetAllEndpoints azPartialShard = ["A", "B"] :=
  ⟨by rfl, by rfl, by rfl, by rfl, by rfl⟩

/-- C6 (counterexample): the one-dimensional lattice whose single cell is named by
a value that contains the separator holds five distinct endpoints, and `4, 2`
satisfy `1 <= epc <= n` and `2 * epc - n > k`; the first call on a fresh sharder
returns the error of `GetEndpointsForSector`, since `GetAllCoordinates` splits the
key of the cell into two values. -/
theorem exhaustion_fails_on_separator :
    (fiveLattice ("a" ++ seperator ++ "b")).DimensionNames.length = 1 ∧
      (fiveLattice ("a" ++ seperator ++ "b")).EndpointsByCoordinate.length = 1 ∧
      GetEndpointsForSector (fiveLattice ("a" ++ seperator ++ "b")) ["a" ++ seperator ++ "b"] =
        .ok ["A", "B", "C", "D", "E"] ∧
      ((1 : Int) ≤ 4 ∧ (4 : Int) ≤ 5 ∧ (0 : Int) ≤ 2 ∧ 2 * (4 : Int) - 5 > 2) ∧
      GetAllCoordinates (fiveLattice ("a" ++ seperator ++ "b")) = [["a", "b"]] ∧
      (StatefulShuffleShard sampleRuntime NewStatefulSharder sampleRand
        (fiveLattice ("a" ++ seperator ++ "b")) 4 2).map Prod.fst =
        some (.error "lattice: mismatch between dimensions of the lattice and sector") :=
  ⟨by rfl, by rfl, by rfl, by decide, by rfl, by rfl⟩

/-! ## The search on a lattice with a single cell -/

theorem set_singleton (d : String) : set [d] = [d] := by
  simp [set, setLoop, sortStrings]

theorem sortStrings_singleton (d : String) : sortStrings [d] = [d] := by
  simp [sortStrings]

theorem NewLattice_singleton (rt : Runtime) (d : String) :
    ∃ fresh, NewLattice rt [d] = .ok fresh ∧ fresh.DimensionNames = [d] ∧
      fresh.EndpointsByCoordinate = [] := by
  obtain ⟨fresh, h⟩ := NewLatticeWithSeed_of_ne_nil rt.seed (List.cons_ne_nil d [])
  have h' := NewLatticeWithSeed_ok h
  refine ⟨fresh, h, ?_, h'.2.2.2⟩
  rw [h'.2.2.1, sortStrings_singleton, set_singleton]

theorem Shuffle_nil {α : Type} (g : Rand) : g.Shuffle ([] : List α) = ([], g) := rfl

theorem Shuffle_singleton {α : Type} (g : Rand) (x : α) : g.Shuffle [x] = ([x], g) := rfl

theorem GetAllCoordinates_of_nil {l : Lattice} (h : l.EndpointsByCoordinate = []) :
    GetAllCoordinates l = [] := by
  unfold GetAllCoordinates
  rw [h]
  rfl

theorem GetAllEndpoints_of_nil {l : Lattice} (h : l.EndpointsByCoordinate = []) :
    GetAllEndpoints l = [] := by
  unfold GetAllEndpoints
  rw [h]
  rfl

/-- On a lattice without cells the helper returns the empty lattice. -/
theorem helper_of_no_cells (rt : Runtime) (shard : StatefulSharder) (epc k : Int) (depth : Nat)
    {comp : Lattice} {d : String} (hd : comp.DimensionNames = [d])
    (hc : comp.EndpointsByCoordinate = []) (g : Rand) :
    ∃ fresh, shuffleShardRecursiveHelper rt shard epc k (depth + 1) comp g =
        some (.ok fresh, comp, g) ∧ fresh.DimensionNames = [d] ∧
      fresh.EndpointsByCoordinate = [] := by
  obtain ⟨fresh, h1, h2, h3⟩ := NewLattice_singleton rt d
  refine ⟨fresh, ?_, h2, h3⟩
  unfold shuffleShardRecursiveHelper
  rw [GetAllCoordinates_of_nil hc, Shuffle_nil]
  unfold coordinateLoop GetDimensionNames
  rw [hd, h1]

theorem fragmentLoop_all_rejected (rt : Runtime) (shard : StatefulSharder) (k : Int)
    (recurse : Lattice → Rand → HelperResult) (coordinate : List String) (comp : Lattice)
    (g : Rand) :
    ∀ frags : List (List String),
      (∀ f ∈ frags, (f.length : Int) ≥ k ∧ areThereTooManyCollisions shard f k = true) →
      fragmentLoop rt shard k recurse coordinate frags comp g = some (none, g)
  | [], _ => rfl
  | f :: frags, h => by
    unfold fragmentLoop
    rw [if_pos (h f (List.mem_cons_self _ _))]
    exact fragmentLoop_all_rejected rt shard k recurse coordinate comp g frags
      (fun f' hf' => h f' (List.mem_cons_of_mem _ hf'))

theorem fragmentLoop_accepts (rt : Runtime) (shard : StatefulSharder) (k : Int)
    (recurse : Lattice → Rand → HelperResult) (coordinate : List String) (comp fresh : Lattice)
    (hfresh : GetAllEndpoints fresh = [])
    (hrec : ∀ g, recurse comp g = some (.ok fresh, comp, g)) (g : Rand) :
    ∀ frags : List (List String),
      (∃ f ∈ frags, ¬ ((f.length : Int) ≥ k ∧ areThereTooManyCollisions shard f k = true)) →
      ∃ f ∈ frags, fragmentLoop rt shard k recurse coordinate frags comp g =
        some (some (.ok (addIgnoringError rt fresh coordinate f)), g)
  | [], h => by
    obtain ⟨f, hf, _⟩ := h
    simp at hf
  | f :: frags, h => by
    unfold fragmentLoop
    by_cases hrej : (f.length : Int) ≥ k ∧ areThereTooManyCollisions shard f k = true
    · rw [if_pos hrej]
      obtain ⟨f', hf', hacc⟩ := h
      have hmem : f' ∈ frags := by
        rcases List.mem_cons.1 hf' with h1 | h1
        · subst h1
          exact absurd hrej hacc
        · exact h1
      obtain ⟨f₂, hf₂, hres⟩ := fragmentLoop_accepts rt shard k recurse coordinate comp fresh
        hfresh hrec g frags ⟨f', hmem, hacc⟩
      exact ⟨f₂, List.mem_cons_of_mem _ hf₂, hres⟩
    · rw [if_neg hrej, hrec g]
      simp only [hfresh, List.nil_append]
      rw [if_neg hrej]
      exact ⟨f, List.mem_cons_self _ _, rfl⟩

/-- The pieces of the helper on a lattice with the single cell `v`, whose name
`strings.Split` leaves whole. -/
theorem singleCell_steps (rt : Runtime) {l : Lattice} {d v : String} {cell : Slice}
    (hd : l.DimensionNames = [d]) (hc : l.EndpointsByCoordinate = [(v, cell)])
    (hv : stringsSplit v seperator = [v]) :
    GetAllCoordinates l = [[v]] ∧
      (∃ comp, complement rt l [v] = .ok comp ∧ comp.DimensionNames = [d] ∧
        comp.EndpointsByCoordinate = []) ∧
      GetEndpointsForSector l [v] = .ok cell.elems ∧ l.cell v = cell := by
  have hcell : l.cell v = cell := by
    unfold Lattice.cell
    rw [hc]
    simp [mapGet]
  refine ⟨?_, ?_, ?_, hcell⟩
  · unfold GetAllCoordinates
    rw [hc]
    simp [mapKeys, set_singleton, hv]
  · obtain ⟨fresh, h1, h2, h3⟩ := NewLattice_singleton rt d
    refine ⟨fresh, ?_, h2, h3⟩
    have hdim : (GetDimensionality l).length = 1 := by
      unfold GetDimensionality
      rw [hd]
      simp [mapSet]
    have hname : GetDimensionName l 0 = .ok d := by
      unfold GetDimensionName
      rw [hd]
      rfl
    have hsim : SimulateFailure rt l d v = .ok fresh := by
      unfold SimulateFailure
      rw [hd, h1]
      have hidx : indexOf [d] d = 0 := indexOf_head d []
      simp only [hidx, lt_self_iff_false, if_false, Int.toNat_zero]
      rw [hc]
      simp [failureLoop, hv]
    unfold complement
    rw [hdim]
    simp [List.range_succ, complementLoop, hname, hsim]
  · unfold GetEndpointsForSector
    rw [hd, stringsJoin_singleton, hcell]
    simp

theorem shuffleCell_singleCell {l : Lattice} {d v : String} {cell : Slice}
    (hd : l.DimensionNames = [d]) (hc : l.EndpointsByCoordinate = [(v, cell)]) (g : Rand) :
    (shuffleCell l v g).1.DimensionNames = [d] ∧
      (shuffleCell l v g).1.EndpointsByCoordinate =
        [(v, { elems := (g.Shuffle cell.elems).1, spare := cell.spare })] ∧
      (shuffleCell l v g).1.cell v = { elems := (g.Shuffle cell.elems).1, spare := cell.spare } := by
  have hcell : l.cell v = cell := by
    unfold Lattice.cell
    rw [hc]
    simp [mapGet]
  have hkey : v ∈ mapKeys l.EndpointsByCoordinate := by
    rw [hc]
    simp [mapKeys]
  refine ⟨?_, ?_, ?_⟩
  · unfold shuffleCell
    rw [(setCell_fields l v _).2.1, hd]
  · unfold shuffleCell Lattice.setCell
    rw [hcell, hc]
    simp [mapGet, mapSet]
  · unfold shuffleCell
    rw [setCell_cell_self l _ hkey, hcell]

/-- The helper on a lattice with a single cell: when every fragment of the cell
is rejected it returns a lattice without cells, and otherwise a lattice whose
single cell is a fragment that is not rejected. -/
theorem helper_singleCell (rt : Runtime) (shard : StatefulSharder) (epc k : Int)
    {l : Lattice} {d v : String} {cell : Slice}
    (hd : l.DimensionNames = [d]) (hc : l.EndpointsByCoordinate = [(v, cell)])
    (hv : stringsSplit v seperator = [v]) (g : Rand) :
    ∃ fresh, fresh.DimensionNames = [d] ∧ fresh.EndpointsByCoordinate = [] ∧
      ((∀ f ∈ Combinations (g.Shuffle cell.elems).1 epc,
          (f.length : Int) ≥ k ∧ areThereTooManyCollisions shard f k = true) →
        ∃ g', shuffleShardRecursiveHelper rt shard epc k 2 l g =
          some (.ok fresh, (shuffleCell l v g).1, g')) ∧
      ((∃ f ∈ Combinations (g.Shuffle cell.elems).1 epc,
          ¬ ((f.length : Int) ≥ k ∧ areThereTooManyCollisions shard f k = true)) →
        ∃ f ∈ Combinations (g.Shuffle cell.elems).1 epc, ∃ g',
          shuffleShardRecursiveHelper rt shard epc k 2 l g =
            some (.ok (addIgnoringError rt fresh [v] f), (shuffleCell l v g).1, g')) := by
  obtain ⟨s1, ⟨comp, s2, s3, s4⟩, s5, s6⟩ := singleCell_steps rt hd hc hv
  obtain ⟨fresh, n1, n2, n3⟩ := NewLattice_singleton rt d
  obtain ⟨sh1, sh2, sh3⟩ := shuffleCell_singleCell hd hc g
  have hrec : ∀ g₁, shuffleShardRecursiveHelper rt shard epc k 1 comp g₁ =
      some (.ok fresh, comp, g₁) := by
    intro g₁
    obtain ⟨fr, e1, _, _⟩ := helper_of_no_cells rt shard epc k 0 s3 s4 g₁
    unfold shuffleShardRecursiveHelper at e1 ⊢
    rw [GetAllCoordinates_of_nil s4, Shuffle_nil] at e1 ⊢
    unfold coordinateLoop GetDimensionNames at e1 ⊢
    rw [s3, n1]
  have hunfold : shuffleShardRecursiveHelper rt shard epc k 2 l g =
      coordinateLoop rt shard epc k (shuffleShardRecursiveHelper rt shard epc k 1) [[v]] l g := by
    conv_lhs => unfold shuffleShardRecursiveHelper
    rw [s1, Shuffle_singleton]
  refine ⟨fresh, n2, n3, ?_, ?_⟩
  · intro hall
    refine ⟨g.Shuffle cell.elems |>.2, ?_⟩
    rw [hunfold]
    unfold coordinateLoop GetDimensionNames
    rw [hd, n1, s2, s5]
    simp only [stringsJoin_singleton]
    rw [sh3]
    have hg : (shuffleCell l v g).2 = (g.Shuffle cell.elems).2 := by
      unfold shuffleCell
      rw [s6]
    rw [hg, fragmentLoop_all_rejected rt shard k _ [v] comp _ _ hall]
    simp only
    unfold coordinateLoop GetDimensionNames
    rw [sh1, n1]
  · intro hex
    obtain ⟨f, hf, hres⟩ := fragmentLoop_accepts rt shard k
      (shuffleShardRecursiveHelper rt shard epc k 1) [v] comp fresh
      (GetAllEndpoints_of_nil n3) hrec (g.Shuffle cell.elems).2 _ hex
    refine ⟨f, hf, (g.Shuffle cell.elems).2, ?_⟩
    rw [hunfold]
    unfold coordinateLoop GetDimensionNames
    rw [hd, n1, s2, s5]
    simp only [stringsJoin_singleton]
    rw [sh3]
    have hg : (shuffleCell l v g).2 = (g.Shuffle cell.elems).2 := by
      unfold shuffleCell
      rw [s6]
    rw [hg, hres]

/-! ## Exhaustion of a single cell -/

theorem isFragmentUsed_empty (f : List String) : isFragmentUsed NewStatefulSharder f = false := by
  simp [isFragmentUsed, NewStatefulSharder]

theorem tooMany_empty_store (h : List String) (k : Int) :
    areThereTooManyCollisions NewStatefulSharder h k = false := by
  unfold areThereTooManyCollisions
  split
  · rfl
  · split
    · exact isFragmentUsed_empty h
    · apply Bool.eq_false_iff.2
      intro hc
      obtain ⟨f, _, hf⟩ := List.any_eq_true.1 hc
      rw [isFragmentUsed_empty] at hf
      exact absurd hf (by simp)

/-- Two lists of `m` distinct elements out of `n` share at least `2 * m - n` of
them. -/
theorem common_of_large_subsets {E f S : List String} (hE : E.Nodup) (hf : f.Nodup)
    (hS : S.Nodup) (hfE : ∀ x ∈ f, x ∈ E) (hSE : ∀ x ∈ S, x ∈ E) :
    f.length + S.length ≤ E.length + (f.filter (fun x => decide (x ∈ S))).length := by
  have h1 := List.length_eq_length_filter_add (l := f) (fun x => decide (x ∈ S))
  have h2 := List.length_eq_length_filter_add (l := E) (fun x => decide (x ∈ S))
  have h3 : (E.filter (fun x => decide (x ∈ S))).length = S.length := by
    apply List.Perm.length_eq
    refine (List.perm_ext_iff_of_nodup (hE.filter _) hS).2 ?_
    intro x
    simp only [List.mem_filter, decide_eq_true_eq]
    exact ⟨fun h => h.2, fun h => ⟨hSE x h, h⟩⟩
  have h4 : (f.filter (fun x => !decide (x ∈ S))).length ≤
      (E.filter (fun x => !decide (x ∈ S))).length := by
    apply List.Subperm.length_le
    apply List.subperm_of_subset (hf.filter _)
    intro x hx
    simp only [List.mem_filter] at hx ⊢
    exact ⟨hfE x hx.1, hx.2⟩
  omega

theorem GetAllEndpoints_single {rt : Runtime} {fresh : Lattice} {d v : String} {f : List String}
    (hd : fresh.DimensionNames = [d]) (hc : fresh.EndpointsByCoordinate = []) (hf : f.Nodup) :
    (∀ e, e ∈ GetAllEndpoints (addIgnoringError rt fresh [v] f) ↔ e ∈ f) ∧
      (GetAllEndpoints (addIgnoringError rt fresh [v] f)).length = f.length := by
  have hlen : [v].length = fresh.DimensionNames.length := by rw [hd]; rfl
  have hmem : ∀ e, e ∈ GetAllEndpoints (addIgnoringError rt fresh [v] f) ↔ e ∈ f := by
    intro e
    constructor
    · intro he
      rcases GetAllEndpoints_addIgnoringError he with h | h
      · rw [GetAllEndpoints_of_nil hc] at h
        simp at h
      · exact h
    · intro he
      apply GetAllEndpoints_of_cell (k := stringsJoin [v] seperator)
      rw [addIgnoringError_cell_self rt fresh [v] f hlen, mem_set]
      exact List.mem_append_left _ he
  exact ⟨hmem, ((List.perm_ext_iff_of_nodup (GetAllEndpoints_nodup _) hf).2 hmem).length_eq⟩

/-- The first call on a fresh sharder. -/
theorem first_call_singleCell (rt : Runtime) {l : Lattice} {d v : String} {cell : Slice}
    {epc k : Int} (hd : l.DimensionNames = [d]) (hc : l.EndpointsByCoordinate = [(v, cell)])
    (hv : stringsSplit v seperator = [v]) (hnd : cell.elems.Nodup) (h1 : 1 ≤ epc)
    (h2 : epc ≤ cell.elems.length) (h63 : cell.elems.length < 63) (g : Rand) :
    ∃ s g', StatefulShuffleShard rt NewStatefulSharder g l epc k =
        some (.ok s,
          (Combinations (GetAllEndpoints s) (toInt64 (k + 1))).foldl saveFragment
            NewStatefulSharder,
          (shuffleCell l v g).1, g') ∧
      ((GetAllEndpoints s).length : Int) = epc ∧ ∀ e ∈ GetAllEndpoints s, e ∈ cell.elems := by
  obtain ⟨fresh, n2, n3, _, hacc⟩ := helper_singleCell rt NewStatefulSharder epc k hd hc hv g
  have hperm := Shuffle_perm g cell.elems
  have hex : ∃ f ∈ Combinations (g.Shuffle cell.elems).1 epc,
      ¬ ((f.length : Int) ≥ k ∧ areThereTooManyCollisions NewStatefulSharder f k = true) := by
    refine ⟨(g.Shuffle cell.elems).1.take epc.toNat, ?_, ?_⟩
    · apply (mem_Combinations (by omega) (by rw [hperm.length_eq]; exact h2)
        (by rw [hperm.length_eq]; exact h63)).2
      refine ⟨List.take_sublist _ _, ?_⟩
      rw [List.length_take, hperm.length_eq]
      omega
    · rw [tooMany_empty_store]
      simp
  obtain ⟨f, hf, g', hres⟩ := hacc hex
  have hfl : (f.length : Int) = epc :=
    Combinations_length (by omega) (by rw [hperm.length_eq]; exact h2) hf
  have hfn : f.Nodup := (Combinations_sublist hf).nodup (hperm.nodup_iff.2 hnd)
  obtain ⟨e1, e2⟩ := @GetAllEndpoints_single rt fresh d v f n2 n3 hfn
  refine ⟨addIgnoringError rt fresh [v] f, g', ?_, by rw [e2]; exact hfl, ?_⟩
  · unfold StatefulShuffleShard
    rw [hc]
    simp only [List.length_singleton]
    rw [hres]
    simp only
    rw [if_neg (by rw [e2]; omega)]
  · intro e he
    exact hperm.mem_iff.1 ((Combinations_sublist hf).subset ((e1 e).1 he))

/-- A later call, when the store holds every fragment of a shard of
`endpointsPerCell` endpoints of the cell and `2 * endpointsPerCell - n > k`. -/
theorem later_call_singleCell (rt : Runtime) (shard : StatefulSharder) {l : Lattice}
    {d v : String} {cell : Slice} {E S : List String}
    {epc k : Int} (hd : l.DimensionNames = [d]) (hc : l.EndpointsByCoordinate = [(v, cell)])
    (hv : stringsSplit v seperator = [v]) (hE : E.Nodup) (hperm : cell.elems.Perm E)
    (h1 : 1 ≤ epc) (h2 : epc ≤ E.length) (h63 : E.length < 63) (h0 : 0 ≤ k)
    (h3 : 2 * epc - E.length > k)
    (hS : S.Nodup) (hSl : (S.length : Int) = epc) (hSE : ∀ x ∈ S, x ∈ E)
    (hcover : ∀ f : List String, f.Sublist S → (f.length : Int) = k + 1 →
      sprintfV (sortStrings f) ∈ shard.store) (g : Rand) :
    ∃ g', StatefulShuffleShard rt shard g l epc k =
        some (.error "No shards available", shard, (shuffleCell l v g).1, g') := by
  obtain ⟨fresh, n2, n3, hrej, _⟩ := helper_singleCell rt shard epc k hd hc hv g
  have hp := (Shuffle_perm g cell.elems).trans hperm
  have hall : ∀ f ∈ Combinations (g.Shuffle cell.elems).1 epc,
      (f.length : Int) ≥ k ∧ areThereTooManyCollisions shard f k = true := by
    intro f hf
    have hfl : (f.length : Int) = epc :=
      Combinations_length (by omega) (by rw [hp.length_eq]; exact h2) hf
    have hfn : f.Nodup := (Combinations_sublist hf).nodup (hp.nodup_iff.2 hE)
    have hfE : ∀ x ∈ f, x ∈ E := fun x hx => hp.mem_iff.1 ((Combinations_sublist hf).subset hx)
    have hcount := common_of_large_subsets hE hfn hS hfE hSE
    have hge : k.toNat + 1 ≤ (f.filter (fun x => decide (x ∈ S))).length := by omega
    refine collision_of_common h0 hcover (by omega)
      (F := (f.filter (fun x => decide (x ∈ S))).take (k.toNat + 1))
      ((List.take_sublist _ _).nodup (hfn.filter _)) ?_ ?_ ?_
    · rw [List.length_take, min_eq_left hge]
      omega
    · intro x hx
      have := (List.mem_filter.1 (List.mem_of_mem_take hx)).2
      simpa using this
    · intro x hx
      exact (List.mem_filter.1 (List.mem_of_mem_take hx)).1
  obtain ⟨g', hres⟩ := hrej hall
  refine ⟨g', ?_⟩
  unfold StatefulShuffleShard
  rw [hc]
  simp only [List.length_singleton]
  rw [hres]
  simp only
  rw [if_pos (by rw [GetAllEndpoints_of_nil n3]; rfl)]

theorem repeatedCalls_exhausted (rt : Runtime) (shard : StatefulSharder) {d v : String}
    {E S : List String} {epc k : Int} (hv : stringsSplit v seperator = [v]) (hE : E.Nodup)
    (h1 : 1 ≤ epc) (h2 : epc ≤ E.length) (h63 : E.length < 63) (h0 : 0 ≤ k)
    (h3 : 2 * epc - E.length > k)
    (hS : S.Nodup) (hSl : (S.length : Int) = epc) (hSE : ∀ x ∈ S, x ∈ E)
    (hcover : ∀ f : List String, f.Sublist S → (f.length : Int) = k + 1 →
      sprintfV (sortStrings f) ∈ shard.store) :
    ∀ (gs : List Rand) (l : Lattice) (cell : Slice), l.DimensionNames = [d] →
      l.EndpointsByCoordinate = [(v, cell)] → cell.elems.Perm E →
      repeatedCalls rt epc k shard l gs = gs.map (fun _ => .error "No shards available")
  | [], _, _, _, _, _ => rfl
  | g :: gs, l, cell, hd, hc, hperm => by
    obtain ⟨g', hcall⟩ := later_call_singleCell rt shard hd hc hv hE hperm h1 h2 h63 h0 h3 hS hSl
      hSE hcover g
    obtain ⟨sh1, sh2, _⟩ := shuffleCell_singleCell hd hc g
    unfold repeatedCalls
    rw [hcall]
    simp only [List.map_cons]
    rw [repeatedCalls_exhausted rt shard hv hE h1 h2 h63 h0 h3 hS hSl hSE hcover gs _ _ sh1 sh2
      ((Shuffle_perm g cell.elems).trans hperm)]

/-- C6 (amended): on a one-dimensional lattice whose single cell is named by a
value that `strings.Split` leaves whole (it does not contain the separator) and
holds `n < 63` distinct endpoints, with `1 <= epc <= n`, `k >= 0` and
`2 * epc - n > k`, the first call of `StatefulShuffleShard` on a fresh sharder returns a shard of
exactly `epc` endpoints and every later call with the same arguments returns the
error "No shards available". -/
theorem exhaustion_after_first_shard (rt : Runtime) (l : Lattice) (d v : String) (cell : Slice)
    (epc k : Int) (g : Rand) (gs : List Rand)
    (hd : l.DimensionNames = [d]) (hc : l.EndpointsByCoordinate = [(v, cell)])
    (hv : stringsSplit v seperator = [v]) (hnd : cell.elems.Nodup)
    (h1 : 1 ≤ epc) (h2 : epc ≤ cell.elems.length) (h63 : cell.elems.length < 63) (h0 : 0 ≤ k)
    (h3 : 2 * epc - cell.elems.length > k) :
    ∃ s, repeatedCalls rt epc k NewStatefulSharder l (g :: gs) =
        .ok s :: gs.map (fun _ => .error "No shards available") ∧
      ((GetAllEndpoints s).length : Int) = epc := by
  obtain ⟨s, g', hcall, hlen, hsub⟩ :=
    first_call_singleCell rt (k := k) hd hc hv hnd h1 h2 h63 g
  obtain ⟨sh1, sh2, _⟩ := shuffleCell_singleCell hd hc g
  refine ⟨s, ?_, hlen⟩
  unfold repeatedCalls
  rw [hcall]
  simp only
  rw [repeatedCalls_exhausted rt _ hv hnd h1 h2 h63 h0 h3 (GetAllEndpoints_nodup s) hlen hsub ?_
    gs _ _ sh1 sh2 (Shuffle_perm g cell.elems)]
  intro f hf hl
  have hfl := hf.length_le
  have hwrap : toInt64 (k + 1) = k + 1 := toInt64_of_range (by omega) (by omega)
  rw [hwrap]
  apply foldl_saveFragment_mem
  exact (mem_Combinations (by omega) (by omega) (by omega)).2 ⟨hf, hl⟩

theorem exhaustion_after_first_shard_witness :
    (fiveLattice "x").DimensionNames = ["dimX"] ∧
      (fiveLattice "x").EndpointsByCoordinate =
        [("x", { elems := ["A", "B", "C", "D", "E"], spare := ["", "", ""] })] ∧
      stringsSplit "x" seperator = ["x"] ∧
      ["A", "B", "C", "D", "E"].length < 63 ∧
      ∃ s, repeatedCalls sampleRuntime 4 2 NewStatefulSharder (fiveLattice "x")
          [sampleRand, sampleRand] = [.ok s, .error "No shards available"] ∧
        ((GetAllEndpoints s).length : Int) = 4 :=
  ⟨rfl, rfl, by decide!, by decide,
    exhaustion_after_first_shard sampleRuntime (fiveLattice "x") "dimX" "x"
      { elems := ["A", "B", "C", "D", "E"], spare := ["", "", ""] } 4 2 sampleRand [sampleRand]
      rfl rfl (by decide!) (by decide!) (by decide) (by decide) (by decide) (by decide)
      (by decide)⟩

/-! ## Invariants of the lattices that the package builds -/

theorem AddEndpointsForSector_ok_length {rt : Runtime} {l l' : Lattice} {sec ep : List String}
    (h : AddEndpointsForSector rt l sec ep = .ok l') : sec.length = l.DimensionNames.length := by
  by_contra hne
  rw [AddEndpointsForSector_error rt l sec ep hne] at h
  exact absurd h (by simp)

theorem AddEndpointsForSector_ok_eq {rt : Runtime} {l l' : Lattice} {sec ep : List String}
    (h : AddEndpointsForSector rt l sec ep = .ok l') : l' = addIgnoringError rt l sec ep := by
  unfold addIgnoringError
  rw [h]

/-- The cells of a built lattice hold distinct endpoints. -/
theorem Built.cell_nodup {rt : Runtime} {l : Lattice} (h : Built rt l) :
    ∀ k, (l.cell k).elems.Nodup := by
  induction h with
  | new seed dims l hnew =>
    intro k
    rw [cell_of_not_mem (by rw [(NewLatticeWithSeed_ok hnew).2.2.2]; simp [mapKeys])]
    exact List.nodup_nil
  | add l l' sec ep _ hadd ih =>
    intro k
    rw [AddEndpointsForSector_ok_eq hadd]
    by_cases hk : k = stringsJoin sec seperator
    · subst hk
      rw [addIgnoringError_cell_self rt l sec ep (AddEndpointsForSector_ok_length hadd)]
      exact set_nodup _
    · rw [addIgnoringError_cell_ne rt l sec ep hk]
      exact ih k
  | shuffled l l' _ hs ih =>
    intro k
    exact (hs.2.2.2.2 k).1.nodup_iff.2 (ih k)

theorem NewLatticeWithSeed_values {seed : Int} {dims : List String} {l : Lattice}
    (h : NewLatticeWithSeed seed dims = .ok l) :
    l.ValuesByDimension = l.DimensionNames.foldl (fun m d => mapSet m d []) [] := by
  unfold NewLatticeWithSeed at h
  split at h
  · exact absurd h (by simp)
  · simp only [Outcome.ok.injEq] at h
    subst h
    rfl

/-- In a built lattice with the single dimension `d`, the values recorded for `d`
are the keys of the cells. -/
theorem Built.values_one_dim {rt : Runtime} {l : Lattice} (h : Built rt l) :
    ∀ d, l.DimensionNames = [d] →
      ∀ v, v ∈ GetDimensionValues l d ↔ v ∈ mapKeys l.EndpointsByCoordinate := by
  induction h with
  | new seed dims l hnew =>
    intro d hd v
    unfold GetDimensionValues
    rw [NewLatticeWithSeed_values hnew, hd, (NewLatticeWithSeed_ok hnew).2.2.2]
    simp [mapSet, mapGet, mapKeys, set_nil]
  | add l l' sec ep _ hadd ih =>
    intro d hd v
    have hlen := AddEndpointsForSector_ok_length hadd
    have heq := AddEndpointsForSector_ok_eq hadd
    rw [addIgnoringError_eq rt l sec ep hlen] at heq
    have hd' : l.DimensionNames = [d] := by
      rw [heq] at hd
      exact hd
    rw [hd'] at hlen
    obtain ⟨v₀, hv₀⟩ : ∃ v₀, sec = [v₀] := by
      cases sec with
      | nil => simp at hlen
      | cons a t =>
        cases t with
        | nil => exact ⟨a, rfl⟩
        | cons b t' => simp at hlen
    have ih' := ih d hd' v
    unfold GetDimensionValues at ih' ⊢
    rw [heq]
    simp only
    rw [hd', hv₀]
    simp only [addValues, mapGet_mapSet_self, Option.getD_some, mem_set, List.mem_append,
      List.mem_singleton, stringsJoin_singleton]
    rw [mem_mapKeys_mapSet]
    rw [mem_set] at ih'
    rw [ih']
    tauto
  | shuffled l l' _ hs ih =>
    intro d hd v
    have := ih d (by rw [← hs.2.1]; exact hd) v
    unfold GetDimensionValues at this ⊢
    rw [hs.2.2.1, hs.2.2.2.1]
    exact this

/-! ## `SimpleShuffleShard` on a one-dimensional lattice -/

theorem upTo_of_le {s : Slice} {n : Int} (h0 : 0 ≤ n) (hn : n ≤ s.elems.length) :
    s.upTo n = some (s.elems.take n.toNat) := by
  unfold Slice.upTo Slice.cap
  have h1 : ¬ (n < 0 ∨ ((s.elems.length + s.spare.length : Nat) : Int) < n) := by
    push_cast
    omega
  rw [if_neg h1, List.take_append_of_le_length (by omega)]

theorem writeThrough_of_not_mem {l shard : Lattice} {sec : List String} {k : String} {n : Nat}
    (h : stringsJoin sec seperator ∉ mapKeys shard.EndpointsByCoordinate) :
    writeThrough l shard sec k n = l := by
  unfold writeThrough
  split
  · rfl
  · rw [(mapGet_eq_none_iff _).2 h]

/-- The loop over the values of a one-dimensional lattice adds one cell of `epc`
endpoints for every value. -/
theorem oneDimLoop_spec (rt : Runtime) (epc : Int) (hepc : 0 ≤ epc) (d : String) :
    ∀ (vals : List String) (l shard : Lattice) (r : Rand),
      l.DimensionNames = [d] → shard.DimensionNames = [d] → vals.Nodup →
      (∀ v ∈ vals, v ∈ mapKeys l.EndpointsByCoordinate ∧
        v ∉ mapKeys shard.EndpointsByCoordinate) →
      (∀ k ∈ mapKeys l.EndpointsByCoordinate,
        (l.cell k).elems.Nodup ∧ epc ≤ ((l.cell k).elems.length : Int)) →
      (∀ k ∈ mapKeys shard.EndpointsByCoordinate, ((shard.cell k).elems.length : Int) = epc) →
      ∃ s, (oneDimLoop rt epc vals l shard r).1 = .ok s ∧
        (∀ k, k ∈ mapKeys s.EndpointsByCoordinate ↔
          k ∈ mapKeys shard.EndpointsByCoordinate ∨ k ∈ vals) ∧
        ∀ k ∈ mapKeys s.EndpointsByCoordinate, ((s.cell k).elems.length : Int) = epc
  | [], l, shard, r, _, _, _, _, _, hsh => ⟨shard, rfl, by simp, hsh⟩
  | v :: rest, l, shard, r, hl, hs, hnd, hv, hcells, hsh => by
    obtain ⟨hvl, hvs⟩ := hv v (List.mem_cons_self _ _)
    have hget : GetEndpointsForSector l [v] = .ok (l.cell (stringsJoin [v] seperator)).elems := by
      unfold GetEndpointsForSector
      rw [hl]
      simp
    have hsh₁ := shuffleCell_ShuffledOf l v r
    have hcell := hcells v hvl
    have hp := (hsh₁.2.2.2.2 v).1
    have hup : ((shuffleCell l v r).1.cell v).upTo epc =
        some (((shuffleCell l v r).1.cell v).elems.take epc.toNat) :=
      upTo_of_le hepc (by rw [hp.length_eq]; exact hcell.2)
    have hep_nodup : (((shuffleCell l v r).1.cell v).elems.take epc.toNat).Nodup :=
      (List.take_sublist _ _).nodup (hp.nodup_iff.2 hcell.1)
    have hep_len : ((((shuffleCell l v r).1.cell v).elems.take epc.toNat).length : Int) = epc := by
      rw [List.length_take, hp.length_eq]
      have := hcell.2
      omega
    have hlen : [v].length = shard.DimensionNames.length := by rw [hs]; rfl
    have hadd := AddEndpointsForSector_eq rt shard [v]
      (((shuffleCell l v r).1.cell v).elems.take epc.toNat) hlen
    have hsh' := addIgnoringError_eq rt shard [v]
      (((shuffleCell l v r).1.cell v).elems.take epc.toNat) hlen
    rw [← hsh'] at hadd
    have hw : writeThrough (shuffleCell l v r).1 shard [v] v epc.toNat = (shuffleCell l v r).1 :=
      writeThrough_of_not_mem (by rw [stringsJoin_singleton]; exact hvs)
    have hstep : oneDimLoop rt epc (v :: rest) l shard r =
        oneDimLoop rt epc rest (shuffleCell l v r).1
          (addIgnoringError rt shard [v] (((shuffleCell l v r).1.cell v).elems.take epc.toNat))
          (shuffleCell l v r).2 := by
      conv_lhs => unfold oneDimLoop
      rw [hget]
      simp only [stringsJoin_singleton]
      rw [hup]
      simp only
      rw [hadd]
      simp only
      rw [hw]
    rw [hstep]
    have hnd' := List.nodup_cons.1 hnd
    have hkeys' : ∀ k, k ∈ mapKeys (addIgnoringError rt shard [v]
        (((shuffleCell l v r).1.cell v).elems.take epc.toNat)).EndpointsByCoordinate ↔
        k = v ∨ k ∈ mapKeys shard.EndpointsByCoordinate := by
      intro k
      rw [hsh']
      simp only
      rw [mem_mapKeys_mapSet, stringsJoin_singleton]
    obtain ⟨s, h1, h2, h3⟩ := oneDimLoop_spec rt epc hepc d rest (shuffleCell l v r).1
      (addIgnoringError rt shard [v] (((shuffleCell l v r).1.cell v).elems.take epc.toNat))
      (shuffleCell l v r).2 (by rw [hsh₁.2.1]; exact hl)
      (by rw [addIgnoringError_names]; exact hs) hnd'.2
      (by
        intro w hw'
        obtain ⟨a, b⟩ := hv w (List.mem_cons_of_mem _ hw')
        refine ⟨hsh₁.mem_keys.2 a, ?_⟩
        rw [hkeys']
        rintro (h | h)
        · subst h
          exact hnd'.1 hw'
        · exact b h)
      (by
        intro k hk
        obtain ⟨a, b⟩ := hcells k (hsh₁.mem_keys.1 hk)
        have hpk := (hsh₁.2.2.2.2 k).1
        exact ⟨hpk.nodup_iff.2 a, by rw [hpk.length_eq]; exact b⟩)
      (by
        intro k hk
        by_cases hkv : k = v
        · subst hkv
          have := addIgnoringError_cell_self rt shard [k]
            (((shuffleCell l k r).1.cell k).elems.take epc.toNat) hlen
          rw [stringsJoin_singleton] at this
          rw [this, cell_of_not_mem hvs, List.append_nil, set_length_of_nodup hep_nodup]
          exact hep_len
        · rw [addIgnoringError_cell_ne rt shard _ _ (by rw [stringsJoin_singleton]; exact hkv)]
          rcases (hkeys' k).1 hk with h | h
          · exact absurd h hkv
          · exact hsh k h)
    refine ⟨s, h1, ?_, h3⟩
    intro k
    rw [h2, hkeys', List.mem_cons]
    tauto

theorem GetDimensionality_singleton {l : Lattice} {d : String} (h : l.DimensionNames = [d]) :
    (GetDimensionality l).length = 1 := by
  unfold GetDimensionality
  rw [h]
  simp [mapSet]

theorem GetAllCoordinates_congr {a b : Lattice}
    (h : ∀ k, k ∈ mapKeys a.EndpointsByCoordinate ↔ k ∈ mapKeys b.EndpointsByCoordinate) :
    GetAllCoordinates a = GetAllCoordinates b := by
  unfold GetAllCoordinates
  rw [set_ext h]

theorem cells_of_coordinates {l : Lattice} {P : List String → Prop}
    (h : ∀ c ∈ GetAllCoordinates l, P (l.endpointsAt c)) :
    ∀ k ∈ mapKeys l.EndpointsByCoordinate, P (l.cell k).elems := by
  intro k hk
  have := h (stringsSplit k seperator) (mem_GetAllCoordinates.2 ⟨k, hk, rfl⟩)
  unfold Lattice.endpointsAt at this
  rwa [stringsJoin_stringsSplit] at this

theorem coordinates_of_cells {l : Lattice} {P : List String → Prop}
    (h : ∀ k ∈ mapKeys l.EndpointsByCoordinate, P (l.cell k).elems) :
    ∀ c ∈ GetAllCoordinates l, P (l.endpointsAt c) := by
  intro c hc
  obtain ⟨k, hk, rfl⟩ := mem_GetAllCoordinates.1 hc
  unfold Lattice.endpointsAt
  rw [stringsJoin_stringsSplit]
  exact h k hk

/-- The shape of a simple shard of a one-dimensional lattice. -/
theorem SimpleShuffleShard_one_dim (rt : Runtime) {l : Lattice} {d : String} (id : List Nat)
    {epc : Int} (hb : Built rt l) (hd : l.DimensionNames = [d]) (hepc : 1 ≤ epc)
    (hcells : ∀ k ∈ mapKeys l.EndpointsByCoordinate, epc ≤ ((l.cell k).elems.length : Int)) :
    ∃ s, (SimpleShuffleShard rt l id epc).1 = .ok s ∧
      (∀ k, k ∈ mapKeys s.EndpointsByCoordinate ↔ k ∈ mapKeys l.EndpointsByCoordinate) ∧
      ∀ k ∈ mapKeys s.EndpointsByCoordinate, ((s.cell k).elems.length : Int) = epc := by
  obtain ⟨shard, hnew⟩ := NewLatticeWithSeed_of_ne_nil l.Seed (List.cons_ne_nil d [])
  have hn := NewLatticeWithSeed_ok hnew
  have hsn : shard.DimensionNames = [d] := by
    rw [hn.2.2.1, sortStrings_singleton, set_singleton]
  have hvals := hb.values_one_dim d hd
  have hperm := Shuffle_perm (shardRand rt l id) (GetDimensionValues l d)
  have hrun : SimpleShuffleShard rt l id epc =
      oneDimLoop rt epc ((shardRand rt l id).Shuffle (GetDimensionValues l d)).1 l shard
        ((shardRand rt l id).Shuffle (GetDimensionValues l d)).2 := by
    unfold SimpleShuffleShard GetDimensionNames
    rw [hd, hnew]
    simp only [GetDimensionality_singleton hd, if_true]
    simp [shuffleDims]
  obtain ⟨s, h1, h2, h3⟩ := oneDimLoop_spec rt epc (by omega) d
    ((shardRand rt l id).Shuffle (GetDimensionValues l d)).1 l shard
    ((shardRand rt l id).Shuffle (GetDimensionValues l d)).2 hd hsn
    (hperm.nodup_iff.2 (set_nodup _))
    (by
      intro v hv
      refine ⟨(hvals v).1 (hperm.mem_iff.1 hv), ?_⟩
      rw [hn.2.2.2]
      simp [mapKeys])
    (fun k hk => ⟨hb.cell_nodup k, hcells k hk⟩)
    (by
      intro k hk
      rw [hn.2.2.2] at hk
      simp [mapKeys] at hk)
  refine ⟨s, by rw [hrun]; exact h1, ?_, h3⟩
  intro k
  rw [h2, hn.2.2.2]
  simp only [mapKeys, List.map_nil, List.not_mem_nil, false_or]
  rw [hperm.mem_iff]
  exact hvals k

/-- C7: on a one-dimensional lattice built by the package in which every cell
holds at least `epc >= 1` endpoints, `SimpleShuffleShard(id, epc)` succeeds for
every identifier, and the shard has exactly the coordinates of the lattice, each
holding exactly `epc` endpoints. -/
theorem simple_shard_one_dimension_shape (rt : Runtime) (l : Lattice) (d : String)
    (id : List Nat) (epc : Int) (hb : Built rt l) (hd : l.DimensionNames = [d])
    (hepc : 1 ≤ epc)
    (hcells : ∀ c ∈ GetAllCoordinates l, epc ≤ ((l.endpointsAt c).length : Int)) :
    ∃ s, (SimpleShuffleShard rt l id epc).1 = .ok s ∧
      GetAllCoordinates s = GetAllCoordinates l ∧
      ∀ c ∈ GetAllCoordinates s, ((s.endpointsAt c).length : Int) = epc := by
  obtain ⟨s, h1, h2, h3⟩ := SimpleShuffleShard_one_dim rt id hb hd hepc
    (cells_of_coordinates (P := fun es => epc ≤ (es.length : Int)) hcells)
  exact ⟨s, h1, GetAllCoordinates_congr h2,
    coordinates_of_cells (P := fun es => (es.length : Int) = epc) h3⟩

theorem twoCellLattice_built : Built sampleRuntime twoCellLattice :=
  Built.add _ _ ["us-y"] (twentyEndpoints.drop 10)
    (Built.add _ _ ["us-x"] (twentyEndpoints.take 10)
      (Built.new 1 ["az"] ⟨1, ["az"], [("az", [])], []⟩ (by decide!)) (by rfl)) (by rfl)

theorem simple_shard_one_dimension_shape_witness :
    twoCellLattice.DimensionNames = ["az"] ∧ (1 : Int) ≤ 2 ∧
      (∀ c ∈ GetAllCoordinates twoCellLattice,
        (2 : Int) ≤ ((twoCellLattice.endpointsAt c).length : Int)) ∧
      ∃ s, (SimpleShuffleShard sampleRuntime twoCellLattice [3] 2).1 = .ok s ∧
        GetAllCoordinates s = GetAllCoordinates twoCellLattice ∧
        ∀ c ∈ GetAllCoordinates s, ((s.endpointsAt c).length : Int) = 2 :=
  ⟨rfl, by decide, by decide!,
    simple_shard_one_dimension_shape sampleRuntime twoCellLattice "az" [3] 2
      twoCellLattice_built rfl (by decide) (by decide!)⟩

/-! ## `strings.Split` after `strings.Join`, for a separator of two distinct characters -/

theorem isPrefixOf_two (a b : Char) :
    ∀ l : List Char, [a, b].isPrefixOf l = true ↔ ∃ t, l = a :: b :: t
  | [] => by simp [List.isPrefixOf]
  | [x] => by simp [List.isPrefixOf]
  | x :: y :: t => by
    constructor
    · intro h
      simp only [List.isPrefixOf, Bool.and_eq_true, beq_iff_eq, Bool.and_true] at h
      exact ⟨t, by rw [h.1, h.2]⟩
    · rintro ⟨t', ht⟩
      simp only [List.cons.injEq] at ht
      simp [List.isPrefixOf, ht.1, ht.2.1]

theorem splitChars_cons (sep : List Char) (n : Nat) (acc : List Char) (c : Char)
    (cs : List Char) :
    splitChars sep (n + 1) acc (c :: cs) =
      if sep.isPrefixOf (c :: cs) then
        acc.reverse :: splitChars sep n [] ((c :: cs).drop sep.length)
      else splitChars sep n (c :: acc) cs := by
  rw [splitChars]

/-- When the split of `p` is `p` alone, no position of `p` starts the separator. -/
theorem clean_of_splitChars (a b : Char) :
    ∀ (p : List Char) (n : Nat) (acc : List Char), p.length < n →
      splitChars [a, b] n acc p = [acc.reverse ++ p] →
      ∀ s t, p = s ++ t → [a, b].isPrefixOf t = false
  | [], _, _, _, _, s, t, hst => by
    have : t = [] := (List.append_eq_nil.1 hst.symm).2
    subst this
    rfl
  | c :: cs, 0, _, hn, _, _, _, _ => absurd hn (Nat.not_lt_zero _)
  | c :: cs, n + 1, acc, hn, h, s, t, hst => by
    rw [splitChars_cons] at h
    by_cases hp : [a, b].isPrefixOf (c :: cs) = true
    · rw [if_pos hp] at h
      exact absurd (List.cons.inj h).2 (splitChars_ne_nil [a, b] n [] _)
    · rw [if_neg hp] at h
      cases s with
      | nil =>
        simp only [List.nil_append] at hst
        rw [← hst]
        exact Bool.eq_false_iff.2 hp
      | cons x s' =>
        simp only [List.cons_append, List.cons.injEq] at hst
        exact clean_of_splitChars a b cs n (c :: acc) (by simpa using hn)
          (by simpa using h) s' t hst.2

theorem splitChars_clean (a b : Char) :
    ∀ (p : List Char) (n : Nat) (acc : List Char), p.length < n →
      (∀ s t, p = s ++ t → [a, b].isPrefixOf t = false) →
      splitChars [a, b] n acc p = [acc.reverse ++ p]
  | [], n + 1, acc, _, _ => by simp [splitChars]
  | [], 0, _, hn, _ => absurd hn (Nat.not_lt_zero _)
  | c :: cs, 0, _, hn, _ => absurd hn (Nat.not_lt_zero _)
  | c :: cs, n + 1, acc, hn, hc => by
    rw [splitChars_cons, if_neg (by rw [hc [] (c :: cs) rfl]; simp)]
    rw [splitChars_clean a b cs n (c :: acc) (by simpa using hn)
      (fun s t hst => hc (c :: s) t (by rw [hst]; rfl))]
    simp

theorem splitChars_clean_sep (a b : Char) (hab : a ≠ b) (rest : List Char) :
    ∀ (p : List Char) (n : Nat) (acc : List Char), p.length + 2 + rest.length < n →
      (∀ s t, p = s ++ t → [a, b].isPrefixOf t = false) →
      splitChars [a, b] n acc (p ++ a :: b :: rest) =
        (acc.reverse ++ p) :: splitChars [a, b] (n - p.length - 1) [] rest
  | [], 0, _, hn, _ => absurd hn (Nat.not_lt_zero _)
  | [], n + 1, acc, _, _ => by
    rw [List.nil_append, splitChars_cons, if_pos ((isPrefixOf_two a b _).2 ⟨rest, rfl⟩)]
    simp
  | c :: cs, 0, _, hn, _ => absurd hn (Nat.not_lt_zero _)
  | c :: cs, n + 1, acc, hn, hc => by
    have hnot : ¬ [a, b].isPrefixOf (c :: (cs ++ a :: b :: rest)) = true := by
      intro hp
      obtain ⟨t, ht⟩ := (isPrefixOf_two a b _).1 hp
      cases cs with
      | nil =>
        simp only [List.nil_append, List.cons.injEq] at ht
        exact hab ht.2.1
      | cons x xs =>
        simp only [List.cons_append, List.cons.injEq] at ht
        have h1 := hc [] (c :: x :: xs) rfl
        rw [Bool.eq_false_iff] at h1
        exact h1 ((isPrefixOf_two a b _).2 ⟨xs, by rw [ht.1, ht.2.1]⟩)
    rw [List.cons_append, splitChars_cons, if_neg hnot]
    rw [splitChars_clean_sep a b hab rest cs n (c :: acc)
      (by simp only [List.length_cons] at hn; omega)
      (fun s t hst => hc (c :: s) t (by rw [hst]; rfl))]
    simp only [List.reverse_cons, List.append_assoc, List.singleton_append, List.length_cons]
    congr 2
    omega

theorem length_joinChars_cons (sep p : List Char) (ps : List (List Char)) :
    p.length ≤ (joinChars sep (p :: ps)).length := by
  cases ps with
  | nil => simp [joinChars]
  | cons q qs =>
    simp only [joinChars, List.length_append]
    omega

theorem splitChars_joinChars (a b : Char) (hab : a ≠ b) :
    ∀ (ps : List (List Char)) (p : List Char) (n : Nat),
      (joinChars [a, b] (p :: ps)).length < n →
      (∀ q ∈ p :: ps, ∀ s t, q = s ++ t → [a, b].isPrefixOf t = false) →
      splitChars [a, b] n [] (joinChars [a, b] (p :: ps)) = p :: ps
  | [], p, n, hn, hc => by
    simpa [joinChars] using splitChars_clean a b p n [] (by simpa [joinChars] using hn)
      (hc p (List.mem_cons_self _ _))
  | q :: qs, p, n, hn, hc => by
    have hlen : (joinChars [a, b] (p :: q :: qs)).length =
        p.length + 2 + (joinChars [a, b] (q :: qs)).length := by
      simp only [joinChars, List.length_append, List.length_cons, List.length_nil]
    have h1 := splitChars_clean_sep a b hab (joinChars [a, b] (q :: qs)) p n []
      (by omega) (hc p (List.mem_cons_self _ _))
    have h2 := splitChars_joinChars a b hab qs q (n - p.length - 1) (by omega)
      (fun x hx => hc x (List.mem_cons_of_mem _ hx))
    have h3 : joinChars [a, b] (p :: q :: qs) = p ++ a :: b :: joinChars [a, b] (q :: qs) := by
      simp [joinChars]
    rw [h3, h1, h2]
    simp

theorem seperator_data :
    seperator.data = [Char.ofNat 0x26A1, Char.ofNat 0xFE0F] ∧
      Char.ofNat 0x26A1 ≠ Char.ofNat 0xFE0F :=
  ⟨rfl, by decide⟩

theorem clean_of_stringsSplit {v : String} (h : stringsSplit v seperator = [v]) :
    ∀ s t, v.data = s ++ t →
      [Char.ofNat 0x26A1, Char.ofNat 0xFE0F].isPrefixOf t = false := by
  unfold stringsSplit at h
  rw [seperator_data.1] at h
  have h' : splitChars [Char.ofNat 0x26A1, Char.ofNat 0xFE0F] (v.data.length + 1) [] v.data =
      [v.data] := by
    have := congrArg (List.map String.data) h
    simpa [List.map_map, Function.comp_def] using this
  exact clean_of_splitChars _ _ v.data _ [] (Nat.lt_succ_self _) (by simpa using h')

/-- The split of a join of values that do not contain the separator gives the
values back. -/
theorem stringsSplit_stringsJoin {sec : List String} (hne : sec ≠ [])
    (h : ∀ v ∈ sec, stringsSplit v seperator = [v]) :
    stringsSplit (stringsJoin sec seperator) seperator = sec := by
  obtain ⟨p, ps, rfl⟩ : ∃ p ps, sec = p :: ps := by
    cases sec with
    | nil => exact absurd rfl hne
    | cons p ps => exact ⟨p, ps, rfl⟩
  unfold stringsSplit stringsJoin
  rw [seperator_data.1]
  simp only [List.map_cons]
  rw [splitChars_joinChars _ _ seperator_data.2 (ps.map String.data) p.data _ (Nat.lt_succ_self _)]
  · simp [List.map_map, Function.comp_def]
  · intro q hq s t hst
    rw [← List.map_cons, List.mem_map] at hq
    obtain ⟨v, hv, rfl⟩ := hq
    exact clean_of_stringsSplit (h v hv) s t hst

theorem stringsJoin_injective {a b : List String} (ha : a ≠ []) (hb : b ≠ [])
    (hsa : ∀ v ∈ a, stringsSplit v seperator = [v])
    (hsb : ∀ v ∈ b, stringsSplit v seperator = [v])
    (h : stringsJoin a seperator = stringsJoin b seperator) : a = b := by
  rw [← stringsSplit_stringsJoin ha hsa, ← stringsSplit_stringsJoin hb hsb, h]

/-! ## `SimpleShuffleShard` on a lattice of several dimensions -/

theorem Built.names {rt : Runtime} {l : Lattice} (h : Built rt l) :
    l.DimensionNames ≠ [] ∧ l.DimensionNames.Sorted strLe ∧ l.DimensionNames.Nodup := by
  induction h with
  | new seed dims l hnew =>
    obtain ⟨h1, _, h3, _⟩ := NewLatticeWithSeed_ok hnew
    rw [h3]
    refine ⟨?_, set_sorted _, set_nodup _⟩
    obtain ⟨x, xs, rfl⟩ : ∃ x xs, dims = x :: xs := by
      cases dims with
      | nil => exact absurd rfl h1
      | cons x xs => exact ⟨x, xs, rfl⟩
    intro hc
    have : x ∈ set (sortStrings (x :: xs)) := by
      rw [mem_set, mem_sortStrings]
      exact List.mem_cons_self _ _
    rw [hc] at this
    simp at this
  | add l l' sec ep _ hadd ih =>
    rw [AddEndpointsForSector_ok_eq hadd, addIgnoringError_names]
    exact ih
  | shuffled l l' _ hs ih =>
    rw [hs.2.1]
    exact ih

theorem sortStrings_of_sorted {s : List String} (h : s.Sorted strLe) : sortStrings s = s :=
  List.Sorted.insertionSort_eq h

theorem foldl_mapSet_fresh {β : Type} (f : String → β) :
    ∀ (names : List String) (m : List (String × β)), (mapKeys m ++ names).Nodup →
      names.foldl (fun m d => mapSet m d (f d)) m = m ++ names.map (fun d => (d, f d))
  | [], m, _ => by simp
  | d :: names, m, h => by
    have hd : d ∉ mapKeys m := by
      intro hc
      exact (List.nodup_append.1 h).2.2 hc (List.mem_cons_self _ _)
    have hset : mapSet m d (f d) = m ++ [(d, f d)] := by
      clear h
      induction m with
      | nil => rfl
      | cons a m ih =>
        obtain ⟨k, v⟩ := a
        simp only [mapKeys, List.map_cons, List.mem_cons, not_or] at hd
        have hk : ¬ k = d := fun hc => hd.1 hc.symm
        simp only [mapSet, hk, if_false, List.cons_append]
        rw [ih hd.2]
    rw [List.foldl_cons, hset, foldl_mapSet_fresh f names]
    · simp
    · have : mapKeys (m ++ [(d, f d)]) = mapKeys m ++ [d] := by simp [mapKeys]
      rw [this]
      simpa using h

theorem GetDimensionality_of_nodup {l : Lattice} (h : l.DimensionNames.Nodup) :
    GetDimensionality l =
      l.DimensionNames.map (fun d => (d, (GetDimensionValues l d).length)) := by
  unfold GetDimensionality
  rw [foldl_mapSet_fresh (fun d => (GetDimensionValues l d).length) _ [] (by simpa [mapKeys] using h)]
  simp

theorem foldl_min_eq (m : Nat) :
    ∀ (dimC : List (String × Nat)) (acc : Int), (m : Int) ≤ acc →
      (∀ kv ∈ dimC, m ≤ kv.2) → (acc = m ∨ ∃ kv ∈ dimC, kv.2 = m) →
      dimC.foldl (fun a kv => if (kv.2 : Int) < a then (kv.2 : Int) else a) acc = m
  | [], acc, _, _, h => by
    rcases h with h | ⟨kv, hkv, _⟩
    · simpa using h
    · simp at hkv
  | kv :: dimC, acc, hacc, hall, h => by
    rw [List.foldl_cons]
    have hkv := hall kv (List.mem_cons_self _ _)
    apply foldl_min_eq m dimC
    · split <;> omega
    · exact fun x hx => hall x (List.mem_cons_of_mem _ hx)
    · rcases h with h | ⟨x, hx, hxm⟩
      · left
        split <;> omega
      · rcases List.mem_cons.1 hx with hx | hx
        · subst hx
          left
          split <;> omega
        · exact Or.inr ⟨x, hx, hxm⟩

theorem minDimension_eq {l : Lattice} (hn : l.DimensionNames.Nodup) {m : Nat}
    (hle : ∀ d ∈ l.DimensionNames, m ≤ GetDimensionSize l d)
    (hex : ∃ d ∈ l.DimensionNames, GetDimensionSize l d = m) (hm : m < 2 ^ 63) :
    (minDimension (GetDimensionality l)).toNat = m := by
  unfold minDimension
  rw [GetDimensionality_of_nodup hn, foldl_min_eq m]
  · simp
  · omega
  · intro kv hkv
    obtain ⟨d, hd, rfl⟩ := List.mem_map.1 hkv
    exact hle d hd
  · right
    obtain ⟨d, hd, hdm⟩ := hex
    exact ⟨(d, (GetDimensionValues l d).length), List.mem_map.2 ⟨d, hd, rfl⟩, hdm⟩

theorem shuffleDims_perm (l : Lattice) :
    ∀ (names : List String) (r : Rand),
      List.Forall₂ (fun vs d => vs.Perm (GetDimensionValues l d)) (shuffleDims l names r).1 names
  | [], _ => List.Forall₂.nil
  | _ :: ds, r => List.Forall₂.cons (Shuffle_perm r _) (shuffleDims_perm l ds _)

/-- One round of the inner loop: the heads of the shuffled lists form a coordinate
of values of the dimensions, and the tails keep what the lists had. -/
theorem popHeads_spec (l : Lattice) (n : Nat) :
    ∀ (shuffled : List (List String)) (names : List String),
      List.Forall₂ (fun vs d => vs.Nodup ∧ n + 1 ≤ vs.length ∧
        ∀ v ∈ vs, v ∈ GetDimensionValues l d) shuffled names →
      ∃ coords tails, popHeads shuffled = some (coords, tails) ∧
        List.Forall₂ (fun v d => v ∈ GetDimensionValues l d) coords names ∧
        List.Forall₂ (fun vs d => vs.Nodup ∧ n ≤ vs.length ∧
          ∀ v ∈ vs, v ∈ GetDimensionValues l d) tails names ∧
        List.Forall₂ (fun v t => v ∉ t) coords tails ∧
        ∀ sec, List.Forall₂ (fun v vs => v ∉ vs) sec shuffled →
          List.Forall₂ (fun a b => a ≠ b) sec coords ∧ List.Forall₂ (fun v t => v ∉ t) sec tails
  | [], names, h => by
    cases h
    refine ⟨[], [], rfl, List.Forall₂.nil, List.Forall₂.nil, List.Forall₂.nil, ?_⟩
    intro sec hsec
    cases hsec
    exact ⟨List.Forall₂.nil, List.Forall₂.nil⟩
  | vs :: rest, names, h => by
    cases h with
    | cons hhead htail =>
      rename_i d ds
      obtain ⟨hnd, hlen, hval⟩ := hhead
      obtain ⟨coords, tails, hp, c1, c2, c3, c4⟩ := popHeads_spec l n rest ds htail
      cases vs with
      | nil => simp at hlen
      | cons v vt =>
        have hnd' := List.nodup_cons.1 hnd
        refine ⟨v :: coords, vt :: tails, ?_, ?_, ?_, ?_, ?_⟩
        · simp [popHeads, hp]
        · exact List.Forall₂.cons (hval v (List.mem_cons_self _ _)) c1
        · exact List.Forall₂.cons ⟨hnd'.2, by simp at hlen; omega,
            fun x hx => hval x (List.mem_cons_of_mem _ hx)⟩ c2
        · exact List.Forall₂.cons hnd'.1 c3
        · intro sec hsec
          cases hsec with
          | cons hx hxs =>
            obtain ⟨e1, e2⟩ := c4 _ hxs
            refine ⟨List.Forall₂.cons ?_ e1, List.Forall₂.cons ?_ e2⟩
            · intro hc
              exact hx (hc ▸ List.mem_cons_self _ _)
            · intro hc
              exact hx (List.mem_cons_of_mem _ hc)

theorem forall₂_mem_left {α β : Type} {R : α → β → Prop} {P : α → Prop} {bs : List β}
    (hR : ∀ a b, b ∈ bs → R a b → P a) {as : List α} {bs' : List β}
    (hsub : ∀ b ∈ bs', b ∈ bs) (h : List.Forall₂ R as bs') : ∀ a ∈ as, P a := by
  induction h with
  | nil => simp
  | @cons x y xs ys hxy _ ih =>
    intro a ha
    rcases List.mem_cons.1 ha with ha | ha
    · subst ha
      exact hR a y (hsub y (List.mem_cons_self _ _)) hxy
    · exact ih (fun b hb => hsub b (List.mem_cons_of_mem _ hb)) a ha

theorem forall₂_imp_mem {α β : Type} {R S : α → β → Prop} {as : List α} {bs : List β}
    (h : List.Forall₂ R as bs) : (∀ a b, b ∈ bs → R a b → S a b) → List.Forall₂ S as bs := by
  induction h with
  | nil => exact fun _ => List.Forall₂.nil
  | @cons x y xs ys hxy _ ih =>
    intro hRS
    exact List.Forall₂.cons (hRS x y (List.mem_cons_self _ _) hxy)
      (ih (fun a b hb => hRS a b (List.mem_cons_of_mem _ hb)))

theorem forall₂_ne_irrefl {a : List String} (h : List.Forall₂ (fun x y => x ≠ y) a a) : a = [] := by
  cases a with
  | nil => rfl
  | cons x xs =>
    cases h with
    | cons hx _ => exact absurd rfl hx

/-- The loop over the rounds of a lattice of several dimensions adds, in every
round, a new cell of `epc` endpoints at a coordinate that differs from the earlier
ones in every dimension. -/
theorem multiDimLoop_spec (rt : Runtime) (epc : Int) (hepc : 1 ≤ epc) (l : Lattice)
    (hne : l.DimensionNames ≠ [])
    (hsep : ∀ d ∈ l.DimensionNames, ∀ v ∈ GetDimensionValues l d,
      stringsSplit v seperator = [v])
    (hfull : ∀ sec, List.Forall₂ (fun v d => v ∈ GetDimensionValues l d) sec l.DimensionNames →
      (l.cell (stringsJoin sec seperator)).elems.Nodup ∧
        epc ≤ ((l.cell (stringsJoin sec seperator)).elems.length : Int)) :
    ∀ (n : Nat) (shuffled : List (List String)) (lcur shard : Lattice) (r : Rand)
      (used : List (List String)),
      ShuffledOf lcur l → shard.DimensionNames = l.DimensionNames →
      List.Forall₂ (fun vs d => vs.Nodup ∧ n ≤ vs.length ∧
        ∀ v ∈ vs, v ∈ GetDimensionValues l d) shuffled l.DimensionNames →
      mapKeys shard.EndpointsByCoordinate = used.map (fun sec => stringsJoin sec seperator) →
      (∀ sec ∈ used,
        List.Forall₂ (fun v d => v ∈ GetDimensionValues l d) sec l.DimensionNames ∧
          List.Forall₂ (fun v vs => v ∉ vs) sec shuffled) →
      used.Pairwise (List.Forall₂ (fun a b => a ≠ b)) →
      (∀ k ∈ mapKeys shard.EndpointsByCoordinate, ((shard.cell k).elems.length : Int) = epc) →
      ∃ (s : Lattice) (used' : List (List String)),
        (multiDimLoop rt epc n shuffled lcur shard r).1 = .ok s ∧
        mapKeys s.EndpointsByCoordinate = used'.map (fun sec => stringsJoin sec seperator) ∧
        used'.length = used.length + n ∧
        (∀ sec ∈ used',
          List.Forall₂ (fun v d => v ∈ GetDimensionValues l d) sec l.DimensionNames) ∧
        used'.Pairwise (List.Forall₂ (fun a b => a ≠ b)) ∧
        ∀ k ∈ mapKeys s.EndpointsByCoordinate, ((s.cell k).elems.length : Int) = epc
  | 0, shuffled, lcur, shard, r, used, _, _, _, hkeys, hused, hpw, hcells =>
    ⟨shard, used, rfl, hkeys, rfl, fun sec hs => (hused sec hs).1, hpw, hcells⟩
  | n + 1, shuffled, lcur, shard, r, used, hsh, hsn, hinv, hkeys, hused, hpw, hcells => by
    obtain ⟨coords, tails, hp, c1, c2, c3, c4⟩ := popHeads_spec l n shuffled _ hinv
    have hclen : coords.length = l.DimensionNames.length := c1.length_eq
    have hcne : coords ≠ [] := by
      intro hc
      rw [hc] at hclen
      exact hne (List.length_eq_zero.1 hclen.symm)
    have hfree : ∀ {sec : List String},
        List.Forall₂ (fun v d => v ∈ GetDimensionValues l d) sec l.DimensionNames →
        ∀ v ∈ sec, stringsSplit v seperator = [v] := fun hv =>
      forall₂_mem_left (P := fun v => stringsSplit v seperator = [v])
        (fun a b hb hab => hsep b hb a hab) (fun b hb => hb) hv
    have hget : GetEndpointsForSector lcur coords =
        .ok (lcur.cell (stringsJoin coords seperator)).elems := by
      unfold GetEndpointsForSector
      rw [hsh.2.1, if_neg (by simpa using hclen)]
    obtain ⟨hcn, hcl⟩ := hfull coords c1
    have hp₀ := (hsh.2.2.2.2 (stringsJoin coords seperator)).1
    have hsh₁ := shuffleCell_ShuffledOf lcur (stringsJoin coords seperator) r
    have hp₁ := (hsh₁.2.2.2.2 (stringsJoin coords seperator)).1.trans hp₀
    have hpos : ¬ (lcur.cell (stringsJoin coords seperator)).elems.length ≤ 0 := by
      rw [hp₀.length_eq]
      omega
    have hup : ((shuffleCell lcur (stringsJoin coords seperator) r).1.cell
        (stringsJoin coords seperator)).upTo epc =
        some (((shuffleCell lcur (stringsJoin coords seperator) r).1.cell
          (stringsJoin coords seperator)).elems.take epc.toNat) :=
      upTo_of_le (by omega) (by rw [hp₁.length_eq]; exact hcl)
    have hfresh : stringsJoin coords seperator ∉ mapKeys shard.EndpointsByCoordinate := by
      rw [hkeys]
      intro hc
      obtain ⟨sec, hsec, hj⟩ := List.mem_map.1 hc
      obtain ⟨u1, u2⟩ := hused sec hsec
      have hsne : sec ≠ [] := by
        intro hc'
        have := u1.length_eq
        rw [hc'] at this
        exact hne (List.length_eq_zero.1 this.symm)
      have heq := stringsJoin_injective hsne hcne (hfree u1) (hfree c1) hj
      have hd := (c4 sec u2).1
      rw [heq] at hd
      exact hcne (forall₂_ne_irrefl hd)
    have hlen : coords.length = shard.DimensionNames.length := by rw [hsn]; exact hclen
    have hstep : multiDimLoop rt epc (n + 1) shuffled lcur shard r =
        multiDimLoop rt epc n tails (shuffleCell lcur (stringsJoin coords seperator) r).1
          (addIgnoringError rt shard coords
            (((shuffleCell lcur (stringsJoin coords seperator) r).1.cell
              (stringsJoin coords seperator)).elems.take epc.toNat))
          (shuffleCell lcur (stringsJoin coords seperator) r).2 := by
      conv_lhs => unfold multiDimLoop
      rw [hp]
      simp only
      rw [hget]
      simp only
      rw [if_neg hpos, hup]
      simp only
      rw [writeThrough_of_not_mem hfresh]
    rw [hstep]
    have hep_nodup : (((shuffleCell lcur (stringsJoin coords seperator) r).1.cell
        (stringsJoin coords seperator)).elems.take epc.toNat).Nodup :=
      (List.take_sublist _ _).nodup (hp₁.nodup_iff.2 hcn)
    have hep_len : ((((shuffleCell lcur (stringsJoin coords seperator) r).1.cell
        (stringsJoin coords seperator)).elems.take epc.toNat).length : Int) = epc := by
      rw [List.length_take, hp₁.length_eq]
      omega
    have hkeys' : mapKeys (addIgnoringError rt shard coords
        (((shuffleCell lcur (stringsJoin coords seperator) r).1.cell
          (stringsJoin coords seperator)).elems.take epc.toNat)).EndpointsByCoordinate =
        (used ++ [coords]).map (fun sec => stringsJoin sec seperator) := by
      rw [addIgnoringError_eq rt shard coords _ hlen]
      simp only
      rw [mapKeys_mapSet_of_not_mem _ _ hfresh, hkeys]
      simp
    obtain ⟨s, used', r1, r2, r3, r4, r5, r6⟩ := multiDimLoop_spec rt epc hepc l hne hsep hfull n
      tails (shuffleCell lcur (stringsJoin coords seperator) r).1
      (addIgnoringError rt shard coords
        (((shuffleCell lcur (stringsJoin coords seperator) r).1.cell
          (stringsJoin coords seperator)).elems.take epc.toNat))
      (shuffleCell lcur (stringsJoin coords seperator) r).2 (used ++ [coords])
      (hsh₁.trans hsh) (by rw [addIgnoringError_names]; exact hsn) c2 hkeys'
      (by
        intro sec hsec
        rcases List.mem_append.1 hsec with h | h
        · exact ⟨(hused sec h).1, (c4 sec (hused sec h).2).2⟩
        · rw [List.mem_singleton.1 h]
          exact ⟨c1, c3⟩)
      (by
        rw [List.pairwise_append]
        refine ⟨hpw, List.pairwise_singleton _ _, ?_⟩
        intro a ha b hb
        rw [List.mem_singleton.1 hb]
        exact (c4 a (hused a ha).2).1)
      (by
        intro k hk
        by_cases hkj : k = stringsJoin coords seperator
        · subst hkj
          rw [addIgnoringError_cell_self rt shard coords _ hlen, cell_of_not_mem hfresh,
            List.append_nil, set_length_of_nodup hep_nodup]
          exact hep_len
        · rw [addIgnoringError_cell_ne rt shard coords _ hkj]
          rcases addIgnoringError_keys rt shard coords _ hk with h | h
          · exact absurd h hkj
          · exact hcells k h)
    refine ⟨s, used', r1, r2, ?_, r4, r5, r6⟩
    rw [r3]
    simp only [List.length_append, List.length_singleton]
    omega

theorem forall₂_ne_symm : Symmetric (List.Forall₂ (fun a b : String => a ≠ b)) := by
  intro a b h
  induction h with
  | nil => exact List.Forall₂.nil
  | cons hx _ ih => exact List.Forall₂.cons (fun hc => hx hc.symm) ih

/-- The shape of a simple shard of a lattice of several dimensions whose values do
not contain the separator. -/
theorem SimpleShuffleShard_multi_dim (rt : Runtime) {l : Lattice} (id : List Nat) {epc : Int}
    {m : Nat} (hb : Built rt l) (hD : 2 ≤ l.DimensionNames.length) (hepc : 1 ≤ epc)
    (hsep : ∀ d ∈ l.DimensionNames, ∀ v ∈ GetDimensionValues l d,
      stringsSplit v seperator = [v])
    (hfull : ∀ sec, List.Forall₂ (fun v d => v ∈ GetDimensionValues l d) sec l.DimensionNames →
      epc ≤ ((l.endpointsAt sec).length : Int))
    (hle : ∀ d ∈ l.DimensionNames, m ≤ GetDimensionSize l d)
    (hex : ∃ d ∈ l.DimensionNames, GetDimensionSize l d = m) (hm : m < 2 ^ 63) :
    ∃ s, (SimpleShuffleShard rt l id epc).1 = .ok s ∧
      (GetAllCoordinates s).length = m ∧
      (∀ c ∈ GetAllCoordinates s, ((s.endpointsAt c).length : Int) = epc) ∧
      (GetAllCoordinates s).Pairwise (List.Forall₂ (fun a b => a ≠ b)) := by
  obtain ⟨hne, hsorted, hnodup⟩ := hb.names
  obtain ⟨shard, hnew⟩ := NewLatticeWithSeed_of_ne_nil l.Seed hne
  have hn := NewLatticeWithSeed_ok hnew
  have hsn : shard.DimensionNames = l.DimensionNames := by
    rw [hn.2.2.1, sortStrings_of_sorted hsorted, set_of_sorted_nodup hsorted hnodup]
  have hdim : (GetDimensionality l).length ≠ 1 := by
    rw [GetDimensionality_of_nodup hnodup, List.length_map]
    omega
  have hrun : SimpleShuffleShard rt l id epc =
      multiDimLoop rt epc m (shuffleDims l l.DimensionNames (shardRand rt l id)).1 l shard
        (shuffleDims l l.DimensionNames (shardRand rt l id)).2 := by
    unfold SimpleShuffleShard GetDimensionNames
    rw [hnew]
    simp only [hdim, if_false]
    rw [minDimension_eq hnodup hle hex hm]
  have hinv : List.Forall₂ (fun vs d => vs.Nodup ∧ m ≤ vs.length ∧
      ∀ v ∈ vs, v ∈ GetDimensionValues l d)
      (shuffleDims l l.DimensionNames (shardRand rt l id)).1 l.DimensionNames := by
    refine forall₂_imp_mem (shuffleDims_perm l l.DimensionNames (shardRand rt l id)) ?_
    intro vs d hd hx
    refine ⟨hx.nodup_iff.2 (set_nodup _), ?_, fun v hv => hx.mem_iff.1 hv⟩
    rw [hx.length_eq]
    exact hle d hd
  obtain ⟨s, used, r1, r2, r3, r4, r5, r6⟩ := multiDimLoop_spec rt epc hepc l hne hsep
    (fun sec hsec => ⟨hb.cell_nodup _, hfull sec hsec⟩) m
    (shuffleDims l l.DimensionNames (shardRand rt l id)).1 l shard
    (shuffleDims l l.DimensionNames (shardRand rt l id)).2 [] (ShuffledOf.refl l) hsn hinv
    (by rw [hn.2.2.2]; rfl) (by simp) List.Pairwise.nil
    (by
      intro k hk
      rw [hn.2.2.2] at hk
      simp [mapKeys] at hk)
  have hfree : ∀ sec ∈ used, ∀ v ∈ sec, stringsSplit v seperator = [v] := fun sec hsec =>
    forall₂_mem_left (P := fun v => stringsSplit v seperator = [v])
      (fun a b hb hab => hsep b hb a hab) (fun b hb => hb) (r4 sec hsec)
  have hsecne : ∀ sec ∈ used, sec ≠ [] := by
    intro sec hsec hc
    have := (r4 sec hsec).length_eq
    rw [hc] at this
    exact hne (List.length_eq_zero.1 this.symm)
  have hkn : (mapKeys s.EndpointsByCoordinate).Nodup := by
    rw [r2]
    refine List.Nodup.map_on ?_ ?_
    · intro a ha b hb hab
      exact stringsJoin_injective (hsecne a ha) (hsecne b hb) (hfree a ha) (hfree b hb) hab
    · refine r5.imp_of_mem ?_
      intro a b ha _ hab hc
      rw [hc] at hab
      exact hsecne b (hc ▸ ha) (forall₂_ne_irrefl hab)
  have hcoords : (GetAllCoordinates s).Perm used := by
    unfold GetAllCoordinates
    refine ((set_perm_of_nodup hkn).map _).trans ?_
    rw [r2, List.map_map]
    have : used.map ((fun k => stringsSplit k seperator) ∘ fun sec => stringsJoin sec seperator) =
        used.map (fun sec => sec) :=
      List.map_congr_left (fun sec hsec => by
        simp only [Function.comp]
        exact stringsSplit_stringsJoin (hsecne sec hsec) (hfree sec hsec))
    rw [this]
    simp
  refine ⟨s, by rw [hrun]; exact r1, ?_, ?_, ?_⟩
  · rw [hcoords.length_eq, r3]
    simp
  · exact coordinates_of_cells (P := fun es => (es.length : Int) = epc) r6
  · exact (hcoords.pairwise_iff (fun {a b} h => forall₂_ne_symm h)).2 r5

theorem gridLattice_built : Built sampleRuntime gridLattice :=
  Built.add _ _ ["y", "2"] ["g", "h"]
    (Built.add _ _ ["y", "1"] ["e", "f"]
      (Built.add _ _ ["x", "2"] ["c", "d"]
        (Built.add _ _ ["x", "1"] ["a", "b"]
          (Built.new 1 ["az", "version"] ⟨1, ["az", "version"], [("az", []), ("version", [])], []⟩ (by decide!))
          (by rfl)) (by rfl)) (by rfl)) (by rfl)

theorem clashLattice_built : Built sampleRuntime clashLattice :=
  Built.add _ _ [clashAz, "r"] ["g", "h"]
    (Built.add _ _ [clashAz, clashVersion] ["e", "f"]
      (Built.add _ _ ["p", "r"] ["c", "d"]
        (Built.add _ _ ["p", clashVersion] ["a", "b"]
          (Built.new 1 ["az", "version"] ⟨1, ["az", "version"], [("az", []), ("version", [])], []⟩ (by decide!))
          (by rfl)) (by rfl)) (by rfl)) (by rfl)

/-- The sectors over the recorded values of a lattice of two dimensions are the
pairs of a value of the first and a value of the second dimension. -/
theorem forall₂_two {l : Lattice} {d₁ d₂ : String} {P : List String → Prop}
    (h : ∀ v ∈ GetDimensionValues l d₁, ∀ w ∈ GetDimensionValues l d₂, P [v, w])
    (sec : List String)
    (hsec : List.Forall₂ (fun v d => v ∈ GetDimensionValues l d) sec [d₁, d₂]) : P sec := by
  cases hsec with
  | cons hv ht =>
    cases ht with
    | cons hw hn =>
      cases hn
      exact h _ hv _ hw

theorem gridLattice_full (sec : List String)
    (hsec : List.Forall₂ (fun v d => v ∈ GetDimensionValues gridLattice d) sec
      gridLattice.DimensionNames) : (2 : Int) ≤ ((gridLattice.endpointsAt sec).length : Int) :=
  forall₂_two (P := fun sec => (2 : Int) ≤ ((gridLattice.endpointsAt sec).length : Int))
    (by decide!) sec hsec

theorem clashLattice_full (sec : List String)
    (hsec : List.Forall₂ (fun v d => v ∈ GetDimensionValues clashLattice d) sec
      clashLattice.DimensionNames) : (2 : Int) ≤ ((clashLattice.endpointsAt sec).length : Int) :=
  forall₂_two (P := fun sec => (2 : Int) ≤ ((clashLattice.endpointsAt sec).length : Int))
    (by decide!) sec hsec

/-- C8 (the code at the counterexample): `clashLattice` is built by the package,
has two dimensions of two values each, and every combination of its values is a
cell of at least two endpoints; `SimpleShuffleShard` with `epc = 2` returns a shard
of one coordinate, of three components, that holds three endpoints. -/
theorem multi_dimension_shape_fails_on_separator :
    Built sampleRuntime clashLattice ∧
      2 ≤ clashLattice.DimensionNames.length ∧
      (∀ sec, List.Forall₂ (fun v d => v ∈ GetDimensionValues clashLattice d) sec
          clashLattice.DimensionNames →
        (2 : Int) ≤ ((clashLattice.endpointsAt sec).length : Int)) ∧
      (∀ d ∈ clashLattice.DimensionNames, GetDimensionSize clashLattice d = 2) ∧
      (SimpleShuffleShard sampleRuntime clashLattice [0] 2).1 = .ok clashShard ∧
      GetAllCoordinates clashShard = [["p", "q", "r"]] ∧
      clashShard.endpointsAt ["p", "q", "r"] = ["b", "g", "h"] :=
  ⟨clashLattice_built, by decide, clashLattice_full, by decide!, by rfl, by rfl, by rfl⟩

/-- C8 (amended): on a lattice built by the package with at least two dimensions,
none of whose recorded values contains the separator, in which every combination
of recorded values is a cell of at least `epc >= 1` endpoints, and whose smallest
dimension has `m < 2^63` values, `SimpleShuffleShard(id, epc)` succeeds for every
identifier and returns exactly `m` coordinates; each of them holds exactly `epc`
endpoints and any two of them differ in every dimension. -/
theorem simple_shard_multi_dimension_shape (rt : Runtime) (l : Lattice) (id : List Nat)
    (epc : Int) (m : Nat) (hb : Built rt l) (hD : 2 ≤ l.DimensionNames.length)
    (hepc : 1 ≤ epc)
    (hsep : ∀ d ∈ l.DimensionNames, ∀ v ∈ GetDimensionValues l d,
      stringsSplit v seperator = [v])
    (hfull : ∀ sec, List.Forall₂ (fun v d => v ∈ GetDimensionValues l d) sec l.DimensionNames →
      epc ≤ ((l.endpointsAt sec).length : Int))
    (hle : ∀ d ∈ l.DimensionNames, m ≤ GetDimensionSize l d)
    (hex : ∃ d ∈ l.DimensionNames, GetDimensionSize l d = m) (hm : m < 2 ^ 63) :
    ∃ s, (SimpleShuffleShard rt l id epc).1 = .ok s ∧
      (GetAllCoordinates s).length = m ∧
      (∀ c ∈ GetAllCoordinates s, ((s.endpointsAt c).length : Int) = epc) ∧
      (GetAllCoordinates s).Pairwise (List.Forall₂ (fun a b => a ≠ b)) :=
  SimpleShuffleShard_multi_dim rt id hb hD hepc hsep hfull hle hex hm

theorem simple_shard_multi_dimension_shape_witness :
    2 ≤ gridLattice.DimensionNames.length ∧ (1 : Int) ≤ 2 ∧
      (∀ d ∈ gridLattice.DimensionNames, ∀ v ∈ GetDimensionValues gridLattice d,
        stringsSplit v seperator = [v]) ∧
      (∀ sec, List.Forall₂ (fun v d => v ∈ GetDimensionValues gridLattice d) sec
          gridLattice.DimensionNames →
        (2 : Int) ≤ ((gridLattice.endpointsAt sec).length : Int)) ∧
      (∀ d ∈ gridLattice.DimensionNames, 2 ≤ GetDimensionSize gridLattice d) ∧
      (∃ d ∈ gridLattice.DimensionNames, GetDimensionSize gridLattice d = 2) ∧
      ∃ s, (SimpleShuffleShard sampleRuntime gridLattice [0] 2).1 = .ok s ∧
        (GetAllCoordinates s).length = 2 ∧
        (∀ c ∈ GetAllCoordinates s, ((s.endpointsAt c).length : Int) = 2) ∧
        (GetAllCoordinates s).Pairwise (List.Forall₂ (fun a b => a ≠ b)) :=
  ⟨by decide, by decide, by decide!, gridLattice_full, by decide!, by decide!,
    simple_shard_multi_dimension_shape sampleRuntime gridLattice [0] 2 2 gridLattice_built
      (by decide) (by decide) (by decide!) gridLattice_full (by decide!) (by decide!)
      (by decide)⟩

/-! ## The values that `AddEndpointsForSector` records -/

theorem addValues_get_of_not_mem {d : String} :
    ∀ (ds vs : List String) (m : List (String × List String)), d ∉ ds →
      mapGet (addValues ds vs m) d = mapGet m d
  | [], _, _, _ => by simp [addValues]
  | _ :: _, [], _, _ => by simp [addValues]
  | d₀ :: ds, v :: vs, m, h => by
    have hne : d ≠ d₀ := fun hc => h (hc ▸ List.mem_cons_self _ _)
    have hds : d ∉ ds := fun hc => h (List.mem_cons_of_mem _ hc)
    simp only [addValues]
    rw [addValues_get_of_not_mem ds vs _ hds, mapGet_mapSet_ne _ hne]

/-- On distinct dimension names, the loop at the end of `AddEndpointsForSector`
adds the value at position `i` of the sector to the values of the name at
position `i`. -/
theorem addValues_get {d v : String} :
    ∀ (ds vs : List String) (m : List (String × List String)) (i : Nat), ds.Nodup →
      ds[i]? = some d → vs[i]? = some v →
      mapGet (addValues ds vs m) d = some (set ((mapGet m d).getD [] ++ [v]))
  | [], _, _, i, _, hd, _ => by simp at hd
  | _ :: _, [], _, i, _, _, hv => by simp at hv
  | d₀ :: ds, v₀ :: vs, m, 0, hn, hd, hv => by
    simp only [List.getElem?_cons_zero, Option.some.injEq] at hd hv
    subst hd
    subst hv
    simp only [addValues]
    rw [addValues_get_of_not_mem ds vs _ (List.nodup_cons.1 hn).1, mapGet_mapSet_self]
  | d₀ :: ds, v₀ :: vs, m, i + 1, hn, hd, hv => by
    simp only [List.getElem?_cons_succ] at hd hv
    have hmem : d ∈ ds := List.getElem?_mem hd
    have hne : d ≠ d₀ := fun hc => (List.nodup_cons.1 hn).1 (hc ▸ hmem)
    simp only [addValues]
    rw [addValues_get ds vs _ i (List.nodup_cons.1 hn).2 hd hv, mapGet_mapSet_ne _ hne]

theorem GetDimensionValues_add {rt : Runtime} {l : Lattice} {sec ep : List String} {i : Nat}
    {d v : String} (hn : l.DimensionNames.Nodup) (hlen : sec.length = l.DimensionNames.length)
    (hd : l.DimensionNames[i]? = some d) (hv : sec[i]? = some v) :
    ∀ x, x ∈ GetDimensionValues (addIgnoringError rt l sec ep) d ↔
      x ∈ GetDimensionValues l d ∨ x = v := by
  intro x
  unfold GetDimensionValues
  rw [addIgnoringError_eq rt l sec ep hlen]
  simp only
  rw [addValues_get _ _ _ i hn hd hv]
  simp [mem_set]

theorem GetDimensionValues_sorted (l : Lattice) (d : String) :
    (GetDimensionValues l d).Sorted strLe ∧ (GetDimensionValues l d).Nodup :=
  ⟨set_sorted _, set_nodup _⟩

/-! ## Lattices that mirror a list of sectors -/

theorem foldl_mapSet_nil_values :
    ∀ (names : List String) (m : List (String × List String)),
      (∀ kv ∈ m, kv.2 = []) →
      ∀ kv ∈ names.foldl (fun m d => mapSet m d []) m, kv.2 = []
  | [], _, h => h
  | d :: names, m, h => by
    rw [List.foldl_cons]
    apply foldl_mapSet_nil_values names
    intro kv hkv
    obtain ⟨k, c⟩ := kv
    rcases mem_mapSet m hkv with ⟨_, hc⟩ | hmem
    · exact hc
    · exact h _ hmem

theorem NewLattice_values {rt : Runtime} {dims : List String} {l : Lattice}
    (h : NewLattice rt dims = .ok l) (d : String) : GetDimensionValues l d = [] := by
  unfold GetDimensionValues
  have hv := NewLatticeWithSeed_values h
  cases hg : mapGet l.ValuesByDimension d with
  | none => simp [set_nil]
  | some xs =>
    have hmem := mapGet_mem _ hg
    rw [hv] at hmem
    have := foldl_mapSet_nil_values _ [] (by simp) _ hmem
    simp only at this
    subst this
    simp [set_nil]

theorem Mirrors_new {rt : Runtime} {dims : List String} {l : Lattice}
    (h : NewLattice rt dims = .ok l) : Mirrors l [] := by
  obtain ⟨h1, h2, h3⟩ := NewLattice_ok h
  refine ⟨?_, ?_, by simp, ?_, ?_⟩
  · rw [h2]
    obtain ⟨x, xs, rfl⟩ : ∃ x xs, dims = x :: xs := by
      cases dims with
      | nil => exact absurd rfl h1
      | cons x xs => exact ⟨x, xs, rfl⟩
    intro hc
    have : x ∈ set (sortStrings (x :: xs)) := by
      rw [mem_set, mem_sortStrings]
      exact List.mem_cons_self _ _
    rw [hc] at this
    simp at this
  · rw [h2]
    exact set_nodup _
  · intro k
    rw [h3]
    simp [mapKeys]
  · intro i d _ v
    rw [NewLattice_values h]
    simp

theorem Mirrors_add {rt : Runtime} {l : Lattice} {secs : List (List String)}
    {sec : List String} (ep : List String) (h : Mirrors l secs) (hf : SeparatorFree sec)
    (hlen : sec.length = l.DimensionNames.length) :
    Mirrors (addIgnoringError rt l sec ep) (sec :: secs) := by
  obtain ⟨h1, h2, h3, h4, h5⟩ := h
  refine ⟨?_, ?_, ?_, ?_, ?_⟩
  · rw [addIgnoringError_names]
    exact h1
  · rw [addIgnoringError_names]
    exact h2
  · intro s hs
    rw [addIgnoringError_names]
    rcases List.mem_cons.1 hs with hs | hs
    · subst hs
      exact ⟨hlen, hf⟩
    · exact h3 s hs
  · intro k
    rw [addIgnoringError_eq rt l sec ep hlen]
    simp only
    rw [mem_mapKeys_mapSet, h4]
    constructor
    · rintro (hk | ⟨s, hs, hk⟩)
      · exact ⟨sec, List.mem_cons_self _ _, hk.symm⟩
      · exact ⟨s, List.mem_cons_of_mem _ hs, hk⟩
    · rintro ⟨s, hs, hk⟩
      rcases List.mem_cons.1 hs with hs | hs
      · subst hs
        exact Or.inl hk.symm
      · exact Or.inr ⟨s, hs, hk⟩
  · intro i d hd v
    rw [addIgnoringError_names] at hd
    have hi : i < sec.length := by
      rw [hlen]
      exact (List.getElem?_eq_some_iff.1 hd).1
    have hv : sec[i]? = some sec[i] := List.getElem?_eq_getElem hi
    rw [GetDimensionValues_add h2 hlen hd hv, h5 i d hd]
    constructor
    · rintro (⟨s, hs, hsv⟩ | hx)
      · exact ⟨s, List.mem_cons_of_mem _ hs, hsv⟩
      · exact ⟨sec, List.mem_cons_self _ _, by rw [hv, hx]⟩
    · rintro ⟨s, hs, hsv⟩
      rcases List.mem_cons.1 hs with hs | hs
      · subst hs
        rw [hv] at hsv
        exact Or.inr (Option.some.inj hsv).symm
      · exact Or.inl ⟨s, hs, hsv⟩

theorem Mirrors.sec_ne_nil {l : Lattice} {secs : List (List String)} (h : Mirrors l secs)
    {sec : List String} (hs : sec ∈ secs) : sec ≠ [] := by
  intro hc
  have := (h.2.2.1 sec hs).1
  rw [hc] at this
  exact h.1 (List.length_eq_zero.1 this.symm)

/-- The coordinates of a lattice that mirrors `secs` are the sectors `secs`. -/
theorem Mirrors.coordinates {l : Lattice} {secs : List (List String)} (h : Mirrors l secs)
    (c : List String) : c ∈ GetAllCoordinates l ↔ c ∈ secs := by
  rw [mem_GetAllCoordinates]
  constructor
  · rintro ⟨k, hk, rfl⟩
    obtain ⟨sec, hs, rfl⟩ := (h.2.2.2.1 k).1 hk
    rw [stringsSplit_stringsJoin (h.sec_ne_nil hs) (h.2.2.1 sec hs).2]
    exact hs
  · intro hc
    exact ⟨stringsJoin c seperator, (h.2.2.2.1 _).2 ⟨c, hc, rfl⟩,
      (stringsSplit_stringsJoin (h.sec_ne_nil hc) (h.2.2.1 c hc).2).symm⟩

theorem Mirrors.values {l : Lattice} {secs : List (List String)} (h : Mirrors l secs)
    {i : Nat} {d : String} (hd : l.DimensionNames[i]? = some d) (v : String) :
    v ∈ GetDimensionValues l d ↔ ∃ s ∈ GetAllCoordinates l, s[i]? = some v := by
  rw [h.2.2.2.2 i d hd]
  constructor
  · rintro ⟨s, hs, hv⟩
    exact ⟨s, (h.coordinates s).2 hs, hv⟩
  · rintro ⟨s, hs, hv⟩
    exact ⟨s, (h.coordinates s).1 hs, hv⟩

theorem addAll_mirrors (rt : Runtime) :
    ∀ (calls : List (List String × List String)) (l res : Lattice) (secs : List (List String)),
      Mirrors l secs → (∀ call ∈ calls, SeparatorFree call.1) → addAll rt l calls = .ok res →
      Mirrors res ((calls.map Prod.fst).reverse ++ secs)
  | [], l, res, secs, h, _, hres => by
    simp only [addAll, Outcome.ok.injEq] at hres
    subst hres
    simpa using h
  | (sec, ep) :: calls, l, res, secs, h, hf, hres => by
    simp only [addAll] at hres
    cases hadd : AddEndpointsForSector rt l sec ep with
    | error e => rw [hadd] at hres; simp at hres
    | panic => rw [hadd] at hres; simp at hres
    | ok l' =>
      rw [hadd] at hres
      simp only at hres
      have hm : Mirrors l' (sec :: secs) := by
        rw [AddEndpointsForSector_ok_eq hadd]
        exact Mirrors_add ep h (hf _ (List.mem_cons_self _ _))
          (AddEndpointsForSector_ok_length hadd)
      have := addAll_mirrors rt calls l' res (sec :: secs) hm
        (fun c hc => hf c (List.mem_cons_of_mem _ hc)) hres
      simpa using this

theorem failureLoop_mirrors (rt : Runtime) (l : Lattice) (dIdx : Nat) (dVal : String)
    {secs : List (List String)} (hl : Mirrors l secs) :
    ∀ (entries : List (String × Slice)) (sub res : Lattice) (subsecs : List (List String)),
      (∀ e ∈ entries, e.1 ∈ mapKeys l.EndpointsByCoordinate) →
      sub.DimensionNames.length = l.DimensionNames.length → Mirrors sub subsecs →
      failureLoop rt l dIdx dVal entries sub = some res → ∃ secs', Mirrors res secs'
  | [], sub, res, subsecs, _, _, hm, hres => by
    simp only [failureLoop, Option.some.injEq] at hres
    subst hres
    exact ⟨subsecs, hm⟩
  | (c, cell) :: rest, sub, res, subsecs, hkeys, hlen, hm, hres => by
    obtain ⟨sec, hs, hj⟩ := (hl.2.2.2.1 c).1 (hkeys (c, cell) (List.mem_cons_self _ _))
    have hsplit : stringsSplit c seperator = sec := by
      rw [← hj]
      exact stringsSplit_stringsJoin (hl.sec_ne_nil hs) (hl.2.2.1 sec hs).2
    simp only [failureLoop] at hres
    rw [hsplit] at hres
    cases hv : sec[dIdx]? with
    | none => rw [hv] at hres; simp at hres
    | some v =>
      rw [hv] at hres
      simp only at hres
      by_cases hne : v ≠ dVal
      · rw [if_pos hne] at hres
        refine failureLoop_mirrors rt l dIdx dVal hl rest _ res (sec :: subsecs)
          (fun e he => hkeys e (List.mem_cons_of_mem _ he)) ?_ ?_ hres
        · rw [addIgnoringError_names]
          exact hlen
        · exact Mirrors_add _ hm (hl.2.2.1 sec hs).2 (by rw [hlen]; exact (hl.2.2.1 sec hs).1)
      · rw [if_neg hne] at hres
        exact failureLoop_mirrors rt l dIdx dVal hl rest sub res subsecs
          (fun e he => hkeys e (List.mem_cons_of_mem _ he)) hlen hm hres

theorem SimulateFailure_mirrors {rt : Runtime} {l sub : Lattice} {dName dVal : String}
    {secs : List (List String)} (hl : Mirrors l secs)
    (h : SimulateFailure rt l dName dVal = .ok sub) : ∃ secs', Mirrors sub secs' := by
  unfold SimulateFailure at h
  cases hnew : NewLattice rt l.DimensionNames with
  | error e => rw [hnew] at h; simp at h
  | panic => rw [hnew] at h; simp at h
  | ok fresh =>
    rw [hnew] at h
    simp only at h
    split at h
    · simp at h
    · cases hloop : failureLoop rt l (indexOf l.DimensionNames dName).toNat dVal
          l.EndpointsByCoordinate fresh with
      | none => rw [hloop] at h; simp at h
      | some res =>
        rw [hloop] at h
        simp only [Outcome.ok.injEq] at h
        subst h
        refine failureLoop_mirrors rt l _ dVal hl _ fresh res [] ?_ ?_ (Mirrors_new hnew) hloop
        · intro e he
          exact List.mem_map.2 ⟨e, he, rfl⟩
        · rw [(NewLattice_ok hnew).2.1, set_length_of_nodup
            ((sortStrings_perm _).nodup_iff.2 hl.2.1), (sortStrings_perm _).length_eq]

theorem Reachable.mirrors {rt : Runtime} {l : Lattice} (h : Reachable rt SeparatorFree l) :
    ∃ secs, Mirrors l secs := by
  induction h with
  | new dims l hnew => exact ⟨[], Mirrors_new hnew⟩
  | add l l' sec ep _ hf hadd ih =>
    obtain ⟨secs, hm⟩ := ih
    refine ⟨sec :: secs, ?_⟩
    rw [AddEndpointsForSector_ok_eq hadd]
    exact Mirrors_add ep hm hf (AddEndpointsForSector_ok_length hadd)
  | fail l l' dName dVal _ hfail ih =>
    obtain ⟨secs, hm⟩ := ih
    exact SimulateFailure_mirrors hm hfail

/-! ## The sharders and the number of endpoints per cell -/

theorem emptyCellLattice_built :
    (match NewLattice sampleRuntime ["dimX"] with
      | .ok l => AddEndpointsForSector sampleRuntime l ["x"] []
      | o => o) = .ok emptyCellLattice := by decide!

set_option maxRecDepth 100000 in
/-- C11 (the code at the failing input): on the one-dimensional lattice whose cell
`x` holds no endpoints, `SimpleShuffleShard` with `epc = 1` panics at `eps[:epc]`
and does not return the error `shard: no endpoints available`; on a lattice of two
dimensions whose cell `(x, 1)` holds no endpoints it returns that error. -/
theorem simple_shard_panics_on_empty_cell :
    GetEndpointsForSector emptyCellLattice ["x"] = .ok [] ∧
      (SimpleShuffleShard sampleRuntime emptyCellLattice [4] 1).1 = .panic ∧
      (SimpleShuffleShard sampleRuntime
        (addIgnoringError sampleRuntime twoDimLattice ["x", "1"] []) [4] 1).1 =
        .error "shard: no endpoints available" :=
  ⟨by rfl, by rfl, by rfl⟩

/-- Every cell of the lattice is empty. -/
theorem add_nothing_keeps_empty {rt : Runtime} {shard shard' : Lattice} {sec : List String}
    (hs : ∀ kv ∈ shard.EndpointsByCoordinate, kv.2.elems = [])
    (h : AddEndpointsForSector rt shard sec [] = .ok shard') :
    ∀ kv ∈ shard'.EndpointsByCoordinate, kv.2.elems = [] := by
  intro kv hkv
  rw [AddEndpointsForSector_ok_eq h,
    addIgnoringError_eq rt shard sec [] (AddEndpointsForSector_ok_length h)] at hkv
  simp only at hkv
  obtain ⟨k, c⟩ := kv
  rcases mem_mapSet _ hkv with ⟨_, hc⟩ | hmem
  · subst hc
    have hcell : (shard.cell (stringsJoin sec seperator)).elems = [] := by
      unfold Lattice.cell
      cases hg : mapGet shard.EndpointsByCoordinate (stringsJoin sec seperator) with
      | none => rfl
      | some e => exact hs _ (mapGet_mem _ hg)
    simp [setSlice, hcell, set_nil]
  · exact hs _ hmem

theorem addIgnoring_nothing_keeps_empty {rt : Runtime} {shard : Lattice} {sec : List String}
    (hs : ∀ kv ∈ shard.EndpointsByCoordinate, kv.2.elems = []) :
    ∀ kv ∈ (addIgnoringError rt shard sec []).EndpointsByCoordinate, kv.2.elems = [] := by
  unfold addIgnoringError
  cases h : AddEndpointsForSector rt shard sec [] with
  | ok l' => exact add_nothing_keeps_empty hs h
  | error e => exact hs
  | panic => exact hs

theorem upTo_nonpos {s : Slice} {epc : Int} {ep : List String} (hepc : epc ≤ 0)
    (h : s.upTo epc = some ep) : ep = [] := by
  unfold Slice.upTo at h
  split at h
  · simp at h
  · rename_i hc
    have h0 : epc = 0 := by
      have : ¬ epc < 0 := fun hlt => hc (Or.inl hlt)
      omega
    subst h0
    simpa using h.symm

theorem oneDimLoop_nonpos (rt : Runtime) {epc : Int} (hepc : epc ≤ 0) :
    ∀ (vals : List String) (l shard : Lattice) (r : Rand) (s : Lattice),
      (∀ kv ∈ shard.EndpointsByCoordinate, kv.2.elems = []) →
      (oneDimLoop rt epc vals l shard r).1 = .ok s →
      ∀ kv ∈ s.EndpointsByCoordinate, kv.2.elems = []
  | [], l, shard, r, s, hs, h => by
    simp only [oneDimLoop, Outcome.ok.injEq] at h
    subst h
    exact hs
  | dimVal :: rest, l, shard, r, s, hs, h => by
    unfold oneDimLoop at h
    cases hget : GetEndpointsForSector l [dimVal] with
    | error e => rw [hget] at h; simp at h
    | panic => rw [hget] at h; simp at h
    | ok eps =>
      rw [hget] at h
      simp only at h
      cases hup : ((shuffleCell l (stringsJoin [dimVal] seperator) r).1.cell
          (stringsJoin [dimVal] seperator)).upTo epc with
      | none => rw [hup] at h; simp at h
      | some ep =>
        rw [hup] at h
        simp only at h
        have hnil := upTo_nonpos hepc hup
        subst hnil
        cases hadd : AddEndpointsForSector rt shard [dimVal] [] with
        | error e => rw [hadd] at h; simp at h
        | panic => rw [hadd] at h; simp at h
        | ok shard' =>
          rw [hadd] at h
          simp only at h
          exact oneDimLoop_nonpos rt hepc rest _ shard' _ s (add_nothing_keeps_empty hs hadd) h

theorem multiDimLoop_nonpos (rt : Runtime) {epc : Int} (hepc : epc ≤ 0) :
    ∀ (n : Nat) (shuffled : List (List String)) (l shard : Lattice) (r : Rand) (s : Lattice),
      (∀ kv ∈ shard.EndpointsByCoordinate, kv.2.elems = []) →
      (multiDimLoop rt epc n shuffled l shard r).1 = .ok s →
      ∀ kv ∈ s.EndpointsByCoordinate, kv.2.elems = []
  | 0, shuffled, l, shard, r, s, hs, h => by
    simp only [multiDimLoop, Outcome.ok.injEq] at h
    subst h
    exact hs
  | n + 1, shuffled, l, shard, r, s, hs, h => by
    unfold multiDimLoop at h
    cases hp : popHeads shuffled with
    | none => rw [hp] at h; simp at h
    | some ct =>
      obtain ⟨coords, tails⟩ := ct
      rw [hp] at h
      simp only at h
      cases hget : GetEndpointsForSector l coords with
      | error e => rw [hget] at h; simp at h
      | panic => rw [hget] at h; simp at h
      | ok eps =>
        rw [hget] at h
        simp only at h
        split at h
        · simp at h
        · cases hup : ((shuffleCell l (stringsJoin coords seperator) r).1.cell
              (stringsJoin coords seperator)).upTo epc with
          | none => rw [hup] at h; simp at h
          | some ep =>
            rw [hup] at h
            simp only at h
            have hnil := upTo_nonpos hepc hup
            subst hnil
            exact multiDimLoop_nonpos rt hepc n tails _ _ _ s
              (addIgnoring_nothing_keeps_empty hs) h

theorem SimpleShuffleShard_nonpos (rt : Runtime) (l : Lattice) (id : List Nat) {epc : Int}
    (hepc : epc ≤ 0) {s : Lattice} (h : (SimpleShuffleShard rt l id epc).1 = .ok s) :
    GetAllEndpoints s = [] := by
  have hcells : ∀ kv ∈ s.EndpointsByCoordinate, kv.2.elems = [] := by
    unfold SimpleShuffleShard at h
    cases hnew : NewLatticeWithSeed l.Seed (GetDimensionNames l) with
    | error e => rw [hnew] at h; simp at h
    | panic => rw [hnew] at h; simp at h
    | ok shard =>
      rw [hnew] at h
      simp only at h
      have h0 : ∀ kv ∈ shard.EndpointsByCoordinate, kv.2.elems = [] := by
        rw [(NewLatticeWithSeed_ok hnew).2.2.2]
        simp
      split at h
      · split at h
        · simp at h
        · exact oneDimLoop_nonpos rt hepc _ _ _ _ s h0 h
      · exact multiDimLoop_nonpos rt hepc _ _ _ _ _ s h0 h
  unfold GetAllEndpoints
  have : s.EndpointsByCoordinate.flatMap (fun kv => kv.2.elems) = [] := by
    rw [List.flatMap_eq_nil_iff]
    exact hcells
  rw [this, set_nil]

/-- Every cell of a result of the search holds an endpoint. -/
theorem Search_nonempty {rt : Runtime} {shard : StatefulSharder} {epc k : Int}
    {lattice res : Lattice} (h : Search rt shard epc k lattice res) :
    ∀ key ∈ mapKeys res.EndpointsByCoordinate, (res.cell key).elems ≠ [] := by
  induction h with
  | empty lattice res hnew =>
    intro key hkey
    rw [(NewLattice_ok hnew).2.2] at hkey
    simp [mapKeys] at hkey
  | pick lattice l₁ l₂ compliment compliment₁ picked key₀ coordinate fragment _ _ _ _ _ _ _
      hfrag _ _ _ _ ih =>
    intro key hkey
    by_cases hlen : coordinate.length = picked.DimensionNames.length
    · by_cases hk : key = stringsJoin coordinate seperator
      · subst hk
        rw [addIgnoringError_cell_self rt picked coordinate fragment hlen]
        obtain ⟨x, xs, hx⟩ : ∃ x xs, fragment = x :: xs := by
          cases hf : fragment with
          | nil => exact absurd hf (Combinations_ne_nil hfrag)
          | cons x xs => exact ⟨x, xs, rfl⟩
        intro hc
        have : x ∈ set (fragment ++ (picked.cell (stringsJoin coordinate seperator)).elems) := by
          rw [mem_set, hx]
          simp
        rw [hc] at this
        simp at this
      · rw [addIgnoringError_cell_ne rt picked coordinate fragment hk]
        rcases addIgnoringError_keys rt picked coordinate fragment hkey with h | h
        · exact absurd h hk
        · exact ih key h
    · rw [addIgnoringError_of_ne rt picked coordinate fragment hlen] at hkey ⊢
      exact ih key hkey

set_option maxRecDepth 100000 in
/-- C12 (counterexample): with `epc = 0` both sharders return a shard and no
error: `SimpleShuffleShard` a shard whose cell is empty, `StatefulShuffleShard` a
shard with one endpoint in each cell. -/
theorem sharders_accept_zero_endpoints_per_cell :
    (SimpleShuffleShard sampleRuntime cellLattice [4] 0).1 = .ok (cellShard []) ∧
      (StatefulShuffleShard sampleRuntime NewStatefulSharder sampleRand azLattice 0 1).map
        Prod.fst = some (.ok azSingles) :=
  ⟨by rfl, by rfl⟩

/-- C12 (amended): neither sharder rejects `epc <= 0`.  Every shard that
`SimpleShuffleShard` returns with `epc <= 0` has no endpoints, and every cell of a
shard that `StatefulShuffleShard` returns with `epc <= 0` holds a non-empty part of
the endpoints of the lattice at that cell. -/
theorem sharders_with_nonpositive_endpoints_per_cell (rt : Runtime) (l : Lattice)
    (id : List Nat) (shard : StatefulSharder) (g : Rand) (epc k : Int) (hepc : epc ≤ 0) :
    (∀ s, (SimpleShuffleShard rt l id epc).1 = .ok s → GetAllEndpoints s = []) ∧
      ∀ s, (StatefulShuffleShard rt shard g l epc k).map Prod.fst = some (.ok s) →
        ∀ c ∈ GetAllCoordinates s,
          s.endpointsAt c ≠ [] ∧ ∀ e ∈ s.endpointsAt c, e ∈ l.endpointsAt c := by
  refine ⟨fun s h => SimpleShuffleShard_nonpos rt l id hepc h, ?_⟩
  intro s h c hc
  obtain ⟨shard', l', g', h'⟩ := StatefulShuffleShard_of_map h
  have hsearch := (StatefulShuffleShard_ok h').1
  obtain ⟨key, hkey, rfl⟩ := mem_GetAllCoordinates.1 hc
  unfold Lattice.endpointsAt
  rw [stringsJoin_stringsSplit]
  exact ⟨Search_nonempty hsearch key hkey, (Search_local hsearch key hkey).2⟩

set_option maxRecDepth 100000 in
theorem sharders_with_nonpositive_endpoints_per_cell_witness :
    (0 : Int) ≤ 0 ∧
      (∀ s, (SimpleShuffleShard sampleRuntime azLattice [4] 0).1 = .ok s →
        GetAllEndpoints s = []) ∧
      ∀ s, (StatefulShuffleShard sampleRuntime NewStatefulSharder sampleRand azLattice 0 1).map
          Prod.fst = some (.ok s) →
        ∀ c ∈ GetAllCoordinates s,
          s.endpointsAt c ≠ [] ∧ ∀ e ∈ s.endpointsAt c, e ∈ azLattice.endpointsAt c :=
  ⟨by decide, sharders_with_nonpositive_endpoints_per_cell sampleRuntime azLattice [4]
    NewStatefulSharder sampleRand 0 1 (by decide)⟩

/-! ## `NewLattice` and `AddEndpointsForSector` -/

/-- C13: `NewLattice(dims)` returns an error exactly when `dims` is empty; otherwise
it returns a lattice without cells whose `GetDimensionNames()` is sorted, free of
duplicates and holds exactly the names of `dims`. -/
theorem NewLattice_names_sorted_distinct (rt : Runtime) (dims : List String) :
    ((∃ e, NewLattice rt dims = .error e) ↔ dims = []) ∧
      (dims = [] ∨ ∃ l, NewLattice rt dims = .ok l ∧ GetAllCoordinates l = [] ∧
        (GetDimensionNames l).Sorted strLe ∧ (GetDimensionNames l).Nodup ∧
        ∀ d, d ∈ GetDimensionNames l ↔ d ∈ dims) := by
  constructor
  · constructor
    · rintro ⟨e, he⟩
      by_contra hne
      obtain ⟨l, hl⟩ := NewLatticeWithSeed_of_ne_nil rt.seed hne
      unfold NewLattice at he
      rw [hl] at he
      simp at he
    · rintro rfl
      exact ⟨_, rfl⟩
  · by_cases hne : dims = []
    · exact Or.inl hne
    · right
      obtain ⟨l, hl⟩ := NewLatticeWithSeed_of_ne_nil rt.seed hne
      have hok : NewLattice rt dims = .ok l := hl
      obtain ⟨_, h2, h3⟩ := NewLattice_ok hok
      refine ⟨l, hok, GetAllCoordinates_of_nil h3, ?_, ?_, ?_⟩
      · unfold GetDimensionNames
        rw [h2]
        exact set_sorted _
      · unfold GetDimensionNames
        rw [h2]
        exact set_nodup _
      · intro d
        unfold GetDimensionNames
        rw [h2, mem_set, mem_sortStrings]

/-- C14: `AddEndpointsForSector(sec, ep)` returns an error exactly when the length
of `sec` differs from the number of dimension names; it never panics, and a call
that returns an error leaves the lattice as it was. -/
theorem add_rejects_only_wrong_length (rt : Runtime) (l : Lattice) (sec ep : List String) :
    ((∃ e, AddEndpointsForSector rt l sec ep = .error e) ↔
        sec.length ≠ l.DimensionNames.length) ∧
      AddEndpointsForSector rt l sec ep ≠ .panic ∧
      (sec.length = l.DimensionNames.length ∨ addIgnoringError rt l sec ep = l) := by
  by_cases hlen : sec.length = l.DimensionNames.length
  · rw [AddEndpointsForSector_eq rt l sec ep hlen]
    simp [hlen]
  · rw [AddEndpointsForSector_error rt l sec ep hlen]
    simp [hlen, addIgnoringError_of_ne rt l sec ep hlen]

/-- C15: on a lattice with distinct dimension names, a call of
`AddEndpointsForSector(sec, ep)` with a sector of matching length succeeds; after
it `GetEndpointsForSector(sec)` is the sorted list without duplicates of the
endpoints that were at `sec` and those of `ep`, and the values of the dimension at
every position `i` are the former ones and `sec[i]`. -/
theorem add_is_union (rt : Runtime) (l : Lattice) (sec ep : List String)
    (hn : l.DimensionNames.Nodup) (hlen : sec.length = l.DimensionNames.length) :
    ∃ l', AddEndpointsForSector rt l sec ep = .ok l' ∧
      (∃ es, GetEndpointsForSector l' sec = .ok es ∧ es.Sorted strLe ∧ es.Nodup ∧
        ∀ e, e ∈ es ↔ e ∈ l.endpointsAt sec ∨ e ∈ ep) ∧
      ∀ (i : Nat) (d v : String), GetDimensionName l i = .ok d → sec[i]? = some v →
        (GetDimensionValues l' d).Sorted strLe ∧ (GetDimensionValues l' d).Nodup ∧
        ∀ x, x ∈ GetDimensionValues l' d ↔ x ∈ GetDimensionValues l d ∨ x = v := by
  refine ⟨addIgnoringError rt l sec ep, ?_, ?_, ?_⟩
  · rw [AddEndpointsForSector_eq rt l sec ep hlen, addIgnoringError_eq rt l sec ep hlen]
  · refine ⟨_, ?_, set_sorted (ep ++ (l.cell (stringsJoin sec seperator)).elems),
      set_nodup _, ?_⟩
    · unfold GetEndpointsForSector
      rw [addIgnoringError_names, if_neg (by simpa using hlen),
        addIgnoringError_cell_self rt l sec ep hlen]
    · intro e
      rw [mem_set, List.mem_append]
      unfold Lattice.endpointsAt
      exact or_comm
  · intro i d v hd hv
    have hd' : l.DimensionNames[i]? = some d := by
      unfold GetDimensionName at hd
      cases hg : l.DimensionNames[i]? with
      | none => rw [hg] at hd; simp at hd
      | some d' =>
        rw [hg] at hd
        simp only [Outcome.ok.injEq] at hd
        rw [hd]
    exact ⟨(GetDimensionValues_sorted _ d).1, (GetDimensionValues_sorted _ d).2,
      GetDimensionValues_add hn hlen hd' hv⟩

theorem add_is_union_witness :
    cellLattice.DimensionNames.Nodup ∧
      ["x"].length = cellLattice.DimensionNames.length ∧
      ∃ l', AddEndpointsForSector sampleRuntime cellLattice ["x"] ["d", "b"] = .ok l' ∧
        (∃ es, GetEndpointsForSector l' ["x"] = .ok es ∧ es.Sorted strLe ∧ es.Nodup ∧
          ∀ e, e ∈ es ↔ e ∈ cellLattice.endpointsAt ["x"] ∨ e ∈ ["d", "b"]) ∧
        ∀ (i : Nat) (d v : String), GetDimensionName cellLattice i = .ok d →
          ["x"][i]? = some v →
          (GetDimensionValues l' d).Sorted strLe ∧ (GetDimensionValues l' d).Nodup ∧
          ∀ x, x ∈ GetDimensionValues l' d ↔ x ∈ GetDimensionValues cellLattice d ∨ x = v :=
  ⟨by decide, by decide,
    add_is_union sampleRuntime cellLattice ["x"] ["d", "b"] (by decide) (by decide)⟩

/-! ## Idempotence of `AddEndpointsForSector` -/

theorem mapSet_of_get {β : Type} {k : String} {v : β} :
    ∀ m : List (String × β), mapGet m k = some v → mapSet m k v = m
  | [], h => by simp [mapGet] at h
  | (k', v') :: m, h => by
    by_cases hk : k' = k
    · subst hk
      simp only [mapGet, if_true, Option.some.injEq] at h
      simp [mapSet, h]
    · simp only [mapGet, hk, if_false] at h
      simp only [mapSet, hk, if_false]
      rw [mapSet_of_get m h]

/-- The dimension `d` has a sorted list of distinct values that holds `v`. -/
theorem recorded_after_write (m : List (String × List String)) (d v : String) :
    ∃ xs, mapGet (mapSet m d (set ((mapGet m d).getD [] ++ [v]))) d = some xs ∧
      xs.Sorted strLe ∧ xs.Nodup ∧ v ∈ xs :=
  ⟨_, mapGet_mapSet_self _ _ _, set_sorted _, set_nodup _, by simp [mem_set]⟩

theorem recorded_kept_by_write {m : List (String × List String)} {d v : String}
    (d' v' : String)
    (h : ∃ xs, mapGet m d = some xs ∧ xs.Sorted strLe ∧ xs.Nodup ∧ v ∈ xs) :
    ∃ xs, mapGet (mapSet m d' (set ((mapGet m d').getD [] ++ [v']))) d = some xs ∧
      xs.Sorted strLe ∧ xs.Nodup ∧ v ∈ xs := by
  obtain ⟨xs, h1, h2, h3, h4⟩ := h
  by_cases hd : d = d'
  · subst hd
    refine ⟨_, mapGet_mapSet_self _ _ _, set_sorted _, set_nodup _, ?_⟩
    rw [h1]
    simp [mem_set, h4]
  · exact ⟨xs, by rw [mapGet_mapSet_ne _ hd]; exact h1, h2, h3, h4⟩

theorem recorded_kept_by_addValues {d v : String} :
    ∀ (ds vs : List String) (m : List (String × List String)),
      (∃ xs, mapGet m d = some xs ∧ xs.Sorted strLe ∧ xs.Nodup ∧ v ∈ xs) →
      ∃ xs, mapGet (addValues ds vs m) d = some xs ∧ xs.Sorted strLe ∧ xs.Nodup ∧ v ∈ xs
  | [], _, _, h => by simpa [addValues] using h
  | _ :: _, [], _, h => by simpa [addValues] using h
  | d' :: ds, v' :: vs, m, h => by
    simp only [addValues]
    exact recorded_kept_by_addValues ds vs _ (recorded_kept_by_write d' v' h)

theorem recorded_after_addValues :
    ∀ (ds vs : List String) (m : List (String × List String)),
      ∀ p ∈ ds.zip vs, ∃ xs, mapGet (addValues ds vs m) p.1 = some xs ∧
        xs.Sorted strLe ∧ xs.Nodup ∧ p.2 ∈ xs
  | [], _, _, p, hp => by simp at hp
  | _ :: _, [], _, p, hp => by simp at hp
  | d' :: ds, v' :: vs, m, p, hp => by
    simp only [List.zip_cons_cons, List.mem_cons] at hp
    simp only [addValues]
    rcases hp with hp | hp
    · subst hp
      exact recorded_kept_by_addValues ds vs _ (recorded_after_write m d' v')
    · exact recorded_after_addValues ds vs _ p hp

theorem addValues_of_recorded :
    ∀ (ds vs : List String) (m : List (String × List String)),
      (∀ p ∈ ds.zip vs, ∃ xs, mapGet m p.1 = some xs ∧ xs.Sorted strLe ∧ xs.Nodup ∧ p.2 ∈ xs) →
      addValues ds vs m = m
  | [], _, _, _ => by simp [addValues]
  | _ :: _, [], _, _ => by simp [addValues]
  | d :: ds, v :: vs, m, h => by
    obtain ⟨xs, h1, h2, h3, h4⟩ := h (d, v) (by simp)
    have hset : set ((mapGet m d).getD [] ++ [v]) = xs := by
      rw [h1]
      simp only [Option.getD_some]
      rw [set_ext (b := xs) (by intro x; simp; intro hx; rw [hx]; exact h4)]
      exact set_of_sorted_nodup h2 h3
    simp only [addValues]
    rw [hset, mapSet_of_get m h1]
    exact addValues_of_recorded ds vs m (fun p hp => h p (by simp [hp]))

theorem mapSet_mapSet_self {β : Type} (k : String) (v : β) :
    ∀ m : List (String × β), mapSet (mapSet m k v) k v = mapSet m k v :=
  fun m => mapSet_of_get _ (mapGet_mapSet_self k v m)

theorem add_twice (rt : Runtime) (l : Lattice) (sec ep : List String)
    (hlen : sec.length = l.DimensionNames.length) :
    addIgnoringError rt (addIgnoringError rt l sec ep) sec ep = addIgnoringError rt l sec ep := by
  have hlen' : sec.length = (addIgnoringError rt l sec ep).DimensionNames.length := by
    rw [addIgnoringError_names]
    exact hlen
  have hcell := addIgnoringError_cell_self rt l sec ep hlen
  rw [addIgnoringError_eq rt (addIgnoringError rt l sec ep) sec ep hlen', hcell]
  have hset : set (ep ++ set (ep ++ (l.cell (stringsJoin sec seperator)).elems)) =
      set (ep ++ (l.cell (stringsJoin sec seperator)).elems) := by
    apply set_ext
    intro x
    simp only [List.mem_append, mem_set]
    tauto
  have hslice : setSlice rt (ep ++ set (ep ++ (l.cell (stringsJoin sec seperator)).elems)) =
      setSlice rt (ep ++ (l.cell (stringsJoin sec seperator)).elems) := by
    unfold setSlice
    rw [hset]
  rw [hslice]
  rw [addIgnoringError_eq rt l sec ep hlen]
  simp only
  rw [mapSet_mapSet_self, addValues_of_recorded _ _ _ (recorded_after_addValues _ _ _)]

/-- Idempotence for an argument that shares no array with a cell of the lattice: a
second call of `AddEndpointsForSector` with the same sector and the same endpoints
leaves the lattice that the first call made: the same cells, endpoints and values. -/
theorem add_is_idempotent (rt : Runtime) (l : Lattice) (sec ep : List String)
    (hlen : sec.length = l.DimensionNames.length) :
    ∃ l', AddEndpointsForSector rt l sec ep = .ok l' ∧
      AddEndpointsForSector rt l' sec ep = .ok l' := by
  refine ⟨addIgnoringError rt l sec ep, ?_, ?_⟩
  · rw [AddEndpointsForSector_eq rt l sec ep hlen, addIgnoringError_eq rt l sec ep hlen]
  · have hlen' : sec.length = (addIgnoringError rt l sec ep).DimensionNames.length := by
      rw [addIgnoringError_names]
      exact hlen
    have h2 := add_twice rt l sec ep hlen
    rw [addIgnoringError_eq rt (addIgnoringError rt l sec ep) sec ep hlen'] at h2
    rw [AddEndpointsForSector_eq rt _ sec ep hlen', h2]

theorem add_is_idempotent_witness :
    ["x"].length = cellLattice.DimensionNames.length ∧
      ∃ l', AddEndpointsForSector sampleRuntime cellLattice ["x"] ["d", "b"] = .ok l' ∧
        AddEndpointsForSector sampleRuntime l' ["x"] ["d", "b"] = .ok l' :=
  ⟨by decide, add_is_idempotent sampleRuntime cellLattice ["x"] ["d", "b"] (by decide)⟩

/-- C17: two calls `AddEndpointsForSector(["y"], eps[:1])` on `cellLattice`, where
`eps` is the slice that `GetEndpointsForSector(["x"])` returned, do not leave the
lattice as one call does: the first call leaves `a, b, c` in the cell `x`, and the
second call, which finds the cell `y`, writes its endpoint into the array of `eps`
and leaves `a, a, c` in the cell `x`. -/
theorem add_twice_of_cell_part_changes_cell :
    GetEndpointsForSector cellLattice ["x"] = .ok ["a", "b", "c"] ∧
      AddEndpointsForSectorOf sampleRuntime cellLattice ["y"] (.ofCell "x" 0 1) =
        .ok cellLatticeOnce ∧
      AddEndpointsForSectorOf sampleRuntime cellLatticeOnce ["y"] (.ofCell "x" 0 1) =
        .ok cellLatticeTwice ∧
      GetEndpointsForSector cellLatticeOnce ["x"] = .ok ["a", "b", "c"] ∧
      GetEndpointsForSector cellLatticeTwice ["x"] = .ok ["a", "a", "c"] ∧
      cellLatticeTwice ≠ cellLatticeOnce :=
  ⟨by rfl, by rfl, by rfl, by rfl, by rfl, by decide!⟩

/-! ## Sectors, keys and coordinates -/

theorem twoDimLattice_new : NewLattice sampleRuntime ["az", "version"] = .ok twoDimLattice := by
  decide!

/-- C16 (counterexample): the sectors `(p, q⚡️r)` and `(p⚡️q, r)` of a lattice of
two dimensions are different and have the same key: after endpoints were added at
`(p⚡️q, r)`, a call of `AddEndpointsForSector` at `(p, q⚡️r)` changes what
`GetEndpointsForSector` returns for `(p⚡️q, r)`. -/
theorem add_changes_other_sector_with_separator :
    ["p", clashVersion] ≠ [clashAz, "r"] ∧
      GetEndpointsForSector
        (addIgnoringError sampleRuntime twoDimLattice [clashAz, "r"] ["g", "h"])
        [clashAz, "r"] = .ok ["g", "h"] ∧
      GetEndpointsForSector
        (addIgnoringError sampleRuntime
          (addIgnoringError sampleRuntime twoDimLattice [clashAz, "r"] ["g", "h"])
          ["p", clashVersion] ["a", "b"])
        [clashAz, "r"] = .ok ["a", "b", "g", "h"] :=
  ⟨by decide!, by rfl, by rfl⟩

theorem AddEndpointsForSectorOf_own (rt : Runtime) (l : Lattice) (sec ep : List String) :
    AddEndpointsForSectorOf rt l sec (.own ep) = AddEndpointsForSector rt l sec ep := rfl

/-- C16 (amended): for two different sectors `s` and `t` of the length of the
dimension names whose values do not contain the separator, and an argument `ep`
that is no part of the slice of the cell at `t` (a slice of the caller, or a part
`eps[lo:hi]` with `lo <= hi <= cap(eps)` of the slice of another cell), a call of
`AddEndpointsForSector(s, ep)` succeeds and leaves what `GetEndpointsForSector`
returns for `t`. -/
theorem add_keeps_other_sector (rt : Runtime) (l : Lattice) (s t : List String) (ep : Endpoints)
    (hs : s.length = l.DimensionNames.length) (ht : t.length = l.DimensionNames.length)
    (hne : s ≠ t) (hsf : SeparatorFree s) (htf : SeparatorFree t)
    (hep : ∀ key lo hi, ep = .ofCell key lo hi →
      key ≠ stringsJoin t seperator ∧ lo ≤ hi ∧ hi ≤ (l.cell key).cap) :
    ∃ l', AddEndpointsForSectorOf rt l s ep = .ok l' ∧
      GetEndpointsForSector l' t = GetEndpointsForSector l t := by
  have hsn : s ≠ [] := by
    intro hc
    apply hne
    rw [hc] at hs ⊢
    exact (List.length_eq_zero.1 (by rw [ht, ← hs]; rfl)).symm
  have htn : t ≠ [] := by
    intro hc
    apply hne
    rw [hc] at ht ⊢
    exact List.length_eq_zero.1 (by rw [hs, ← ht]; rfl)
  have hk : stringsJoin t seperator ≠ stringsJoin s seperator := fun hc =>
    hne (stringsJoin_injective htn hsn htf hsf hc).symm
  cases ep with
  | own ep =>
    refine ⟨addIgnoringError rt l s ep, ?_, ?_⟩
    · rw [AddEndpointsForSectorOf_own, AddEndpointsForSector_eq rt l s ep hs,
        addIgnoringError_eq rt l s ep hs]
    · unfold GetEndpointsForSector
      rw [addIgnoringError_names, addIgnoringError_cell_ne rt l s ep hk]
  | ofCell key lo hi =>
    obtain ⟨hkt, hlo, hhi⟩ := hep key lo hi rfl
    unfold AddEndpointsForSectorOf
    simp only
    rw [if_neg (by
      rintro (h | h)
      · exact absurd hlo (not_le.2 h)
      · exact absurd hhi (not_le.2 h)), if_neg (not_not.2 hs)]
    cases hg : mapGet l.EndpointsByCoordinate (stringsJoin s seperator) with
    | none =>
      refine ⟨_, rfl, ?_⟩
      unfold GetEndpointsForSector Lattice.cell
      simp only
      rw [mapGet_mapSet_ne _ hk]
    | some e =>
      refine ⟨_, rfl, ?_⟩
      have hcell := setCell_cell_ne l ((l.cell key).appended hi e.elems) (Ne.symm hkt)
      unfold Lattice.cell at hcell
      unfold GetEndpointsForSector Lattice.cell
      simp only
      rw [mapGet_mapSet_ne _ hk, hcell]

theorem add_keeps_other_sector_witness :
    ["x", "1"].length = gridLattice.DimensionNames.length ∧
      ["y", "2"].length = gridLattice.DimensionNames.length ∧
      (["x", "1"] : List String) ≠ ["y", "2"] ∧ SeparatorFree ["x", "1"] ∧
      SeparatorFree ["y", "2"] ∧
      ∃ l', AddEndpointsForSectorOf sampleRuntime gridLattice ["x", "1"]
          (.ofCell (stringsJoin ["x", "2"] seperator) 0 1) = .ok l' ∧
        GetEndpointsForSector l' ["y", "2"] = GetEndpointsForSector gridLattice ["y", "2"] :=
  ⟨by decide, by decide, by decide, by unfold SeparatorFree; decide!,
    by unfold SeparatorFree; decide!,
    add_keeps_other_sector sampleRuntime gridLattice ["x", "1"] ["y", "2"]
      (.ofCell (stringsJoin ["x", "2"] seperator) 0 1) (by decide)
      (by decide) (by decide) (by unfold SeparatorFree; decide!)
      (by unfold SeparatorFree; decide!) (by
        intro key lo hi h
        cases h
        exact ⟨by decide!, by decide, by decide!⟩)⟩

theorem twoCellsXY_built :
    (match NewLattice sampleRuntime ["dimX"] with
      | .ok l => addAll sampleRuntime l [(["s"], ["x", "y"]), (["t"], ["a", "b", "c"])]
      | o => o) = .ok twoCellsXY := by rfl

/-- The write of `append(ep, e...)` into the array of a cell: on `twoCellsXY`, whose
cells `s` and `t` hold `x, y` and `a, b, c`, the call
`AddEndpointsForSector(["s"], eps[:1])` with the slice `eps` of the cell `t`
leaves `a, x, y` in the cell `t`. -/
theorem add_of_cell_part_writes_into_that_cell :
    ∃ l', AddEndpointsForSectorOf sampleRuntime twoCellsXY ["s"] (.ofCell "t" 0 1) = .ok l' ∧
      GetEndpointsForSector twoCellsXY ["t"] = .ok ["a", "b", "c"] ∧
      GetEndpointsForSector l' ["t"] = .ok ["a", "x", "y"] ∧
      GetEndpointsForSector l' ["s"] = .ok ["a", "x", "y"] :=
  ⟨_, rfl, by rfl, by rfl, by rfl⟩

/-! ## The order of the dimensions -/

/-- C18 (counterexample): after `NewLattice(["b", "a"])` and
`AddEndpointsForSector(["1", "2"], ["e"])` the value `1`, at position 0 of the
sector, is not a value of the dimension `b`, at position 0 of the names that were
passed: the values of `b` are `2`. -/
theorem sector_is_not_read_in_given_order :
    (match NewLattice sampleRuntime ["b", "a"] with
      | .ok l => AddEndpointsForSector sampleRuntime l ["1", "2"] ["e"]
      | o => o) = .ok swappedLattice ∧
      GetDimensionValues swappedLattice "b" = ["2"] ∧
      "1" ∉ GetDimensionValues swappedLattice "b" :=
  ⟨by decide!, by decide!, by decide!⟩

/-- C18 (amended): for distinct names `dims`, after `NewLattice(dims)` and a call
of `AddEndpointsForSector(sec, ep)` with a sector of the length of `dims`, the
value `sec[i]` is recorded for the name at position `i` of the sorted names, which
is `GetDimensionName(i)`. -/
theorem sector_is_read_in_sorted_order (rt : Runtime) (dims sec ep : List String)
    (hne : dims ≠ []) (hnd : dims.Nodup) (hlen : sec.length = dims.length) :
    ∃ l l', NewLattice rt dims = .ok l ∧ AddEndpointsForSector rt l sec ep = .ok l' ∧
      ∀ (i : Nat) (d v : String), (sortStrings dims)[i]? = some d → sec[i]? = some v →
        GetDimensionName l' i = .ok d ∧ v ∈ GetDimensionValues l' d := by
  obtain ⟨l, hl⟩ := NewLatticeWithSeed_of_ne_nil rt.seed hne
  have hok : NewLattice rt dims = .ok l := hl
  have hnames : l.DimensionNames = sortStrings dims := by
    rw [(NewLattice_ok hok).2.1]
    exact set_of_sorted_nodup (sortStrings_sorted _) ((sortStrings_perm _).nodup_iff.2 hnd)
  have hlen' : sec.length = l.DimensionNames.length := by
    rw [hnames, (sortStrings_perm _).length_eq]
    exact hlen
  refine ⟨l, addIgnoringError rt l sec ep, hok, ?_, ?_⟩
  · rw [AddEndpointsForSector_eq rt l sec ep hlen', addIgnoringError_eq rt l sec ep hlen']
  · intro i d v hd hv
    have hd' : l.DimensionNames[i]? = some d := by rw [hnames]; exact hd
    refine ⟨?_, ?_⟩
    · unfold GetDimensionName
      rw [addIgnoringError_names, hd']
    · rw [GetDimensionValues_add (by rw [hnames]; exact (sortStrings_perm _).nodup_iff.2 hnd)
        hlen' hd' hv]
      exact Or.inr rfl

theorem sector_is_read_in_sorted_order_witness :
    (["b", "a"] : List String) ≠ [] ∧ (["b", "a"] : List String).Nodup ∧
      ["1", "2"].length = ["b", "a"].length ∧
      ∃ l l', NewLattice sampleRuntime ["b", "a"] = .ok l ∧
        AddEndpointsForSector sampleRuntime l ["1", "2"] ["e"] = .ok l' ∧
        ∀ (i : Nat) (d v : String), (sortStrings ["b", "a"])[i]? = some d →
          ["1", "2"][i]? = some v →
          GetDimensionName l' i = .ok d ∧ v ∈ GetDimensionValues l' d :=
  ⟨by decide, by decide, by decide,
    sector_is_read_in_sorted_order sampleRuntime ["b", "a"] ["1", "2"] ["e"] (by decide)
      (by decide) (by decide)⟩

/-! ## Coordinates and values -/

theorem fiveLattice_built (value : String) :
    (match NewLattice sampleRuntime ["dimX"] with
      | .ok l => addAll sampleRuntime l [([value], ["A", "B", "C", "D", "E"])]
      | o => o) = .ok (fiveLattice value) →
    Reachable sampleRuntime (fun _ => True) (fiveLattice value) := by
  intro h
  cases hnew : NewLattice sampleRuntime ["dimX"] with
  | error e => rw [hnew] at h; simp at h
  | panic => rw [hnew] at h; simp at h
  | ok l =>
    rw [hnew] at h
    simp only [addAll] at h
    cases hadd : AddEndpointsForSector sampleRuntime l [value] ["A", "B", "C", "D", "E"] with
    | error e => rw [hadd] at h; simp at h
    | panic => rw [hadd] at h; simp at h
    | ok l' =>
      rw [hadd] at h
      simp only [Outcome.ok.injEq] at h
      rw [h] at hadd
      exact Reachable.add l _ _ _ (Reachable.new _ _ hnew) trivial hadd

/-- C19 (counterexample): after `NewLattice(["dimX"])` and a successful call of
`AddEndpointsForSector` at the sector `(a⚡️b)`, `GetAllCoordinates` returns the
coordinate `(a, b)`, which has two values and is not the sector that was added. -/
theorem coordinates_lose_sector_with_separator :
    (match NewLattice sampleRuntime ["dimX"] with
      | .ok l => addAll sampleRuntime l
          [(["a" ++ seperator ++ "b"], ["A", "B", "C", "D", "E"])]
      | o => o) = .ok (fiveLattice ("a" ++ seperator ++ "b")) ∧
      GetAllCoordinates (fiveLattice ("a" ++ seperator ++ "b")) = [["a", "b"]] ∧
      (GetDimensionNames (fiveLattice ("a" ++ seperator ++ "b"))).length = 1 ∧
      ["a" ++ seperator ++ "b"] ∉ GetAllCoordinates (fiveLattice ("a" ++ seperator ++ "b")) :=
  ⟨by decide!, by rfl, by rfl, by decide!⟩

theorem GetAllCoordinates_nodup (l : Lattice) : (GetAllCoordinates l).Nodup := by
  unfold GetAllCoordinates
  refine List.Nodup.map_on ?_ (set_nodup _)
  intro a _ b _ hab
  rw [← stringsJoin_stringsSplit a seperator, hab, stringsJoin_stringsSplit]

theorem GetAllCoordinates_sorted (l : Lattice) :
    ((GetAllCoordinates l).map (fun c => stringsJoin c seperator)).Sorted strLe := by
  unfold GetAllCoordinates
  rw [List.map_map]
  have : (set (mapKeys l.EndpointsByCoordinate)).map
      ((fun c => stringsJoin c seperator) ∘ fun k => stringsSplit k seperator) =
      set (mapKeys l.EndpointsByCoordinate) := by
    conv_rhs => rw [← List.map_id (set (mapKeys l.EndpointsByCoordinate))]
    exact List.map_congr_left (fun k _ => stringsJoin_stringsSplit k seperator)
  rw [this]
  exact set_sorted _

/-- C19 (amended): after `NewLattice(dims)` and successful calls of
`AddEndpointsForSector` at sectors whose values do not contain the separator,
`GetAllCoordinates` returns exactly the sectors that were added, each once and each
of the length of the dimension names, in the sorted order of their keys. -/
theorem coordinates_are_the_added_sectors (rt : Runtime) (dims : List String)
    (calls : List (List String × List String)) (l₀ l : Lattice)
    (hnew : NewLattice rt dims = .ok l₀) (hadd : addAll rt l₀ calls = .ok l)
    (hfree : ∀ call ∈ calls, SeparatorFree call.1) :
    (∀ c, c ∈ GetAllCoordinates l ↔ c ∈ calls.map Prod.fst) ∧
      (GetAllCoordinates l).Nodup ∧
      (∀ c ∈ GetAllCoordinates l, c.length = (GetDimensionNames l).length) ∧
      ((GetAllCoordinates l).map (fun c => stringsJoin c seperator)).Sorted strLe := by
  have hm := addAll_mirrors rt calls l₀ l [] (Mirrors_new hnew) hfree hadd
  refine ⟨?_, GetAllCoordinates_nodup l, ?_, GetAllCoordinates_sorted l⟩
  · intro c
    rw [hm.coordinates c]
    simp
  · intro c hc
    exact (hm.2.2.1 c ((hm.coordinates c).1 hc)).1

theorem coordinates_are_the_added_sectors_witness :
    NewLattice sampleRuntime ["az", "version"] = .ok twoDimLattice ∧
      addAll sampleRuntime twoDimLattice
        [(["x", "1"], ["a", "b"]), (["x", "2"], ["c", "d"]), (["y", "1"], ["e", "f"]),
          (["y", "2"], ["g", "h"])] = .ok gridLattice ∧
      (∀ call ∈ [((["x", "1"], ["a", "b"]) : List String × List String),
          (["x", "2"], ["c", "d"]), (["y", "1"], ["e", "f"]), (["y", "2"], ["g", "h"])],
        SeparatorFree call.1) ∧
      (∀ c, c ∈ GetAllCoordinates gridLattice ↔
        c ∈ ([["x", "1"], ["x", "2"], ["y", "1"], ["y", "2"]] : List (List String))) ∧
      (GetAllCoordinates gridLattice).Nodup ∧
      (∀ c ∈ GetAllCoordinates gridLattice, c.length = (GetDimensionNames gridLattice).length) ∧
      ((GetAllCoordinates gridLattice).map (fun c => stringsJoin c seperator)).Sorted strLe :=
  ⟨twoDimLattice_new, by decide!, by unfold SeparatorFree; decide!,
    coordinates_are_the_added_sectors sampleRuntime ["az", "version"]
      [(["x", "1"], ["a", "b"]), (["x", "2"], ["c", "d"]), (["y", "1"], ["e", "f"]),
        (["y", "2"], ["g", "h"])] twoDimLattice gridLattice twoDimLattice_new (by decide!)
      (by unfold SeparatorFree; decide!)⟩

/-- C20 (counterexample): the lattice with the single sector `(a⚡️b)` is reached
from `NewLattice` by `AddEndpointsForSector`; the value of its dimension is
`a⚡️b`, and the value at position 0 of its coordinate is `a`. -/
theorem values_differ_from_coordinates_with_separator :
    Reachable sampleRuntime (fun _ => True) (fiveLattice ("a" ++ seperator ++ "b")) ∧
      GetDimensionName (fiveLattice ("a" ++ seperator ++ "b")) 0 = .ok "dimX" ∧
      GetDimensionValues (fiveLattice ("a" ++ seperator ++ "b")) "dimX" =
        ["a" ++ seperator ++ "b"] ∧
      (GetAllCoordinates (fiveLattice ("a" ++ seperator ++ "b"))).map (fun s => s[0]?) =
        [some "a"] :=
  ⟨fiveLattice_built _ (by decide!), by rfl, by rfl, by rfl⟩

/-- C20 (amended): on a lattice reached from `NewLattice` by `SimulateFailure` and
by `AddEndpointsForSector` at sectors whose values do not contain the separator,
the values of the dimension at every position `i` are sorted, distinct, and exactly
the values at position `i` of the coordinates of `GetAllCoordinates()`. -/
theorem values_mirror_coordinates (rt : Runtime) (l : Lattice) (i : Nat) (d : String)
    (hr : Reachable rt SeparatorFree l) (hd : GetDimensionName l i = .ok d) :
    (GetDimensionValues l d).Sorted strLe ∧ (GetDimensionValues l d).Nodup ∧
      ∀ v, v ∈ GetDimensionValues l d ↔ ∃ s ∈ GetAllCoordinates l, s[i]? = some v := by
  obtain ⟨secs, hm⟩ := hr.mirrors
  have hd' : l.DimensionNames[i]? = some d := by
    unfold GetDimensionName at hd
    cases hg : l.DimensionNames[i]? with
    | none => rw [hg] at hd; simp at hd
    | some d' =>
      rw [hg] at hd
      simp only [Outcome.ok.injEq] at hd
      rw [hd]
  exact ⟨(GetDimensionValues_sorted l d).1, (GetDimensionValues_sorted l d).2,
    fun v => hm.values hd' v⟩

theorem gridLattice_reachable : Reachable sampleRuntime SeparatorFree gridLattice :=
  Reachable.add _ _ ["y", "2"] ["g", "h"]
    (Reachable.add _ _ ["y", "1"] ["e", "f"]
      (Reachable.add _ _ ["x", "2"] ["c", "d"]
        (Reachable.add _ _ ["x", "1"] ["a", "b"]
          (Reachable.new ["az", "version"] twoDimLattice twoDimLattice_new)
          (by unfold SeparatorFree; decide!) (by rfl))
        (by unfold SeparatorFree; decide!) (by rfl))
      (by unfold SeparatorFree; decide!) (by rfl))
    (by unfold SeparatorFree; decide!) (by rfl)

theorem gridWithoutX_reachable : Reachable sampleRuntime SeparatorFree gridWithoutX :=
  Reachable.fail gridLattice _ "az" "x" gridLattice_reachable (by rfl)

theorem values_mirror_coordinates_witness :
    Reachable sampleRuntime SeparatorFree gridWithoutX ∧
      GetDimensionName gridWithoutX 0 = .ok "az" ∧
      (GetDimensionValues gridWithoutX "az").Sorted strLe ∧
      (GetDimensionValues gridWithoutX "az").Nodup ∧
      ∀ v, v ∈ GetDimensionValues gridWithoutX "az" ↔
        ∃ s ∈ GetAllCoordinates gridWithoutX, s[0]? = some v :=
  ⟨gridWithoutX_reachable, by rfl,
    values_mirror_coordinates sampleRuntime gridWithoutX 0 "az" gridWithoutX_reachable (by rfl)⟩

/-! ## The parts of `strings.Split` -/

theorem isPrefixOf_two_append {a b : Char} {t : List Char} (r : List Char)
    (h : [a, b].isPrefixOf t = true) : [a, b].isPrefixOf (t ++ r) = true := by
  obtain ⟨t', rfl⟩ := (isPrefixOf_two a b t).1 h
  exact (isPrefixOf_two a b _).2 ⟨t' ++ r, rfl⟩

/-- No part that `strings.Split` returns holds the separator. -/
theorem splitChars_parts_clean (a b : Char) :
    ∀ (rest : List Char) (n : Nat) (acc : List Char), rest.length < n →
      (∀ s t, acc.reverse = s ++ t → t ≠ [] → [a, b].isPrefixOf (t ++ rest) = false) →
      ∀ part ∈ splitChars [a, b] n acc rest,
        ∀ s t, part = s ++ t → [a, b].isPrefixOf t = false
  | _, 0, _, hn, _ => absurd hn (Nat.not_lt_zero _)
  | [], n + 1, acc, _, hinv => by
    intro part hpart s t hst
    simp only [splitChars, List.mem_singleton] at hpart
    subst hpart
    by_cases ht : t = []
    · subst ht
      rfl
    · simpa using hinv s t hst ht
  | c :: cs, n + 1, acc, hn, hinv => by
    intro part hpart s t hst
    rw [splitChars_cons] at hpart
    by_cases hp : [a, b].isPrefixOf (c :: cs) = true
    · rw [if_pos hp] at hpart
      rcases List.mem_cons.1 hpart with hpart | hpart
      · subst hpart
        by_contra hc
        have hc' : [a, b].isPrefixOf t = true := by simpa using hc
        have ht : t ≠ [] := by
          intro h0
          subst h0
          simp [List.isPrefixOf] at hc'
        have := hinv s t hst ht
        rw [isPrefixOf_two_append (c :: cs) hc'] at this
        simp at this
      · refine splitChars_parts_clean a b _ n [] ?_ ?_ part hpart s t hst
        · have h1 : ((c :: cs).drop [a, b].length).length =
              (c :: cs).length - [a, b].length := List.length_drop _ _
          rw [h1]
          simp only [List.length_cons, List.length_nil] at hn ⊢
          omega
        · intro s' t' hst' ht'
          simp only [List.reverse_nil] at hst'
          exact absurd (List.append_eq_nil.1 hst'.symm).2 ht'
    · rw [if_neg hp] at hpart
      refine splitChars_parts_clean a b cs n (c :: acc) (by simpa using hn) ?_ part hpart s t hst
      intro s' t' hst' ht'
      rcases List.eq_nil_or_concat t' with h0 | ⟨t'', x, hx⟩
      · exact absurd h0 ht'
      · subst hx
        rw [List.concat_eq_append] at hst' ⊢
        rw [List.reverse_cons, ← List.append_assoc] at hst'
        have hinj := List.append_inj' hst' rfl
        have hx : c = x := by simpa using hinj.2
        subst hx
        rw [List.append_assoc, List.singleton_append]
        by_cases h0 : t'' = []
        · subst h0
          exact Bool.eq_false_iff.2 hp
        · exact hinv s' t'' hinj.1 h0

theorem stringsSplit_parts_free (k : String) : SeparatorFree (stringsSplit k seperator) := by
  intro v hv
  unfold stringsSplit at hv
  rw [seperator_data.1] at hv
  obtain ⟨part, hpart, rfl⟩ := List.mem_map.1 hv
  have hclean := splitChars_parts_clean _ _ k.data _ [] (Nat.lt_succ_self _)
    (by
      intro s t hst ht
      simp only [List.reverse_nil] at hst
      exact absurd (List.append_eq_nil.1 hst.symm).2 ht) part hpart
  unfold stringsSplit
  rw [seperator_data.1]
  simp only
  rw [splitChars_clean _ _ part _ [] (Nat.lt_succ_self _) hclean]
  simp

/-! ## The number of parts of a key -/

theorem splitChars_sep_length (a b : Char) (hab : a ≠ b) (rest : List Char) :
    ∀ (m : Nat) (p : List Char), p.length ≤ m → ∀ (n : Nat) (acc : List Char),
      p.length + 2 + rest.length < n →
      ∃ n', rest.length < n' ∧
        1 + (splitChars [a, b] n' [] rest).length ≤
          (splitChars [a, b] n acc (p ++ a :: b :: rest)).length
  | _, _, _, 0, _, hn => absurd hn (Nat.not_lt_zero _)
  | _, [], _, n + 1, acc, hn => by
    refine ⟨n, by simp only [List.length_nil] at hn; omega, ?_⟩
    rw [List.nil_append, splitChars_cons, if_pos ((isPrefixOf_two a b _).2 ⟨rest, rfl⟩)]
    simp
    omega
  | 0, c :: p', hm, _, _, _ => by simp at hm
  | m + 1, c :: p', hm, n + 1, acc, hn => by
    rw [List.cons_append, splitChars_cons]
    by_cases hp : [a, b].isPrefixOf (c :: (p' ++ a :: b :: rest)) = true
    · rw [if_pos hp]
      obtain ⟨t, ht⟩ := (isPrefixOf_two a b _).1 hp
      cases p' with
      | nil =>
        simp only [List.nil_append, List.cons.injEq] at ht
        exact absurd ht.2.1 hab
      | cons x p'' =>
        simp only [List.cons_append, List.cons.injEq] at ht
        have hdrop : (c :: (x :: p'' ++ a :: b :: rest)).drop [a, b].length =
            p'' ++ a :: b :: rest := by simp
        rw [hdrop]
        obtain ⟨n', h1, h2⟩ := splitChars_sep_length a b hab rest m p''
          (by simp only [List.length_cons] at hm; omega) n []
          (by simp only [List.length_cons] at hn; omega)
        refine ⟨n', h1, ?_⟩
        simp only [List.length_cons]
        omega
    · rw [if_neg hp]
      exact splitChars_sep_length a b hab rest m p'
        (by simp only [List.length_cons] at hm; omega) n (c :: acc)
        (by simp only [List.length_cons] at hn; omega)

theorem splitChars_joinChars_length (a b : Char) (hab : a ≠ b) :
    ∀ (ps : List (List Char)) (p : List Char) (n : Nat) (acc : List Char),
      (joinChars [a, b] (p :: ps)).length < n →
      1 + ps.length ≤ (splitChars [a, b] n acc (joinChars [a, b] (p :: ps))).length
  | [], p, n, acc, _ => by
    have := splitChars_ne_nil [a, b] n acc (joinChars [a, b] [p])
    have hpos := List.length_pos.2 this
    simp only [List.length_nil]
    omega
  | q :: qs, p, n, acc, hn => by
    have h3 : joinChars [a, b] (p :: q :: qs) = p ++ a :: b :: joinChars [a, b] (q :: qs) := by
      simp [joinChars]
    rw [h3] at hn ⊢
    obtain ⟨n', h1, h2⟩ := splitChars_sep_length a b hab (joinChars [a, b] (q :: qs))
      p.length p (Nat.le_refl _) n acc
      (by simp only [List.length_append, List.length_cons] at hn; omega)
    have := splitChars_joinChars_length a b hab qs q n' [] h1
    simp only [List.length_cons]
    omega

/-- A key that joins the values of a sector splits into at least as many parts. -/
theorem length_le_stringsSplit_stringsJoin {sec : List String} (hne : sec ≠ []) :
    sec.length ≤ (stringsSplit (stringsJoin sec seperator) seperator).length := by
  obtain ⟨p, ps, rfl⟩ : ∃ p ps, sec = p :: ps := by
    cases sec with
    | nil => exact absurd rfl hne
    | cons p ps => exact ⟨p, ps, rfl⟩
  unfold stringsSplit stringsJoin
  rw [seperator_data.1]
  simp only [List.map_cons, List.length_map, List.length_cons]
  have := splitChars_joinChars_length _ _ seperator_data.2 (ps.map String.data) p.data
    ((joinChars [Char.ofNat 0x26A1, Char.ofNat 0xFE0F] (p.data :: ps.map String.data)).length + 1)
    [] (Nat.lt_succ_self _)
  simp only [List.length_map] at this
  omega

/-! ## Invariants of the lattices that the package reaches -/

theorem names_of_sorted_nodup {names : List String} (hs : names.Sorted strLe)
    (hn : names.Nodup) : set (sortStrings names) = names := by
  rw [sortStrings_of_sorted hs, set_of_sorted_nodup hs hn]

theorem set_sortStrings_ne_nil {dims : List String} (h : dims ≠ []) :
    set (sortStrings dims) ≠ [] := by
  obtain ⟨x, xs, rfl⟩ : ∃ x xs, dims = x :: xs := by
    cases dims with
    | nil => exact absurd rfl h
    | cons x xs => exact ⟨x, xs, rfl⟩
  intro hc
  have : x ∈ set (sortStrings (x :: xs)) := by
    rw [mem_set, mem_sortStrings]
    exact List.mem_cons_self _ _
  rw [hc] at this
  simp at this

theorem Reachable.names_sorted {rt : Runtime} {allowed : List String → Prop} {l : Lattice}
    (h : Reachable rt allowed l) :
    l.DimensionNames ≠ [] ∧ l.DimensionNames.Sorted strLe ∧ l.DimensionNames.Nodup := by
  induction h with
  | new dims l hnew =>
    obtain ⟨h1, h2, _⟩ := NewLattice_ok hnew
    rw [h2]
    exact ⟨set_sortStrings_ne_nil h1, set_sorted _, set_nodup _⟩
  | add l l' sec ep _ _ hadd ih =>
    rw [AddEndpointsForSector_ok_eq hadd, addIgnoringError_names]
    exact ih
  | fail l l' dName dVal _ hfail ih =>
    obtain ⟨h1, h2, _⟩ := SimulateFailure_spec hfail
    rw [h2]
    exact ⟨set_sortStrings_ne_nil h1, set_sorted _, set_nodup _⟩

theorem SimulateFailure_names {rt : Runtime} {l sub : Lattice} {dName dVal : String}
    (hs : l.DimensionNames.Sorted strLe) (hn : l.DimensionNames.Nodup)
    (h : SimulateFailure rt l dName dVal = .ok sub) :
    sub.DimensionNames = l.DimensionNames := by
  rw [(SimulateFailure_spec h).2.1, names_of_sorted_nodup hs hn]

theorem Reachable.keys_nodup {rt : Runtime} {allowed : List String → Prop} {l : Lattice}
    (h : Reachable rt allowed l) : (mapKeys l.EndpointsByCoordinate).Nodup := by
  induction h with
  | new dims l hnew =>
    rw [(NewLattice_ok hnew).2.2]
    simp [mapKeys]
  | add l l' sec ep _ _ hadd ih =>
    rw [AddEndpointsForSector_ok_eq hadd]
    exact addIgnoringError_keys_nodup rt l sec ep ih
  | fail l l' dName dVal _ hfail _ => exact (SimulateFailure_spec hfail).2.2.2.2

/-- Every key of a lattice that the package reaches splits into at least as many
parts as the lattice has dimensions. -/
theorem Reachable.parts {rt : Runtime} {allowed : List String → Prop} {l : Lattice}
    (h : Reachable rt allowed l) :
    ∀ k ∈ mapKeys l.EndpointsByCoordinate,
      l.DimensionNames.length ≤ (stringsSplit k seperator).length := by
  induction h with
  | new dims l hnew =>
    intro k hk
    rw [(NewLattice_ok hnew).2.2] at hk
    simp [mapKeys] at hk
  | add l l' sec ep hr _ hadd ih =>
    intro k hk
    have hlen := AddEndpointsForSector_ok_length hadd
    rw [AddEndpointsForSector_ok_eq hadd] at hk ⊢
    rw [addIgnoringError_names]
    rcases addIgnoringError_keys rt l sec ep hk with h | h
    · rw [h, ← hlen]
      apply length_le_stringsSplit_stringsJoin
      intro hc
      rw [hc] at hlen
      exact hr.names_sorted.1 (List.length_eq_zero.1 hlen.symm)
    · exact ih k h
  | fail l l' dName dVal hr hfail ih =>
    intro k hk
    rw [SimulateFailure_names hr.names_sorted.2.1 hr.names_sorted.2.2 hfail]
    exact ih k ((SimulateFailure_spec hfail).2.2.1 k hk).1

/-- Every cell of a lattice that the package reaches is sorted and holds distinct
endpoints. -/
theorem Reachable.cells_sorted {rt : Runtime} {allowed : List String → Prop} {l : Lattice}
    (h : Reachable rt allowed l) :
    ∀ k, (l.cell k).elems.Sorted strLe ∧ (l.cell k).elems.Nodup := by
  induction h with
  | new dims l hnew =>
    intro k
    rw [NewLattice_cell hnew]
    simp
  | add l l' sec ep _ _ hadd ih =>
    intro k
    rw [AddEndpointsForSector_ok_eq hadd]
    by_cases hk : k = stringsJoin sec seperator
    · subst hk
      rw [addIgnoringError_cell_self rt l sec ep (AddEndpointsForSector_ok_length hadd)]
      exact ⟨set_sorted _, set_nodup _⟩
    · rw [addIgnoringError_cell_ne rt l sec ep hk]
      exact ih k
  | fail l l' dName dVal _ hfail _ =>
    intro k
    by_cases hk : k ∈ mapKeys l'.EndpointsByCoordinate
    · rw [((SimulateFailure_spec hfail).2.2.1 k hk).2.2]
      exact ⟨set_sorted _, set_nodup _⟩
    · rw [cell_of_not_mem hk]
      simp

/-! ## The index of a dimension name -/

theorem indexOf_of_nodup {names : List String} {i : Nat} {d : String} (hn : names.Nodup)
    (hd : names[i]? = some d) : indexOf names d = (i : Int) := by
  obtain ⟨hi, hget⟩ := List.getElem?_eq_some_iff.1 hd
  have hidx : names.indexOf d = i := by
    rw [← hget]
    exact List.indexOf_getElem hn i hi
  unfold indexOf
  rw [hidx, if_pos hi]

theorem indexOf_neg_iff {names : List String} {d : String} :
    indexOf names d < 0 ↔ d ∉ names := by
  unfold indexOf
  by_cases h : names.indexOf d < names.length
  · rw [if_pos h]
    have := List.indexOf_lt_length.1 h
    constructor
    · intro hc
      omega
    · intro hc
      exact absurd this hc
  · rw [if_neg h]
    have : d ∉ names := fun hc => h (List.indexOf_lt_length.2 hc)
    simp [this]

theorem indexOf_toNat_lt {names : List String} {d : String} (h : d ∈ names) :
    (indexOf names d).toNat < names.length := by
  unfold indexOf
  have := List.indexOf_lt_length.2 h
  rw [if_pos this]
  simpa using this

/-! ## The loop of `SimulateFailure` -/

theorem failureLoop_isSome (rt : Runtime) (l : Lattice) (dIdx : Nat) (dVal : String) :
    ∀ (entries : List (String × Slice)) (sub : Lattice),
      (∀ e ∈ entries, dIdx < (stringsSplit e.1 seperator).length) →
      ∃ res, failureLoop rt l dIdx dVal entries sub = some res
  | [], sub, _ => ⟨sub, rfl⟩
  | (c, x) :: rest, sub, h => by
    have hc := h (c, x) (List.mem_cons_self _ _)
    simp only at hc
    unfold failureLoop
    rw [List.getElem?_eq_getElem hc]
    simp only
    split
    · exact failureLoop_isSome rt l dIdx dVal rest _ (fun e he => h e (List.mem_cons_of_mem _ he))
    · exact failureLoop_isSome rt l dIdx dVal rest _ (fun e he => h e (List.mem_cons_of_mem _ he))

/-- The loop keeps every cell whose value at the index differs from the failed
value and whose key splits into as many parts as there are dimensions. -/
theorem failureLoop_complete (rt : Runtime) (l : Lattice) (dIdx : Nat) (dVal : String) :
    ∀ (entries : List (String × Slice)) (sub res : Lattice),
      failureLoop rt l dIdx dVal entries sub = some res →
      (∀ k ∈ mapKeys sub.EndpointsByCoordinate, k ∈ mapKeys res.EndpointsByCoordinate) ∧
      ∀ e ∈ entries, (stringsSplit e.1 seperator)[dIdx]? ≠ some dVal →
        (stringsSplit e.1 seperator).length = sub.DimensionNames.length →
        e.1 ∈ mapKeys res.EndpointsByCoordinate
  | [], sub, res, h => by
    simp only [failureLoop, Option.some.injEq] at h
    subst h
    exact ⟨fun k hk => hk, by simp⟩
  | (c, x) :: rest, sub, res, h => by
    unfold failureLoop at h
    cases hv : (stringsSplit c seperator)[dIdx]? with
    | none => simp [hv] at h
    | some v =>
      simp only [hv] at h
      by_cases hne : v ≠ dVal
      · rw [if_pos hne] at h
        obtain ⟨r1, r2⟩ := failureLoop_complete rt l dIdx dVal rest _ res h
        refine ⟨fun k hk => r1 k (addIgnoringError_keys_mono rt sub _ _ hk), ?_⟩
        intro e he hev hel
        rcases List.mem_cons.1 he with he | he
        · subst he
          apply r1
          rw [addIgnoringError_eq rt sub _ _ hel]
          simp only
          rw [mem_mapKeys_mapSet, stringsJoin_stringsSplit]
          exact Or.inl rfl
        · exact r2 e he hev (by rw [addIgnoringError_names]; exact hel)
      · rw [if_neg hne] at h
        obtain ⟨r1, r2⟩ := failureLoop_complete rt l dIdx dVal rest sub res h
        refine ⟨r1, ?_⟩
        intro e he hev hel
        rcases List.mem_cons.1 he with he | he
        · subst he
          simp only at hev
          rw [hv] at hev
          exact absurd (by rw [not_not.1 hne]) hev
        · exact r2 e he hev hel

/-- The sub-lattice that the loop builds mirrors sectors whose value at the index
differs from the failed value, whatever the keys of the lattice are. -/
theorem failureLoop_builds_mirror (rt : Runtime) (l : Lattice) (dIdx : Nat) (dVal : String) :
    ∀ (entries : List (String × Slice)) (sub res : Lattice) (subsecs : List (List String)),
      Mirrors sub subsecs → (∀ sec ∈ subsecs, sec[dIdx]? ≠ some dVal) →
      failureLoop rt l dIdx dVal entries sub = some res →
      ∃ secs', Mirrors res secs' ∧ ∀ sec ∈ secs', sec[dIdx]? ≠ some dVal
  | [], sub, res, subsecs, hm, hs, h => by
    simp only [failureLoop, Option.some.injEq] at h
    subst h
    exact ⟨subsecs, hm, hs⟩
  | (c, x) :: rest, sub, res, subsecs, hm, hs, h => by
    unfold failureLoop at h
    cases hv : (stringsSplit c seperator)[dIdx]? with
    | none => simp [hv] at h
    | some v =>
      simp only [hv] at h
      by_cases hne : v ≠ dVal
      · rw [if_pos hne] at h
        by_cases hlen : (stringsSplit c seperator).length = sub.DimensionNames.length
        · refine failureLoop_builds_mirror rt l dIdx dVal rest _ res
            (stringsSplit c seperator :: subsecs)
            (Mirrors_add _ hm (stringsSplit_parts_free c) hlen) ?_ h
          intro sec hsec
          rcases List.mem_cons.1 hsec with hsec | hsec
          · subst hsec
            rw [hv]
            intro hc
            exact hne (Option.some.inj hc)
          · exact hs sec hsec
        · rw [addIgnoringError_of_ne rt sub _ _ hlen] at h
          exact failureLoop_builds_mirror rt l dIdx dVal rest sub res subsecs hm hs h
      · rw [if_neg hne] at h
        exact failureLoop_builds_mirror rt l dIdx dVal rest sub res subsecs hm hs h

theorem SimulateFailure_unfold {rt : Runtime} {l sub : Lattice} {dName dVal : String}
    (h : SimulateFailure rt l dName dVal = .ok sub) :
    ∃ fresh, NewLattice rt l.DimensionNames = .ok fresh ∧ dName ∈ l.DimensionNames ∧
      failureLoop rt l (indexOf l.DimensionNames dName).toNat dVal l.EndpointsByCoordinate
        fresh = some sub := by
  unfold SimulateFailure at h
  cases hnew : NewLattice rt l.DimensionNames with
  | error e => rw [hnew] at h; simp at h
  | panic => rw [hnew] at h; simp at h
  | ok fresh =>
    rw [hnew] at h
    simp only at h
    split at h
    · simp at h
    · rename_i hidx
      cases hloop : failureLoop rt l (indexOf l.DimensionNames dName).toNat dVal
          l.EndpointsByCoordinate fresh with
      | none => rw [hloop] at h; simp at h
      | some res =>
        rw [hloop] at h
        simp only [Outcome.ok.injEq] at h
        subst h
        exact ⟨fresh, rfl, by_contra (fun hc => hidx (indexOf_neg_iff.2 hc)), hloop⟩

/-- The lattice that `SimulateFailure(d, v)` returns does not record `v` for `d`. -/
theorem SimulateFailure_removes_value {rt : Runtime} {l r : Lattice} {d v : String}
    (hs : l.DimensionNames.Sorted strLe) (hn : l.DimensionNames.Nodup)
    (h : SimulateFailure rt l d v = .ok r) : v ∉ GetDimensionValues r d := by
  obtain ⟨fresh, hnew, hd, hloop⟩ := SimulateFailure_unfold h
  obtain ⟨secs', hm, hne⟩ := failureLoop_builds_mirror rt l _ v _ fresh r []
    (Mirrors_new hnew) (by simp) hloop
  obtain ⟨i, hi, hget⟩ := List.getElem_of_mem hd
  have hdi : l.DimensionNames[i]? = some d := by
    rw [List.getElem?_eq_getElem hi, hget]
  have hidx : (indexOf l.DimensionNames d).toNat = i := by
    rw [indexOf_of_nodup hn hdi]
    simp
  rw [hidx] at hne
  have hnames := SimulateFailure_names hs hn h
  intro hc
  obtain ⟨sec, hsec, hv⟩ := (hm.2.2.2.2 i d (by rw [hnames]; exact hdi) v).1 hc
  exact hne sec hsec hv

/-- On a lattice that the package reaches, `SimulateFailure` with a dimension name
of the lattice returns a lattice. -/
theorem SimulateFailure_total {rt : Runtime} {allowed : List String → Prop} {l : Lattice}
    (hr : Reachable rt allowed l) {d : String} (hd : d ∈ l.DimensionNames) (v : String) :
    ∃ r, SimulateFailure rt l d v = .ok r := by
  obtain ⟨fresh, hnew⟩ := NewLatticeWithSeed_of_ne_nil rt.seed hr.names_sorted.1
  have hnew' : NewLattice rt l.DimensionNames = .ok fresh := hnew
  obtain ⟨res, hres⟩ := failureLoop_isSome rt l (indexOf l.DimensionNames d).toNat v
    l.EndpointsByCoordinate fresh (by
      intro e he
      have := hr.parts e.1 (List.mem_map.2 ⟨e, he, rfl⟩)
      have := indexOf_toNat_lt hd
      omega)
  refine ⟨res, ?_⟩
  unfold SimulateFailure
  rw [hnew']
  simp only
  rw [if_neg (by rw [indexOf_neg_iff]; exact fun hc => hc hd), hres]

/-! ## `SimulateFailure` -/

theorem Reachable.mono {rt : Runtime} {P Q : List String → Prop} (hPQ : ∀ sec, P sec → Q sec)
    {l : Lattice} (h : Reachable rt P l) : Reachable rt Q l := by
  induction h with
  | new dims l hnew => exact Reachable.new dims l hnew
  | add l l' sec ep _ hP hadd ih => exact Reachable.add l l' sec ep ih (hPQ sec hP) hadd
  | fail l l' dName dVal _ hfail ih => exact Reachable.fail l l' dName dVal ih hfail

theorem getElem?_of_GetDimensionName {l : Lattice} {i : Nat} {d : String}
    (hd : GetDimensionName l i = .ok d) : l.DimensionNames[i]? = some d := by
  unfold GetDimensionName at hd
  cases hg : l.DimensionNames[i]? with
  | none => rw [hg] at hd; simp at hd
  | some d' =>
    rw [hg] at hd
    simp only [Outcome.ok.injEq] at hd
    rw [hd]

/-- C21 (counterexample): the one-dimensional lattice with the single sector
`(a⚡️b)` is reached from `NewLattice` by `AddEndpointsForSector`; its coordinate
`(a, b)` has the value `a` at position 0, which differs from `zzz`, and
`SimulateFailure("dimX", "zzz")` returns a lattice without coordinates. -/
theorem failure_drops_cell_with_separator :
    Reachable sampleRuntime (fun _ => True) (fiveLattice ("a" ++ seperator ++ "b")) ∧
      GetAllCoordinates (fiveLattice ("a" ++ seperator ++ "b")) = [["a", "b"]] ∧
      SimulateFailure sampleRuntime (fiveLattice ("a" ++ seperator ++ "b")) "dimX" "zzz" =
        .ok oneDimLattice ∧
      GetAllCoordinates oneDimLattice = [] :=
  ⟨fiveLattice_built _ (by decide!), by rfl, by rfl, by rfl⟩

/-- What `SimulateFailure` returns on a lattice whose sectors are free of the
separator. -/
theorem SimulateFailure_exact {rt : Runtime} {l : Lattice} {i : Nat} {d : String} (v : String)
    (hr : Reachable rt SeparatorFree l) (hdi : l.DimensionNames[i]? = some d) :
    ∃ r, SimulateFailure rt l d v = .ok r ∧ r.DimensionNames = l.DimensionNames ∧
      (∀ k, k ∈ mapKeys r.EndpointsByCoordinate ↔
        k ∈ mapKeys l.EndpointsByCoordinate ∧ (stringsSplit k seperator)[i]? ≠ some v) ∧
      ∀ k ∈ mapKeys r.EndpointsByCoordinate, (r.cell k).elems = (l.cell k).elems := by
  have hd : d ∈ l.DimensionNames := List.getElem?_mem hdi
  obtain ⟨hne, hs, hn⟩ := hr.names_sorted
  obtain ⟨r, hres⟩ := SimulateFailure_total hr hd v
  obtain ⟨secs, hm⟩ := hr.mirrors
  have hidx : (indexOf l.DimensionNames d).toNat = i := by
    rw [indexOf_of_nodup hn hdi]
    simp
  obtain ⟨_, _, hsound, _, _⟩ := SimulateFailure_spec hres
  rw [hidx] at hsound
  obtain ⟨fresh, hnew, _, hloop⟩ := SimulateFailure_unfold hres
  rw [hidx] at hloop
  have hfresh : fresh.DimensionNames = l.DimensionNames := by
    rw [(NewLattice_ok hnew).2.1, names_of_sorted_nodup hs hn]
  refine ⟨r, hres, SimulateFailure_names hs hn hres, ?_, ?_⟩
  · intro k
    constructor
    · intro hk
      obtain ⟨h1, ⟨w, hw, hwv⟩, _⟩ := hsound k hk
      refine ⟨h1, ?_⟩
      rw [hw]
      intro hc
      exact hwv (Option.some.inj hc)
    · rintro ⟨hk, hv⟩
      obtain ⟨e, he, rfl⟩ := List.mem_map.1 hk
      refine (failureLoop_complete rt l i v _ fresh r hloop).2 e he hv ?_
      obtain ⟨sec, hsec, hj⟩ := (hm.2.2.2.1 e.1).1 hk
      rw [← hj, stringsSplit_stringsJoin (hm.sec_ne_nil hsec) (hm.2.2.1 sec hsec).2, hfresh]
      exact (hm.2.2.1 sec hsec).1
  · intro k hk
    rw [(hsound k hk).2.2]
    exact set_of_sorted_nodup (hr.cells_sorted k).1 (hr.cells_sorted k).2

/-- C21 (amended): on a lattice reached with sectors whose values do not contain
the separator, `SimulateFailure(d, v)` for the name `d` at position `i` returns a
lattice with the same dimension names, whose coordinates are exactly the
coordinates of the lattice whose value at position `i` differs from `v`, each with
the endpoints that it has in the lattice. -/
theorem failure_keeps_other_cells (rt : Runtime) (l : Lattice) (i : Nat) (d v : String)
    (hr : Reachable rt SeparatorFree l) (hd : GetDimensionName l i = .ok d) :
    ∃ r, SimulateFailure rt l d v = .ok r ∧ GetDimensionNames r = GetDimensionNames l ∧
      (∀ s, s ∈ GetAllCoordinates r ↔ s ∈ GetAllCoordinates l ∧ s[i]? ≠ some v) ∧
      ∀ s ∈ GetAllCoordinates r, GetEndpointsForSector r s = GetEndpointsForSector l s := by
  obtain ⟨r, h1, h2, h3, h4⟩ := SimulateFailure_exact v hr (getElem?_of_GetDimensionName hd)
  refine ⟨r, h1, h2, ?_, ?_⟩
  · intro s
    rw [mem_GetAllCoordinates, mem_GetAllCoordinates]
    constructor
    · rintro ⟨k, hk, rfl⟩
      exact ⟨⟨k, ((h3 k).1 hk).1, rfl⟩, ((h3 k).1 hk).2⟩
    · rintro ⟨⟨k, hk, rfl⟩, hv⟩
      exact ⟨k, (h3 k).2 ⟨hk, hv⟩, rfl⟩
  · intro s hs
    obtain ⟨k, hk, rfl⟩ := mem_GetAllCoordinates.1 hs
    unfold GetEndpointsForSector
    rw [h2, stringsJoin_stringsSplit, h4 k hk]

theorem failure_keeps_other_cells_witness :
    Reachable sampleRuntime SeparatorFree gridLattice ∧
      GetDimensionName gridLattice 0 = .ok "az" ∧
      ∃ r, SimulateFailure sampleRuntime gridLattice "az" "x" = .ok r ∧
        GetDimensionNames r = GetDimensionNames gridLattice ∧
        (∀ s, s ∈ GetAllCoordinates r ↔ s ∈ GetAllCoordinates gridLattice ∧ s[0]? ≠ some "x") ∧
        ∀ s ∈ GetAllCoordinates r,
          GetEndpointsForSector r s = GetEndpointsForSector gridLattice s :=
  ⟨gridLattice_reachable, by rfl,
    failure_keeps_other_cells sampleRuntime gridLattice 0 "az" "x" gridLattice_reachable
      (by rfl)⟩

/-- C22 (counterexample): `x` is a value of the dimension `az` of `gridLattice`,
and it is not a value of `az` in the lattice that `SimulateFailure("az", "x")`
returns. -/
theorem failure_forgets_failed_value :
    "x" ∈ GetDimensionValues gridLattice "az" ∧
      SimulateFailure sampleRuntime gridLattice "az" "x" = .ok gridWithoutX ∧
      GetDimensionValues gridWithoutX "az" = ["y"] ∧
      "x" ∉ GetDimensionValues gridWithoutX "az" :=
  ⟨by decide!, by rfl, by rfl, by decide!⟩

/-- C22 (amended): on every lattice that is reached from `NewLattice` by
`AddEndpointsForSector` and `SimulateFailure`, `SimulateFailure(d, v)` with a
dimension name `d` of the lattice returns a lattice in which `v` is not a value of
`d`: the failed value is removed together with its cells. -/
theorem failure_removes_failed_value (rt : Runtime) (l : Lattice) (d v : String)
    (hr : Reachable rt (fun _ => True) l) (hd : d ∈ GetDimensionNames l) :
    ∃ r, SimulateFailure rt l d v = .ok r ∧ v ∉ GetDimensionValues r d := by
  obtain ⟨r, hres⟩ := SimulateFailure_total hr hd v
  exact ⟨r, hres, SimulateFailure_removes_value hr.names_sorted.2.1 hr.names_sorted.2.2 hres⟩

theorem failure_removes_failed_value_witness :
    Reachable sampleRuntime (fun _ => True) gridLattice ∧
      "az" ∈ GetDimensionNames gridLattice ∧
      ∃ r, SimulateFailure sampleRuntime gridLattice "az" "x" = .ok r ∧
        "x" ∉ GetDimensionValues r "az" :=
  ⟨gridLattice_reachable.mono (fun _ _ => trivial), by decide!,
    failure_removes_failed_value sampleRuntime gridLattice "az" "x"
      (gridLattice_reachable.mono (fun _ _ => trivial)) (by decide!)⟩

/-- C23: on every lattice that is reached from `NewLattice`,
`SimulateFailure(dName, dVal)` returns an error exactly when `dName` is not a
dimension name of the lattice, and a lattice otherwise. -/
theorem failure_rejects_only_unknown_dimension (rt : Runtime) (l : Lattice)
    (dName dVal : String) (hr : Reachable rt (fun _ => True) l) :
    ((∃ e, SimulateFailure rt l dName dVal = .error e) ↔ dName ∉ GetDimensionNames l) ∧
      (dName ∈ GetDimensionNames l → ∃ r, SimulateFailure rt l dName dVal = .ok r) := by
  refine ⟨⟨?_, ?_⟩, fun hd => SimulateFailure_total hr hd dVal⟩
  · rintro ⟨e, he⟩ hd
    obtain ⟨r, hres⟩ := SimulateFailure_total hr hd dVal
    rw [hres] at he
    simp at he
  · intro hd
    obtain ⟨fresh, hnew⟩ := NewLatticeWithSeed_of_ne_nil rt.seed hr.names_sorted.1
    have hnew' : NewLattice rt l.DimensionNames = .ok fresh := hnew
    refine ⟨"lattice: unknown dimension name", ?_⟩
    unfold SimulateFailure
    rw [hnew']
    simp only
    have hd' : dName ∉ l.DimensionNames := hd
    rw [if_pos (indexOf_neg_iff.2 hd')]

theorem failure_rejects_only_unknown_dimension_witness :
    Reachable sampleRuntime (fun _ => True) gridLattice ∧
      ((∃ e, SimulateFailure sampleRuntime gridLattice "nginx" "1" = .error e) ↔
        "nginx" ∉ GetDimensionNames gridLattice) ∧
      ("nginx" ∈ GetDimensionNames gridLattice →
        ∃ r, SimulateFailure sampleRuntime gridLattice "nginx" "1" = .ok r) :=
  ⟨gridLattice_reachable.mono (fun _ _ => trivial),
    failure_rejects_only_unknown_dimension sampleRuntime gridLattice "nginx" "1"
      (gridLattice_reachable.mono (fun _ _ => trivial))⟩

/-! ## `GetAllEndpoints` and `GetDimensionality` -/

/-- C24: on every lattice that is reached from `NewLattice`, `GetAllEndpoints`
returns a sorted list without duplicates whose elements are exactly the endpoints
of the cells at the coordinates of the lattice. -/
theorem all_endpoints_is_sorted_union (rt : Runtime) (l : Lattice)
    (hr : Reachable rt (fun _ => True) l) :
    (GetAllEndpoints l).Sorted strLe ∧ (GetAllEndpoints l).Nodup ∧
      ∀ e, e ∈ GetAllEndpoints l ↔ ∃ s ∈ GetAllCoordinates l, e ∈ l.endpointsAt s := by
  refine ⟨set_sorted _, GetAllEndpoints_nodup l, ?_⟩
  intro e
  rw [mem_GetAllEndpoints]
  constructor
  · rintro ⟨kv, hkv, he⟩
    refine ⟨stringsSplit kv.1 seperator,
      mem_GetAllCoordinates.2 ⟨kv.1, List.mem_map.2 ⟨kv, hkv, rfl⟩, rfl⟩, ?_⟩
    unfold Lattice.endpointsAt Lattice.cell
    rw [stringsJoin_stringsSplit, mapGet_of_mem_nodup _ hr.keys_nodup hkv]
    exact he
  · rintro ⟨s, hs, he⟩
    exact mem_GetAllEndpoints.1 (GetAllEndpoints_of_cell he)

theorem all_endpoints_is_sorted_union_witness :
    Reachable sampleRuntime (fun _ => True) gridLattice ∧
      (GetAllEndpoints gridLattice).Sorted strLe ∧ (GetAllEndpoints gridLattice).Nodup ∧
      ∀ e, e ∈ GetAllEndpoints gridLattice ↔
        ∃ s ∈ GetAllCoordinates gridLattice, e ∈ gridLattice.endpointsAt s :=
  ⟨gridLattice_reachable.mono (fun _ _ => trivial),
    all_endpoints_is_sorted_union sampleRuntime gridLattice
      (gridLattice_reachable.mono (fun _ _ => trivial))⟩

theorem addAll_values (rt : Runtime) :
    ∀ (calls : List (List String × List String)) (l res : Lattice),
      l.DimensionNames.Nodup → addAll rt l calls = .ok res →
      res.DimensionNames = l.DimensionNames ∧
      ∀ (i : Nat) (d : String), l.DimensionNames[i]? = some d →
        ∀ v, v ∈ GetDimensionValues res d ↔
          v ∈ GetDimensionValues l d ∨ ∃ call ∈ calls, call.1[i]? = some v
  | [], l, res, _, h => by
    simp only [addAll, Outcome.ok.injEq] at h
    subst h
    exact ⟨rfl, by simp⟩
  | (sec, ep) :: calls, l, res, hn, h => by
    simp only [addAll] at h
    cases hadd : AddEndpointsForSector rt l sec ep with
    | error e => rw [hadd] at h; simp at h
    | panic => rw [hadd] at h; simp at h
    | ok l' =>
      rw [hadd] at h
      simp only at h
      have hlen := AddEndpointsForSector_ok_length hadd
      have heq := AddEndpointsForSector_ok_eq hadd
      have hnames : l'.DimensionNames = l.DimensionNames := by
        rw [heq, addIgnoringError_names]
      obtain ⟨r1, r2⟩ := addAll_values rt calls l' res (by rw [hnames]; exact hn) h
      refine ⟨by rw [r1, hnames], ?_⟩
      intro i d hd v
      have hi : i < sec.length := by
        rw [hlen]
        exact (List.getElem?_eq_some_iff.1 hd).1
      have hv : sec[i]? = some sec[i] := List.getElem?_eq_getElem hi
      rw [r2 i d (by rw [hnames]; exact hd) v, heq, GetDimensionValues_add hn hlen hd hv]
      constructor
      · rintro ((h1 | h1) | ⟨call, hc, hcv⟩)
        · exact Or.inl h1
        · exact Or.inr ⟨(sec, ep), List.mem_cons_self _ _, by rw [hv, h1]⟩
        · exact Or.inr ⟨call, List.mem_cons_of_mem _ hc, hcv⟩
      · rintro (h1 | ⟨call, hc, hcv⟩)
        · exact Or.inl (Or.inl h1)
        · rcases List.mem_cons.1 hc with hc | hc
          · subst hc
            simp only at hcv
            rw [hv] at hcv
            exact Or.inl (Or.inr (Option.some.inj hcv).symm)
          · exact Or.inr ⟨call, hc, hcv⟩

/-- C25: after `NewLattice(dims)` and successful calls of `AddEndpointsForSector`,
the keys of `GetDimensionality()` are the dimension names, and its value at the
name at position `i` is `GetDimensionSize` of that name, which is the number of
distinct values that the sectors of the calls have at position `i`. -/
theorem dimensionality_counts_values (rt : Runtime) (dims : List String)
    (calls : List (List String × List String)) (l₀ l : Lattice)
    (hnew : NewLattice rt dims = .ok l₀) (hadd : addAll rt l₀ calls = .ok l) :
    mapKeys (GetDimensionality l) = GetDimensionNames l ∧
      ∀ (i : Nat) (d : String), GetDimensionName l i = .ok d →
        mapGet (GetDimensionality l) d = some (GetDimensionSize l d) ∧
        GetDimensionSize l d = ((calls.filterMap (fun call => call.1[i]?)).dedup).length := by
  have hn₀ : l₀.DimensionNames.Nodup := by
    rw [(NewLattice_ok hnew).2.1]
    exact set_nodup _
  obtain ⟨hnames, hvals⟩ := addAll_values rt calls l₀ l hn₀ hadd
  have hn : l.DimensionNames.Nodup := by rw [hnames]; exact hn₀
  have hdim := GetDimensionality_of_nodup hn
  refine ⟨?_, ?_⟩
  · rw [hdim]
    simp [mapKeys, GetDimensionNames, Function.comp_def]
  · intro i d hd
    have hdi := getElem?_of_GetDimensionName hd
    refine ⟨?_, ?_⟩
    · apply mapGet_of_mem_nodup
      · rw [hdim]
        simpa [mapKeys, Function.comp_def] using hn
      · rw [hdim]
        exact List.mem_map.2 ⟨d, List.getElem?_mem hdi, rfl⟩
    · have hperm : (GetDimensionValues l d).Perm
          ((calls.filterMap (fun call => call.1[i]?)).dedup) := by
        rw [List.perm_ext_iff_of_nodup (GetDimensionValues_sorted l d).2 (List.nodup_dedup _)]
        intro v
        rw [hvals i d (by rw [← hnames]; exact hdi) v, NewLattice_values hnew, List.mem_dedup,
          List.mem_filterMap]
        simp
      exact hperm.length_eq

theorem dimensionality_counts_values_witness :
    NewLattice sampleRuntime ["az", "version"] = .ok twoDimLattice ∧
      addAll sampleRuntime twoDimLattice
        [(["x", "1"], ["a", "b"]), (["x", "2"], ["c", "d"]), (["y", "1"], ["e", "f"]),
          (["y", "2"], ["g", "h"])] = .ok gridLattice ∧
      mapKeys (GetDimensionality gridLattice) = GetDimensionNames gridLattice ∧
      ∀ (i : Nat) (d : String), GetDimensionName gridLattice i = .ok d →
        mapGet (GetDimensionality gridLattice) d = some (GetDimensionSize gridLattice d) ∧
        GetDimensionSize gridLattice d =
          (([((["x", "1"], ["a", "b"]) : List String × List String), (["x", "2"], ["c", "d"]),
            (["y", "1"], ["e", "f"]), (["y", "2"], ["g", "h"])].filterMap
              (fun call => call.1[i]?)).dedup).length :=
  ⟨twoDimLattice_new, by decide!,
    dimensionality_counts_values sampleRuntime ["az", "version"]
      [(["x", "1"], ["a", "b"]), (["x", "2"], ["c", "d"]), (["y", "1"], ["e", "f"]),
        (["y", "2"], ["g", "h"])] twoDimLattice gridLattice twoDimLattice_new (by decide!)⟩

/-! ## The keys of the store -/

theorem mem_saveFragment (shard : StatefulSharder) (f : List String) (x : String) :
    x ∈ (saveFragment shard f).store ↔ x ∈ shard.store ∨ x = sprintfV (sortStrings f) := by
  unfold saveFragment
  split
  · rename_i h
    constructor
    · exact Or.inl
    · rintro (h1 | h1)
      · exact h1
      · rw [h1]
        exact h
  · simp

theorem mem_foldl_saveFragment (x : String) :
    ∀ (frags : List (List String)) (shard : StatefulSharder),
      x ∈ (frags.foldl saveFragment shard).store ↔
        x ∈ shard.store ∨ ∃ g ∈ frags, x = sprintfV (sortStrings g)
  | [], shard => by simp
  | f :: frags, shard => by
    rw [List.foldl_cons, mem_foldl_saveFragment x frags, mem_saveFragment]
    constructor
    · rintro ((h | h) | ⟨g, hg, h⟩)
      · exact Or.inl h
      · exact Or.inr ⟨f, List.mem_cons_self _ _, h⟩
      · exact Or.inr ⟨g, List.mem_cons_of_mem _ hg, h⟩
    · rintro (h | ⟨g, hg, h⟩)
      · exact Or.inl (Or.inl h)
      · rcases List.mem_cons.1 hg with hg | hg
        · subst hg
          exact Or.inl (Or.inr h)
        · exact Or.inr ⟨g, hg, h⟩

theorem append_sep_inj {sp : Char} :
    ∀ (p q r₁ r₂ : List Char), sp ∉ p → sp ∉ q → p ++ sp :: r₁ = q ++ sp :: r₂ →
      p = q ∧ r₁ = r₂
  | [], [], r₁, r₂, _, _, h => by simpa using h
  | [], y :: q, r₁, r₂, _, hq, h => by
    simp only [List.nil_append, List.cons_append, List.cons.injEq] at h
    exact absurd (h.1 ▸ List.mem_cons_self _ _) hq
  | x :: p, [], r₁, r₂, hp, _, h => by
    simp only [List.nil_append, List.cons_append, List.cons.injEq] at h
    exact absurd (h.1 ▸ List.mem_cons_self _ _) hp
  | x :: p, y :: q, r₁, r₂, hp, hq, h => by
    simp only [List.cons_append, List.cons.injEq] at h
    obtain ⟨h1, h2⟩ := append_sep_inj p q r₁ r₂
      (fun hc => hp (List.mem_cons_of_mem _ hc)) (fun hc => hq (List.mem_cons_of_mem _ hc)) h.2
    exact ⟨by rw [h.1, h1], h2⟩

theorem joinChars_inj {sp : Char} :
    ∀ (f g : List (List Char)), f ≠ [] → g ≠ [] → (∀ p ∈ f, sp ∉ p) → (∀ q ∈ g, sp ∉ q) →
      joinChars [sp] f = joinChars [sp] g → f = g
  | [], _, hf, _, _, _, _ => absurd rfl hf
  | _ :: _, [], _, hg, _, _, _ => absurd rfl hg
  | [p], [q], _, _, _, _, h => by
    simp only [joinChars] at h
    rw [h]
  | [p], q :: q' :: qs, _, _, hp, _, h => by
    simp only [joinChars, List.append_assoc, List.singleton_append] at h
    have := hp p (List.mem_singleton_self _)
    rw [h] at this
    exact absurd (by simp) this
  | p :: p' :: ps, [q], _, _, _, hq, h => by
    simp only [joinChars, List.append_assoc, List.singleton_append] at h
    have := hq q (List.mem_singleton_self _)
    rw [← h] at this
    exact absurd (by simp) this
  | p :: p' :: ps, q :: q' :: qs, _, _, hp, hq, h => by
    simp only [joinChars, List.append_assoc, List.singleton_append] at h
    obtain ⟨h1, h2⟩ := append_sep_inj p q _ _ (hp p (List.mem_cons_self _ _))
      (hq q (List.mem_cons_self _ _)) h
    have := joinChars_inj (p' :: ps) (q' :: qs) (by simp) (by simp)
      (fun x hx => hp x (List.mem_cons_of_mem _ hx))
      (fun x hx => hq x (List.mem_cons_of_mem _ hx)) h2
    rw [h1, this]

/-- The text `fmt.Sprintf("%v", fragment)` determines a non-empty fragment whose
endpoints do not contain a space. -/
theorem sprintfV_injective {f g : List String} (hf : f ≠ []) (hg : g ≠ [])
    (sf : SpaceFree f) (sg : SpaceFree g) (h : sprintfV f = sprintfV g) : f = g := by
  unfold sprintfV stringsJoin at h
  have hd := congrArg String.data h
  simp only [String.data_append] at hd
  have hj : joinChars " ".data (f.map String.data) = joinChars " ".data (g.map String.data) := by
    have := List.append_cancel_left (List.append_cancel_right hd)
    simpa using this
  have hsp : " ".data = [Char.ofNat 32] := rfl
  rw [hsp] at hj
  have hm := joinChars_inj (f.map String.data) (g.map String.data) (by simpa using hf)
    (by simpa using hg)
    (by
      intro p hp
      obtain ⟨e, he, rfl⟩ := List.mem_map.1 hp
      exact sf e he)
    (by
      intro p hp
      obtain ⟨e, he, rfl⟩ := List.mem_map.1 hp
      exact sg e he) hj
  exact List.map_injective_iff.2 (fun a b hab => String.ext hab) hm

theorem SpaceFree.sortStrings {f : List String} (h : SpaceFree f) : SpaceFree (sortStrings f) :=
  fun e he => h e (mem_sortStrings.1 he)

theorem sortStrings_ne_nil {f : List String} (h : f ≠ []) : sortStrings f ≠ [] := by
  intro hc
  have := (sortStrings_perm f).length_eq
  rw [hc] at this
  exact h (List.length_eq_zero.1 this.symm)

/-- A fragment is used exactly when, once sorted, it is one of the saved fragments,
for endpoints that do not contain a space. -/
theorem isFragmentUsed_iff {saved : List (List String)} {f : List String}
    (hsaved : ∀ g ∈ saved, g ≠ [] ∧ SpaceFree g) (hf : f ≠ []) (sf : SpaceFree f) :
    isFragmentUsed (saved.foldl saveFragment NewStatefulSharder) f = true ↔
      ∃ g ∈ saved, sortStrings f = sortStrings g := by
  unfold isFragmentUsed
  rw [decide_eq_true_iff, mem_foldl_saveFragment]
  constructor
  · rintro (h | ⟨g, hg, h⟩)
    · simp [NewStatefulSharder] at h
    · exact ⟨g, hg, sprintfV_injective (sortStrings_ne_nil hf)
        (sortStrings_ne_nil (hsaved g hg).1) sf.sortStrings (hsaved g hg).2.sortStrings h⟩
  · rintro ⟨g, hg, h⟩
    exact Or.inr ⟨g, hg, by rw [h]⟩

/-- C27 (counterexample): after the fragment `{a b, c}` was saved,
`areThereTooManyCollisions` reports a collision for `{a, b c}` with `k = 1`, and
no sub-list of two elements of `{a, b c}` is, once sorted, the saved fragment. -/
theorem collision_check_confuses_spaces :
    areThereTooManyCollisions (saveFragment NewStatefulSharder ["a b", "c"]) ["a", "b c"] 1 =
        true ∧
      ∀ f : List String, f.Sublist ["a", "b c"] → f.length = 2 →
        sortStrings f ≠ sortStrings ["a b", "c"] := by
  refine ⟨by decide!, ?_⟩
  intro f hf hlen
  rw [hf.eq_of_length (by rw [hlen]; rfl)]
  decide!

/-- C27 (amended): for endpoints that do not contain a space, a store that holds
the saved fragments, a `haystack` of fewer than 63 endpoints and `k >= 0`,
`areThereTooManyCollisions(haystack, k)` returns true exactly when `haystack` has
more than `k` elements and a sub-list of `k + 1` elements of it is, once sorted, a
saved fragment. -/
theorem collision_check (saved : List (List String)) (haystack : List String) (k : Int)
    (hk : 0 ≤ k) (hsaved : ∀ g ∈ saved, g ≠ [] ∧ SpaceFree g) (hhay : SpaceFree haystack)
    (h63 : haystack.length < 63) :
    areThereTooManyCollisions (saved.foldl saveFragment NewStatefulSharder) haystack k = true ↔
      k < (haystack.length : Int) ∧
        ∃ f, f.Sublist haystack ∧ (f.length : Int) = k + 1 ∧
          ∃ g ∈ saved, sortStrings f = sortStrings g := by
  have hfree : ∀ f : List String, f.Sublist haystack → SpaceFree f :=
    fun f hf e he => hhay e (hf.subset he)
  have hne : ∀ f : List String, (f.length : Int) = k + 1 → f ≠ [] := by
    intro f hf hc
    rw [hc] at hf
    simp at hf
    omega
  unfold areThereTooManyCollisions
  by_cases h1 : (haystack.length : Int) ≤ k
  · rw [if_pos h1]
    constructor
    · intro h
      simp at h
    · rintro ⟨h, _⟩
      omega
  · have hwrap : toInt64 (k + 1) = k + 1 := toInt64_of_range (by omega) (by omega)
    rw [if_neg h1, hwrap]
    by_cases h2 : (haystack.length : Int) = k + 1
    · rw [if_pos h2, isFragmentUsed_iff hsaved (hne _ h2) hhay]
      constructor
      · intro h
        exact ⟨by omega, haystack, List.Sublist.refl _, h2, h⟩
      · rintro ⟨_, f, hf, hlen, h⟩
        rw [hf.eq_of_length (by omega)] at h
        exact h
    · rw [if_neg h2, List.any_eq_true]
      constructor
      · rintro ⟨f, hf, hused⟩
        obtain ⟨hsub, hlen⟩ := (mem_Combinations (by omega) (by omega) h63).1 hf
        exact ⟨by omega, f, hsub, hlen,
          (isFragmentUsed_iff hsaved (hne f hlen) (hfree f hsub)).1 hused⟩
      · rintro ⟨_, f, hsub, hlen, h⟩
        exact ⟨f, (mem_Combinations (by omega) (by omega) h63).2 ⟨hsub, hlen⟩,
          (isFragmentUsed_iff hsaved (hne f hlen) (hfree f hsub)).2 h⟩

theorem collision_check_witness :
    (0 : Int) ≤ 1 ∧ (∀ g ∈ [["B", "C"], ["D", "E"]], g ≠ [] ∧ SpaceFree g) ∧
      SpaceFree ["A", "B", "C"] ∧ (["A", "B", "C"] : List String).length < 63 ∧
      (areThereTooManyCollisions
          ([["B", "C"], ["D", "E"]].foldl saveFragment NewStatefulSharder) ["A", "B", "C"] 1 =
            true ↔
        (1 : Int) < ((["A", "B", "C"] : List String).length : Int) ∧
          ∃ f, f.Sublist ["A", "B", "C"] ∧ (f.length : Int) = 1 + 1 ∧
            ∃ g ∈ [["B", "C"], ["D", "E"]], sortStrings f = sortStrings g) :=
  ⟨by decide, by unfold SpaceFree; decide!, by unfold SpaceFree; decide!, by decide,
    collision_check [["B", "C"], ["D", "E"]] ["A", "B", "C"] 1 (by decide)
      (by unfold SpaceFree; decide!) (by unfold SpaceFree; decide!) (by decide)⟩

/-! ## The store after a call of `StatefulShuffleShard` -/

theorem mem_Combinations_clamped {s f : List String} {n : Int} (h0 : 0 < n) (hs : s ≠ [])
    (h63 : s.length < 63) :
    f ∈ Combinations s n ↔ f.Sublist s ∧ (f.length : Int) = min n s.length := by
  by_cases hn : n ≤ s.length
  · rw [mem_Combinations h0 hn h63, min_eq_left hn]
  · have hlt : (s.length : Int) < n := not_le.1 hn
    have hpos : 0 < s.length := List.length_pos.2 hs
    rw [min_eq_right (le_of_lt hlt), Combinations_of_lt n h63]
    simp only [hlt, if_true, List.mem_filter, List.mem_sublists, Bool.and_eq_true,
      Bool.or_eq_true, decide_eq_true_eq]
    constructor
    · rintro ⟨h1, _, h3 | h3⟩
      · omega
      · exact ⟨h1, h3⟩
    · rintro ⟨h1, h2⟩
      refine ⟨h1, ?_, Or.inr h2⟩
      intro hf
      subst hf
      simp at h2
      omega

/-- C28 (counterexample): with `k = 5` the call returns a shard of four endpoints,
and the store gets the single entry of these four endpoints: there is no sub-list
of `k + 1 = 6` endpoints of the shard. -/
theorem store_keeps_short_fragment :
    (StatefulShuffleShard sampleRuntime NewStatefulSharder sampleRand azLattice 2 5).map
        (fun r => (r.1, r.2.1)) =
        some (.ok azShard, { store := [sprintfV ["B", "C", "D", "E"]] }) ∧
      GetAllEndpoints azShard = ["B", "C", "D", "E"] ∧
      ∀ f : List String, f.Sublist (GetAllEndpoints azShard) → f.length ≠ 5 + 1 := by
  refine ⟨by rfl, by rfl, ?_⟩
  intro f hf hlen
  have := hf.length_le
  rw [hlen] at this
  exact absurd this (by decide!)

/-- C28 (amended): for `0 <= k < 2^63 - 1`, where `k + 1` does not wrap around, a
call of `StatefulShuffleShard` returns; when it returns a shard of `n < 63`
endpoints, the store afterwards holds what it held and the keys of the sorted
sub-lists of `min(k + 1, n)` endpoints of the shard, and nothing else; when it
returns no shard, the store is as it was. -/
theorem store_update (rt : Runtime) (shard : StatefulSharder) (g : Rand) (l : Lattice)
    (epc k : Int) (hk : 0 ≤ k) (hmax : k < 2 ^ 63 - 1) :
    ∃ out shard' l' g', StatefulShuffleShard rt shard g l epc k = some (out, shard', l', g') ∧
      (∀ s, out = .ok s → (GetAllEndpoints s).length < 63 → ∀ x, x ∈ shard'.store ↔
        x ∈ shard.store ∨ ∃ f, f.Sublist (GetAllEndpoints s) ∧
          (f.length : Int) = min (k + 1) (GetAllEndpoints s).length ∧
          x = sprintfV (sortStrings f)) ∧
      ((∀ s, out ≠ .ok s) → shard' = shard) := by
  have hsome := StatefulShuffleShard_isSome rt shard g l epc k
  cases hres : StatefulShuffleShard rt shard g l epc k with
  | none => rw [hres] at hsome; simp at hsome
  | some t =>
    obtain ⟨out, shard', l', g'⟩ := t
    refine ⟨out, shard', l', g', rfl, ?_, fun hout => StatefulShuffleShard_not_ok hres hout⟩
    intro s hs h63 x
    subst hs
    obtain ⟨_, _, hne, hstore⟩ := StatefulShuffleShard_ok hres
    have hwrap : toInt64 (k + 1) = k + 1 := toInt64_of_range (by omega) (by omega)
    rw [hstore, hwrap, mem_foldl_saveFragment]
    constructor
    · rintro (h | ⟨f, hf, hx⟩)
      · exact Or.inl h
      · obtain ⟨h1, h2⟩ := (mem_Combinations_clamped (by omega) hne h63).1 hf
        exact Or.inr ⟨f, h1, h2, hx⟩
    · rintro (h | ⟨f, h1, h2, hx⟩)
      · exact Or.inl h
      · exact Or.inr ⟨f, (mem_Combinations_clamped (by omega) hne h63).2 ⟨h1, h2⟩, hx⟩

theorem store_update_witness :
    (0 : Int) ≤ 1 ∧ (1 : Int) < 2 ^ 63 - 1 ∧
      ∃ out shard' l' g',
        StatefulShuffleShard sampleRuntime NewStatefulSharder sampleRand azLattice 2 1 =
          some (out, shard', l', g') ∧
        (∀ s, out = .ok s → (GetAllEndpoints s).length < 63 → ∀ x, x ∈ shard'.store ↔
          x ∈ NewStatefulSharder.store ∨ ∃ f, f.Sublist (GetAllEndpoints s) ∧
            (f.length : Int) = min ((1 : Int) + 1) (GetAllEndpoints s).length ∧
            x = sprintfV (sortStrings f)) ∧
        ((∀ s, out ≠ .ok s) → shard' = NewStatefulSharder) :=
  ⟨by decide, by decide,
    store_update sampleRuntime NewStatefulSharder sampleRand azLattice 2 1 (by decide) (by decide)⟩

/-! ## The depth of the recursion -/

theorem stringsSplit_injective {a b : String}
    (h : stringsSplit a seperator = stringsSplit b seperator) : a = b := by
  rw [← stringsJoin_stringsSplit a seperator, h, stringsJoin_stringsSplit]

theorem length_GetAllCoordinates (l : Lattice) :
    (GetAllCoordinates l).length = (set (mapKeys l.EndpointsByCoordinate)).length := by
  unfold GetAllCoordinates
  rw [List.length_map]

/-- C29: the call `StatefulShuffleShard` returns within the bound of one level of
recursion per cell of the lattice; the complement of a coordinate of a lattice with
dimension names, on which the recursive call is made, has fewer coordinates than
the lattice and does not have that coordinate. -/
theorem recursion_on_smaller_complement (rt : Runtime) (shard : StatefulSharder) (g : Rand)
    (lattice comp : Lattice) (epc k : Int) (coordinate : List String)
    (hn : GetDimensionNames lattice ≠ []) (hc : coordinate ∈ GetAllCoordinates lattice)
    (h : complement rt lattice coordinate = .ok comp) :
    (StatefulShuffleShard rt shard g lattice epc k).isSome = true ∧
      (GetAllCoordinates comp).length < (GetAllCoordinates lattice).length ∧
      coordinate ∉ GetAllCoordinates comp := by
  obtain ⟨key, hkey, rfl⟩ := mem_GetAllCoordinates.1 hc
  have hspec := complement_spec hn h
  have hnot := complement_not_mem hn h
  refine ⟨StatefulShuffleShard_isSome rt shard g lattice epc k, ?_, ?_⟩
  · rw [length_GetAllCoordinates, length_GetAllCoordinates]
    have hsub : (key :: set (mapKeys comp.EndpointsByCoordinate)).Subperm
        (set (mapKeys lattice.EndpointsByCoordinate)) := by
      apply List.subperm_of_subset
      · rw [List.nodup_cons]
        exact ⟨fun hm => hnot (mem_set.1 hm), set_nodup _⟩
      · intro x hx
        rcases List.mem_cons.1 hx with hx | hx
        · rw [hx]
          exact mem_set.2 hkey
        · exact mem_set.2 (hspec.1 x (mem_set.1 hx)).1
    have := hsub.length_le
    simp only [List.length_cons] at this
    omega
  · intro hm
    obtain ⟨k', hk', heq⟩ := mem_GetAllCoordinates.1 hm
    rw [stringsSplit_injective heq] at hnot
    exact hnot hk'

set_option maxRecDepth 100000 in
theorem recursion_on_smaller_complement_witness :
    GetDimensionNames gridLattice ≠ [] ∧ ["x", "1"] ∈ GetAllCoordinates gridLattice ∧
      complement sampleRuntime gridLattice ["x", "1"] = .ok gridComplement ∧
      (StatefulShuffleShard sampleRuntime NewStatefulSharder sampleRand gridLattice 1 1).isSome =
        true ∧
      (GetAllCoordinates gridComplement).length < (GetAllCoordinates gridLattice).length ∧
      ["x", "1"] ∉ GetAllCoordinates gridComplement :=
  ⟨by decide!, by decide!, by rfl,
    recursion_on_smaller_complement sampleRuntime NewStatefulSharder sampleRand gridLattice
      gridComplement 1 1 ["x", "1"] (by decide!) (by decide!) (by rfl)⟩

/-! ## The coordinates of a stateful shard -/

/-- Every round of the loop of the complement drops the cells that have the value
of the coordinate at the position of the round. -/
theorem complementLoop_indices (rt : Runtime) (lattice : Lattice) (coordinate : List String)
    (hs : lattice.DimensionNames.Sorted strLe) (hn : lattice.DimensionNames.Nodup) :
    ∀ (idx : List Nat) (start comp : Lattice),
      start.DimensionNames = lattice.DimensionNames →
      complementLoop rt lattice coordinate idx start = .ok comp →
      comp.DimensionNames = lattice.DimensionNames ∧
      ∀ k ∈ mapKeys comp.EndpointsByCoordinate,
        k ∈ mapKeys start.EndpointsByCoordinate ∧
          ∀ i ∈ idx, (stringsSplit k seperator)[i]? ≠ coordinate[i]?
  | [], start, comp, hst, h => by
    simp only [complementLoop, Outcome.ok.injEq] at h
    subst h
    exact ⟨hst, fun k hk => ⟨hk, by simp⟩⟩
  | i :: rest, start, comp, hst, h => by
    unfold complementLoop at h
    cases hd : GetDimensionName lattice i with
    | error e => simp [hd] at h
    | panic => simp [hd] at h
    | ok d =>
      cases hv : coordinate[i]? with
      | none => simp [hd, hv] at h
      | some v =>
        simp only [hd, hv] at h
        cases hsf : SimulateFailure rt start d v with
        | error e => simp [hsf] at h
        | panic => simp [hsf] at h
        | ok c =>
          simp only [hsf] at h
          have hcn : c.DimensionNames = lattice.DimensionNames := by
            rw [SimulateFailure_names (by rw [hst]; exact hs) (by rw [hst]; exact hn) hsf, hst]
          obtain ⟨r1, r2⟩ := complementLoop_indices rt lattice coordinate hs hn rest c comp hcn h
          obtain ⟨_, _, s3, _, _⟩ := SimulateFailure_spec hsf
          have hidx : (indexOf start.DimensionNames d).toNat = i := by
            rw [hst, indexOf_of_nodup hn (getElem?_of_GetDimensionName hd)]
            simp
          rw [hidx] at s3
          refine ⟨r1, ?_⟩
          intro k hk
          obtain ⟨hk1, hk2⟩ := r2 k hk
          obtain ⟨hk3, ⟨w, hw1, hw2⟩, _⟩ := s3 k hk1
          refine ⟨hk3, ?_⟩
          intro j hj
          rcases List.mem_cons.1 hj with hj | hj
          · rw [hj, hw1, hv]
            intro hc
            exact hw2 (Option.some.inj hc)
          · exact hk2 j hj

theorem complement_indices {rt : Runtime} {lattice comp : Lattice} {coordinate : List String}
    (hs : lattice.DimensionNames.Sorted strLe) (hn : lattice.DimensionNames.Nodup)
    (h : complement rt lattice coordinate = .ok comp) :
    comp.DimensionNames = lattice.DimensionNames ∧
      ∀ k ∈ mapKeys comp.EndpointsByCoordinate,
        k ∈ mapKeys lattice.EndpointsByCoordinate ∧
          ∀ i, i < lattice.DimensionNames.length →
            (stringsSplit k seperator)[i]? ≠ coordinate[i]? := by
  unfold complement at h
  obtain ⟨r1, r2⟩ := complementLoop_indices rt lattice coordinate hs hn _ lattice comp rfl h
  refine ⟨r1, fun k hk => ⟨(r2 k hk).1, fun i hi => (r2 k hk).2 i ?_⟩⟩
  rw [GetDimensionality_of_nodup hn, List.length_map]
  exact List.mem_range.2 hi

/-- Two keys of a result of the search differ at every position, and every key of
it splits into as many values as there are dimensions. -/
theorem Search_apart {rt : Runtime} {shard : StatefulSharder} {epc k : Int}
    {lattice res : Lattice} (h : Search rt shard epc k lattice res) :
    lattice.DimensionNames.Sorted strLe → lattice.DimensionNames.Nodup →
    (∀ k₁ ∈ mapKeys res.EndpointsByCoordinate,
      (stringsSplit k₁ seperator).length = lattice.DimensionNames.length) ∧
    ∀ k₁ ∈ mapKeys res.EndpointsByCoordinate, ∀ k₂ ∈ mapKeys res.EndpointsByCoordinate,
      k₁ ≠ k₂ → ∀ i, i < lattice.DimensionNames.length →
        (stringsSplit k₁ seperator)[i]? ≠ (stringsSplit k₂ seperator)[i]? := by
  induction h with
  | empty lattice res hnew =>
    intro _ _
    rw [(NewLattice_ok hnew).2.2]
    simp [mapKeys]
  | pick lattice l₁ l₂ compliment compliment₁ picked key coordinate fragment hl₁ _ _ hcoord _
      hcomp hlen _ _ hsh hsearch _ ih =>
    intro hs hn
    have hs₁ : l₁.DimensionNames.Sorted strLe := by rw [hl₁.2.1]; exact hs
    have hn₁ : l₁.DimensionNames.Nodup := by rw [hl₁.2.1]; exact hn
    obtain ⟨c1, c2⟩ := complement_indices hs₁ hn₁ hcomp
    have hcn : compliment₁.DimensionNames = lattice.DimensionNames := by
      rw [hsh.2.1, c1, hl₁.2.1]
    obtain ⟨ih1, ih2⟩ := ih (by rw [hcn]; exact hs) (by rw [hcn]; exact hn)
    rw [hcn] at ih1 ih2
    have hjoin : stringsJoin coordinate seperator = key := by
      rw [hcoord, stringsJoin_stringsSplit]
    have hpicked : ∀ k' ∈ mapKeys picked.EndpointsByCoordinate,
        ∀ i, i < lattice.DimensionNames.length →
          (stringsSplit k' seperator)[i]? ≠ coordinate[i]? := by
      intro k' hk' i hi
      have h1 := (Search_local hsearch k' hk').1
      have h2 := hsh.mem_keys.1 h1
      exact (c2 k' h2).2 i (by rw [hl₁.2.1]; exact hi)
    have hkeys : ∀ k' ∈ mapKeys (addIgnoringError rt picked coordinate
        fragment).EndpointsByCoordinate,
        k' = key ∨ k' ∈ mapKeys picked.EndpointsByCoordinate := by
      intro k' hk'
      rcases addIgnoringError_keys rt picked coordinate fragment hk' with h | h
      · exact Or.inl (by rw [h, hjoin])
      · exact Or.inr h
    have hsplit : stringsSplit key seperator = coordinate := hcoord.symm
    refine ⟨?_, ?_⟩
    · intro k₁ hk₁
      rcases hkeys k₁ hk₁ with h | h
      · rw [h, hsplit]
        exact hlen
      · exact ih1 k₁ h
    · intro k₁ hk₁ k₂ hk₂ hne i hi
      rcases hkeys k₁ hk₁ with h1 | h1 <;> rcases hkeys k₂ hk₂ with h2 | h2
      · exact absurd (h1.trans h2.symm) hne
      · rw [h1, hsplit]
        exact fun hc => hpicked k₂ h2 i hi hc.symm
      · rw [h2, hsplit]
        exact hpicked k₁ h1 i hi
      · exact ih2 k₁ h1 k₂ h2 hne i hi

theorem forall₂_ne_of_getElem? :
    ∀ (a b : List String), a.length = b.length → (∀ i, i < a.length → a[i]? ≠ b[i]?) →
      List.Forall₂ (fun x y => x ≠ y) a b
  | [], [], _, _ => List.Forall₂.nil
  | [], _ :: _, h, _ => by simp at h
  | _ :: _, [], h, _ => by simp at h
  | x :: a, y :: b, h, hi => by
    refine List.Forall₂.cons ?_ (forall₂_ne_of_getElem? a b (by simpa using h) ?_)
    · intro hc
      exact hi 0 (by simp) (by simp [hc])
    · intro i hlt
      have := hi (i + 1) (by simpa using hlt)
      simpa using this

/-- C30: two coordinates of a shard that `StatefulShuffleShard` returns on a
lattice built by the package differ at every position. -/
theorem stateful_shard_one_cell_per_slice (rt : Runtime) (shard : StatefulSharder) (g : Rand)
    (l s : Lattice) (epc k : Int) (hb : Built rt l)
    (h : (StatefulShuffleShard rt shard g l epc k).map Prod.fst = some (.ok s)) :
    (GetAllCoordinates s).Pairwise (List.Forall₂ (fun a b => a ≠ b)) := by
  obtain ⟨shard', l', g', h'⟩ := StatefulShuffleShard_of_map h
  obtain ⟨h1, h2⟩ := Search_apart (StatefulShuffleShard_ok h').1 hb.names.2.1 hb.names.2.2
  unfold GetAllCoordinates
  rw [List.pairwise_map]
  refine (set_nodup (mapKeys s.EndpointsByCoordinate)).imp_of_mem ?_
  intro a b ha hb' hab
  exact forall₂_ne_of_getElem? _ _ (by rw [h1 a (mem_set.1 ha), h1 b (mem_set.1 hb')])
    (fun i hi => h2 a (mem_set.1 ha) b (mem_set.1 hb') hab i (by rw [← h1 a (mem_set.1 ha)]; exact hi))

set_option maxRecDepth 100000 in
theorem stateful_shard_one_cell_per_slice_witness :
    Built sampleRuntime gridLattice ∧
      (StatefulShuffleShard sampleRuntime NewStatefulSharder sampleRand gridLattice 1 1).map
        Prod.fst = some (.ok gridDiagonal) ∧
      (GetAllCoordinates gridDiagonal).Pairwise (List.Forall₂ (fun a b => a ≠ b)) :=
  ⟨gridLattice_built, by rfl,
    stateful_shard_one_cell_per_slice sampleRuntime NewStatefulSharder sampleRand gridLattice
      gridDiagonal 1 1 gridLattice_built (by rfl)⟩

/-! ## The order of two calls of `AddEndpointsForSector` -/

/-- The values that the loop at the end of `AddEndpointsForSector` leaves for a
dimension are the former ones and the values of the sector at the positions of
the dimension. -/
theorem mem_addValues (d x : String) :
    ∀ (ds vs : List String) (m : List (String × List String)),
      x ∈ (mapGet (addValues ds vs m) d).getD [] ↔
        x ∈ (mapGet m d).getD [] ∨ (d, x) ∈ ds.zip vs
  | [], _, _ => by simp [addValues]
  | _ :: _, [], _ => by simp [addValues]
  | d₀ :: ds, v₀ :: vs, m => by
    simp only [addValues, List.zip_cons_cons, List.mem_cons, Prod.mk.injEq]
    rw [mem_addValues d x ds vs]
    by_cases hd : d = d₀
    · subst hd
      rw [mapGet_mapSet_self]
      simp only [Option.getD_some, mem_set, List.mem_append, List.mem_singleton, true_and]
      tauto
    · rw [mapGet_mapSet_ne _ hd]
      simp only [hd, false_and, false_or]

theorem mem_GetDimensionValues_add (rt : Runtime) (l : Lattice) (sec ep : List String)
    (hlen : sec.length = l.DimensionNames.length) (d x : String) :
    x ∈ GetDimensionValues (addIgnoringError rt l sec ep) d ↔
      x ∈ GetDimensionValues l d ∨ (d, x) ∈ l.DimensionNames.zip sec := by
  unfold GetDimensionValues
  rw [addIgnoringError_eq rt l sec ep hlen]
  simp only [mem_set]
  exact mem_addValues d x _ _ _

theorem mem_cell_add (rt : Runtime) (l : Lattice) (sec ep : List String)
    (hlen : sec.length = l.DimensionNames.length) (k x : String) :
    x ∈ ((addIgnoringError rt l sec ep).cell k).elems ↔
      x ∈ (l.cell k).elems ∨ (k = stringsJoin sec seperator ∧ x ∈ ep) := by
  by_cases hk : k = stringsJoin sec seperator
  · subst hk
    rw [addIgnoringError_cell_self rt l sec ep hlen, mem_set, List.mem_append]
    tauto
  · rw [addIgnoringError_cell_ne rt l sec ep hk]
    simp [hk]

theorem cell_add_sorted (rt : Runtime) (l : Lattice) (sec ep : List String)
    (hlen : sec.length = l.DimensionNames.length) (k : String)
    (h : (l.cell k).elems.Sorted strLe ∧ (l.cell k).elems.Nodup) :
    ((addIgnoringError rt l sec ep).cell k).elems.Sorted strLe ∧
      ((addIgnoringError rt l sec ep).cell k).elems.Nodup := by
  by_cases hk : k = stringsJoin sec seperator
  · subst hk
    rw [addIgnoringError_cell_self rt l sec ep hlen]
    exact ⟨set_sorted _, set_nodup _⟩
  · rw [addIgnoringError_cell_ne rt l sec ep hk]
    exact h

/-- Two calls of `AddEndpointsForSector` in either order give the same cells. -/
theorem cell_add_add (rt : Runtime) (l : Lattice) (s₁ e₁ s₂ e₂ : List String)
    (h₁ : s₁.length = l.DimensionNames.length) (h₂ : s₂.length = l.DimensionNames.length)
    (k : String) :
    ((addIgnoringError rt (addIgnoringError rt l s₁ e₁) s₂ e₂).cell k).elems =
      ((addIgnoringError rt (addIgnoringError rt l s₂ e₂) s₁ e₁).cell k).elems := by
  have h₂' : s₂.length = (addIgnoringError rt l s₁ e₁).DimensionNames.length := by
    rw [addIgnoringError_names]
    exact h₂
  have h₁' : s₁.length = (addIgnoringError rt l s₂ e₂).DimensionNames.length := by
    rw [addIgnoringError_names]
    exact h₁
  by_cases hk₁ : k = stringsJoin s₁ seperator <;> by_cases hk₂ : k = stringsJoin s₂ seperator
  · have hj : stringsJoin s₁ seperator = stringsJoin s₂ seperator := hk₁.symm.trans hk₂
    rw [hk₂, addIgnoringError_cell_self rt _ s₂ e₂ h₂', ← hj,
      addIgnoringError_cell_self rt _ s₁ e₁ h₁', addIgnoringError_cell_self rt l s₁ e₁ h₁, hj,
      addIgnoringError_cell_self rt l s₂ e₂ h₂, ← hj]
    apply set_ext
    intro x
    simp only [List.mem_append, mem_set]
    tauto
  · rw [addIgnoringError_cell_ne rt _ s₂ e₂ hk₂, hk₁,
      addIgnoringError_cell_self rt _ s₁ e₁ h₁', addIgnoringError_cell_self rt l s₁ e₁ h₁,
      addIgnoringError_cell_ne rt l s₂ e₂ (hk₁ ▸ hk₂)]
  · rw [addIgnoringError_cell_ne rt _ s₁ e₁ hk₁, hk₂,
      addIgnoringError_cell_self rt _ s₂ e₂ h₂', addIgnoringError_cell_self rt l s₂ e₂ h₂,
      addIgnoringError_cell_ne rt l s₁ e₁ (hk₂ ▸ hk₁)]
  · rw [addIgnoringError_cell_ne rt _ s₂ e₂ hk₂, addIgnoringError_cell_ne rt l s₁ e₁ hk₁,
      addIgnoringError_cell_ne rt _ s₁ e₁ hk₁, addIgnoringError_cell_ne rt l s₂ e₂ hk₂]

theorem addAll_two (rt : Runtime) (l : Lattice) (s₁ e₁ s₂ e₂ : List String)
    (h₁ : s₁.length = l.DimensionNames.length) (h₂ : s₂.length = l.DimensionNames.length) :
    addAll rt l [(s₁, e₁), (s₂, e₂)] =
      .ok (addIgnoringError rt (addIgnoringError rt l s₁ e₁) s₂ e₂) := by
  have h₂' : s₂.length = (addIgnoringError rt l s₁ e₁).DimensionNames.length := by
    rw [addIgnoringError_names]
    exact h₂
  have e1 : AddEndpointsForSector rt l s₁ e₁ = .ok (addIgnoringError rt l s₁ e₁) := by
    rw [AddEndpointsForSector_eq rt l s₁ e₁ h₁, addIgnoringError_eq rt l s₁ e₁ h₁]
  have e2 : AddEndpointsForSector rt (addIgnoringError rt l s₁ e₁) s₂ e₂ =
      .ok (addIgnoringError rt (addIgnoringError rt l s₁ e₁) s₂ e₂) := by
    rw [AddEndpointsForSector_eq rt _ s₂ e₂ h₂', addIgnoringError_eq rt _ s₂ e₂ h₂']
  simp only [addAll, e1, e2]

/-- The order of two calls whose arguments share no array with a cell of the
lattice: two successful calls of `AddEndpointsForSector` give, in either order,
lattices with the same dimension names, the same coordinates, the same endpoints
at every sector and the same values of every dimension. -/
theorem add_order_does_not_matter (rt : Runtime) (l : Lattice) (s₁ e₁ s₂ e₂ : List String)
    (h₁ : s₁.length = l.DimensionNames.length) (h₂ : s₂.length = l.DimensionNames.length) :
    ∃ a b, addAll rt l [(s₁, e₁), (s₂, e₂)] = .ok a ∧ addAll rt l [(s₂, e₂), (s₁, e₁)] = .ok b ∧
      GetDimensionNames a = GetDimensionNames b ∧
      GetAllCoordinates a = GetAllCoordinates b ∧
      (∀ sec, GetEndpointsForSector a sec = GetEndpointsForSector b sec) ∧
      ∀ d, GetDimensionValues a d = GetDimensionValues b d := by
  have h₂' : s₂.length = (addIgnoringError rt l s₁ e₁).DimensionNames.length := by
    rw [addIgnoringError_names]
    exact h₂
  have h₁' : s₁.length = (addIgnoringError rt l s₂ e₂).DimensionNames.length := by
    rw [addIgnoringError_names]
    exact h₁
  refine ⟨_, _, addAll_two rt l s₁ e₁ s₂ e₂ h₁ h₂, addAll_two rt l s₂ e₂ s₁ e₁ h₂ h₁, ?_, ?_, ?_, ?_⟩
  · unfold GetDimensionNames
    simp only [addIgnoringError_names]
  · apply GetAllCoordinates_congr
    intro k
    rw [addIgnoringError_eq rt _ s₂ e₂ h₂', addIgnoringError_eq rt _ s₁ e₁ h₁']
    simp only
    rw [mem_mapKeys_mapSet, mem_mapKeys_mapSet, addIgnoringError_eq rt l s₁ e₁ h₁,
      addIgnoringError_eq rt l s₂ e₂ h₂]
    simp only
    rw [mem_mapKeys_mapSet, mem_mapKeys_mapSet]
    tauto
  · intro sec
    unfold GetEndpointsForSector
    simp only [addIgnoringError_names]
    rw [cell_add_add rt l s₁ e₁ s₂ e₂ h₁ h₂]
  · intro d
    apply sorted_nodup_ext (GetDimensionValues_sorted _ d).1 (GetDimensionValues_sorted _ d).1
      (GetDimensionValues_sorted _ d).2 (GetDimensionValues_sorted _ d).2
    intro x
    rw [mem_GetDimensionValues_add rt _ s₂ e₂ h₂' d x,
      mem_GetDimensionValues_add rt l s₁ e₁ h₁ d x,
      mem_GetDimensionValues_add rt _ s₁ e₁ h₁' d x,
      mem_GetDimensionValues_add rt l s₂ e₂ h₂ d x]
    simp only [addIgnoringError_names]
    tauto

theorem add_order_does_not_matter_witness :
    ["x", "1"].length = gridLattice.DimensionNames.length ∧
      ["z", "1"].length = gridLattice.DimensionNames.length ∧
      ∃ a b,
        addAll sampleRuntime gridLattice [(["x", "1"], ["q", "a"]), (["z", "1"], ["r"])] = .ok a ∧
        addAll sampleRuntime gridLattice [(["z", "1"], ["r"]), (["x", "1"], ["q", "a"])] = .ok b ∧
        GetDimensionNames a = GetDimensionNames b ∧
        GetAllCoordinates a = GetAllCoordinates b ∧
        (∀ sec, GetEndpointsForSector a sec = GetEndpointsForSector b sec) ∧
        ∀ d, GetDimensionValues a d = GetDimensionValues b d :=
  ⟨by decide, by decide,
    add_order_does_not_matter sampleRuntime gridLattice ["x", "1"] ["q", "a"] ["z", "1"] ["r"]
      (by decide) (by decide)⟩

/-! ## The seed of `SimpleShuffleShard` -/

theorem shardRand_eq (rt : Runtime) (l : Lattice) (id : List Nat) :
    shardRand rt l id = { draws := rt.source (shardSeed rt l id), pos := 0 } := rfl

theorem shardSeed_zero (rt : Runtime) (l : Lattice) (id : List Nat) (h : l.Seed = 0) :
    shardSeed rt l id = 0 := by
  unfold shardSeed
  rw [h]
  simp [toInt64]

/-- C31: on `cellLattice`, with the slice `eps` that `GetEndpointsForSector(["x"])`
returned, the calls `AddEndpointsForSector(["y"], eps[:1])` and
`AddEndpointsForSector(["y"], ["z"])` succeed in either order and leave `a, b, c`
in the cell `x` in this order and `a, z, c` in the other, where the first of the
two finds the cell `y` and writes `z` into the array of `eps`. -/
theorem add_order_matters_for_cell_part :
    ∃ a b,
      addAllOf sampleRuntime cellLattice [(["y"], .ofCell "x" 0 1), (["y"], .own ["z"])] = .ok a ∧
      addAllOf sampleRuntime cellLattice [(["y"], .own ["z"]), (["y"], .ofCell "x" 0 1)] = .ok b ∧
      GetEndpointsForSector a ["x"] = .ok ["a", "b", "c"] ∧
      GetEndpointsForSector b ["x"] = .ok ["a", "z", "c"] ∧
      GetEndpointsForSector a ["y"] = .ok ["a", "z"] ∧
      GetEndpointsForSector b ["y"] = .ok ["a", "z"] :=
  ⟨_, _, rfl, rfl, by rfl, by rfl, by rfl, by rfl⟩

/-- C32: the seed that `SimpleShuffleShard` gives to the generator is
`l.Seed * int64(hash(id)) * 42` in wrapping 64-bit arithmetic; on a lattice with
`Seed = 0` it is 0 for every identifier, and the calls with two identifiers return
the same shard and leave the same lattice. -/
theorem zero_seed_disables_identifier (rt : Runtime) (l : Lattice) (id₁ id₂ : List Nat)
    (epc : Int) (h : l.Seed = 0) :
    shardSeed rt l id₁ =
        toInt64 (l.Seed * toInt64 (rt.sum64WithSeed id₁ (l.Seed % 2 ^ 32).toNat) * 42) ∧
      shardSeed rt l id₁ = 0 ∧ shardSeed rt l id₂ = 0 ∧
      shardRand rt l id₁ = { draws := rt.source 0, pos := 0 } ∧
      SimpleShuffleShard rt l id₁ epc = SimpleShuffleShard rt l id₂ epc := by
  have hr : ∀ id, shardRand rt l id = { draws := rt.source 0, pos := 0 } := by
    intro id
    rw [shardRand_eq, shardSeed_zero rt l id h]
  refine ⟨rfl, shardSeed_zero rt l id₁ h, shardSeed_zero rt l id₂ h, hr id₁, ?_⟩
  unfold SimpleShuffleShard
  rw [hr id₁, hr id₂]

theorem zeroSeedLattice_built :
    (match NewLatticeWithSeed 0 ["dimX"] with
      | .ok l => AddEndpointsForSector sampleRuntime l ["x"] ["a", "b", "c"]
      | o => o) = .ok zeroSeedLattice := by decide!

theorem zero_seed_disables_identifier_witness :
    zeroSeedLattice.Seed = 0 ∧
      shardSeed sampleRuntime zeroSeedLattice [1] =
        toInt64 (zeroSeedLattice.Seed *
          toInt64 (sampleRuntime.sum64WithSeed [1] (zeroSeedLattice.Seed % 2 ^ 32).toNat) * 42) ∧
      shardSeed sampleRuntime zeroSeedLattice [1] = 0 ∧
      shardSeed sampleRuntime zeroSeedLattice [2] = 0 ∧
      shardRand sampleRuntime zeroSeedLattice [1] = { draws := sampleRuntime.source 0, pos := 0 } ∧
      SimpleShuffleShard sampleRuntime zeroSeedLattice [1] 2 =
        SimpleShuffleShard sampleRuntime zeroSeedLattice [2] 2 :=
  ⟨rfl, zero_seed_disables_identifier sampleRuntime zeroSeedLattice [1] [2] 2 rfl⟩

/-! ## The limits of the machine integers

`Combinations` enumerates nothing for 63 or more elements, and `maximumOverlap+1`
wraps around at the greatest `int`.  The statements above that depend on either
carry a bound; these evaluations show what the package does beyond it. -/

set_option maxRecDepth 1000000 in
/-- A list of 63 endpoints passes the collision check although it holds a saved
fragment of `k + 1 = 2` endpoints: there is no combination to look up. -/
theorem collision_check_misses_in_63_endpoints :
    (GetAllEndpoints sevenCellsShard).length = 63 ∧
      ["a0", "a1"].Sublist (GetAllEndpoints sevenCellsShard) ∧
      areThereTooManyCollisions (saveFragment NewStatefulSharder ["a0", "a1"])
        (GetAllEndpoints sevenCellsShard) 1 = false ∧
      areThereTooManyCollisions (saveFragment NewStatefulSharder ["a0", "a1"])
        ["a0", "a1", "a2"] 1 = true := by
  refine ⟨by rfl, ?_, by rfl, by rfl⟩
  decide!

set_option maxRecDepth 1000000 in
theorem wideLattice_built :
    (match NewLattice sampleRuntime ["dimX"] with
      | .ok l => AddEndpointsForSector sampleRuntime l ["x"] (GetAllEndpoints sevenCellsShard)
      | o => o) = .ok wideLattice := by rfl

set_option maxRecDepth 1000000 in
/-- The first call on a single cell of `n = 63` endpoints with `epc = 63` and
`k = 0` returns no shard: the cell has no combination. -/
theorem first_call_fails_on_63_endpoints :
    (wideLattice.cell "x").elems.length = 63 ∧
      (StatefulShuffleShard sampleRuntime NewStatefulSharder sampleRand wideLattice 63 0).map
        (fun r => (r.1, r.2.1)) = some (.error "No shards available", NewStatefulSharder) := by
  refine ⟨by rfl, by rfl⟩

set_option maxRecDepth 1000000 in
/-- A call that returns a shard of 63 endpoints adds nothing to the store. -/
theorem store_unchanged_by_63_endpoints :
    (StatefulShuffleShard sampleRuntime NewStatefulSharder sampleRand sevenCells 9 55).map
        (fun r => (r.1, r.2.1)) = some (.ok sevenCellsShard, NewStatefulSharder) ∧
      (GetAllEndpoints sevenCellsShard).length = 63 := by
  refine ⟨by rfl, by rfl⟩

set_option maxRecDepth 100000 in
/-- With the greatest `int` as `maximumOverlap`, the sum `maximumOverlap+1` is the
least `int`, and the call saves every non-empty sub-list of the four endpoints of
the shard. -/
theorem store_at_greatest_overlap_holds_every_sublist :
    toInt64 ((2 ^ 63 - 1) + 1) = -2 ^ 63 ∧
      (StatefulShuffleShard sampleRuntime NewStatefulSharder sampleRand azLattice 2
          (2 ^ 63 - 1)).map (fun r => (r.1, r.2.1)) =
        some (.ok azShard,
          { store := ["[B]", "[C]", "[B C]", "[D]", "[B D]", "[C D]", "[B C D]", "[E]", "[B E]",
              "[C E]", "[B C E]", "[D E]", "[B D E]", "[C D E]", "[B C D E]"] }) := by
  refine ⟨by rfl, by rfl⟩

end Shuffle
